import Mathlib

/-!
Tpetra::Map — index-mapping layer (packages/tpetra/src/Tpetra_Map_def.hpp)

Shallow embedding of the three `Tpetra::Map` constructors, of the lookup and
comparison methods and of the nonmember constructors, followed by an embedding
of `Anasazi::BasicEigenproblem` (namespace `Anasazi`).

Conventions of the embedding

* `GlobalOrdinal` and `LocalOrdinal` are template parameters of the source.
  The constructors are embedded twice.  `Map.mkUniform`, `Map.mkContig` and
  `Map.mkNonContig` take them as `Int`, a signed ordinal whose arithmetic does
  not wrap; they are used for the lookup, comparison and validation
  properties.  `Map.mkUniformGO` and `Map.mkContigGO` take `GlobalOrdinal` as
  the signed two's-complement integer of `bits` bits: every result of an
  addition, subtraction, multiplication or conversion in `GlobalOrdinal` is
  reduced by `wrapGO bits`, and `fitsGO bits x` says that `x` is a value of the
  type.  The properties of the partition arithmetic (start indices, offsets,
  computed global count) are stated for these.
* `global_size_t` and `size_t` are unsigned and are embedded as `Nat`; the
  sentinel `GSTI` is the largest 64-bit value.  The expression
  `indexBase + numGlobalElements - 1`, which the source evaluates with
  wrap-around and converts back to `GlobalOrdinal`, is `indexBase - 1` for a
  zero count in both readings.  Sums of `global_size_t` counts in `reduceAll`
  are taken without the wrap-around at `2 ^ 64`.
* `createWeightedContigMapWithNode` computes in `double` and `int`.  A
  `double` is embedded as a pair of integers (significand and binary
  exponent) with round-to-nearest-even after each operation, an `int` as an
  integer reduced by `wrapInt` (32 bits, two's complement).  A conversion from
  `double` to `int` whose value is outside the range of `int` is undefined
  behaviour and gives `none`.
* A communicator is its size `numProcs`; the arguments that the processes pass
  to a collective constructor are a function `args : Nat → _` of the rank (only
  ranks below `numProcs` are read).  A constructor is embedded as the function
  that gives, for a rank, the outcome on that rank.
* The collectives of `Teuchos::Comm` are embedded as functions of the values
  contributed by the ranks; every rank is taken to reach the collective.
* `setupDirectory ()`, the last statement of each constructor, builds the
  `Tpetra::Directory`, which stores nothing in the members embedded here; it
  is left out.
* A thrown exception is an `Except.error`.  Where ranks can enter different
  collectives (`Map.mkContigGO`, `createWeightedContigMapWithNode`) the outcome
  is an `Option`, and `none` says that the call does not return a defined
  result.
-/

namespace Tpetra

/-! ## Sentinels and small types -/

/-- Modelled from the spec: `Teuchos::OrdinalTraits<global_size_t>::invalid()`,
the sentinel meaning "compute the global count"; `global_size_t` is an unsigned
64-bit integer and its sentinel is the largest value. -/
def GSTI : Nat := 2 ^ 64 - 1

/-- Modelled from the spec: `Teuchos::OrdinalTraits<LocalOrdinal>::invalid()`,
the "not found" sentinel of a local offset.  The source compares the result of
the table lookup with `-1` before returning it. -/
def invalidLO : Int := -1

/-- Modelled from the spec: `Teuchos::OrdinalTraits<GlobalOrdinal>::invalid()`,
the sentinel returned for a local offset that is out of range (signed ordinal). -/
def invalidGO : Int := -1

/-- The enum `Tpetra::LocalGlobal`. -/
inductive LocalGlobal where
  | LocallyReplicated
  | GloballyDistributed
  deriving DecidableEq, Repr

/-- The classes of exception that the constructors throw. -/
inductive ExceptionClass where
  | invalid_argument
  | logic_error
  | runtime_error
  deriving DecidableEq, Repr

/-- The throw sites of the three constructors, one per message. -/
inductive MapError where
  /-- "All processes must provide the same number of global elements." -/
  | numGlobalNotSame
  /-- "All processes must provide the same indexBase argument." (debug check)
  and "The given values for the index base ... do not match" (code 3). -/
  | indexBaseNotSame
  /-- "numGlobalElements must be nonnegative" and code 1. -/
  | negativeNumGlobal
  /-- "You provided numGlobalElements = invalid()" (even-split constructor). -/
  | invalidNumGlobal
  /-- "The sum of numLocalElements over all processes != numGlobalElements"
  and code 2. -/
  | sumNotNumGlobal
  /-- "globalSum != debugGlobalSum" (please report this bug). -/
  | globalSumBug
  /-- "Should never get here!" -/
  | shouldNeverGetHere
  /-- "Minimum global ID over all process(es) is less than the given indexBase". -/
  | minBelowIndexBase
  deriving DecidableEq, Repr

/-- The exception class thrown at each site. -/
def MapError.exceptionClass : MapError → ExceptionClass
  | .numGlobalNotSame => .invalid_argument
  | .indexBaseNotSame => .invalid_argument
  | .negativeNumGlobal => .invalid_argument
  | .invalidNumGlobal => .invalid_argument
  | .sumNotNumGlobal => .invalid_argument
  | .globalSumBug => .logic_error
  | .shouldNeverGetHere => .logic_error
  | .minBelowIndexBase => .invalid_argument

/-! ## Collectives -/

/-- Modelled from the spec: `reduceAll(value, SUM)` of `Teuchos::Comm`; every
rank receives the sum of the values of ranks `0 .. numProcs-1`. -/
def reduceAllSum (numProcs : Nat) (vals : Nat → Nat) : Nat :=
  ((List.range numProcs).map vals).sum

/-- Modelled from the spec: `reduceAll(value, MIN)`; `mine` is the value of the
calling rank (one of `vals`). -/
def reduceAllMin {α : Type} [Min α] (numProcs : Nat) (vals : Nat → α) (mine : α) : α :=
  ((List.range numProcs).map vals).foldl min mine

/-- Modelled from the spec: `reduceAll(value, MAX)`; `mine` is the value of the
calling rank (one of `vals`). -/
def reduceAllMax {α : Type} [Max α] (numProcs : Nat) (vals : Nat → α) (mine : α) : α :=
  ((List.range numProcs).map vals).foldl max mine

/-- Modelled from the spec: `broadcast(value, rootRank)`; every rank receives
the value held by `rootRank`. -/
def broadcast {α : Type} (vals : Nat → α) (rootRank : Nat) : α :=
  vals rootRank

/-- Modelled from the spec: `scan(value, SUM)`, the inclusive prefix sum: rank
`myRank` receives the sum of the values of ranks `0 .. myRank`. -/
def scan (vals : Nat → Int) (myRank : Nat) : Int :=
  ((List.range (myRank + 1)).map vals).sum

/-! ## The global-to-local table -/

/-- Modelled from the spec: `Tpetra::Details::HashTable` (the type
`global_to_local_table_type` of `glMap_`), whose source is not part of the
files at hand.  It maps a global ID to a local offset; `add` records a pair,
`get` gives the offset recorded most recently for the key and `-1` for a key
that was never added. -/
structure HashTable where
  /-- The recorded pairs, the most recent first. -/
  entries : List (Int × Int)
  deriving DecidableEq, Repr

/-- The table constructor; the size hint has no effect on the contents. -/
def HashTable.new (_size : Nat) : HashTable := ⟨[]⟩

/-- Modelled from the spec: `HashTable::add(key, value)`. -/
def HashTable.add (t : HashTable) (key : Int) (value : Int) : HashTable :=
  ⟨(key, value) :: t.entries⟩

/-- Modelled from the spec: `HashTable::get(key)`. -/
def HashTable.get (t : HashTable) (key : Int) : Int :=
  match t.entries.lookup key with
  | some v => v
  | none => -1

/-! ## The Map object -/

/-- The data members of `Tpetra::Map` (with the size of the communicator and
the rank of the owning process, read through `comm_`). -/
structure Map where
  commSize : Nat
  commRank : Nat
  numGlobalElements_ : Nat
  numLocalElements_ : Nat
  indexBase_ : Int
  minMyGID_ : Int
  maxMyGID_ : Int
  minAllGID_ : Int
  maxAllGID_ : Int
  contiguous_ : Bool
  distributed_ : Bool
  /-- The local-to-global table; the empty list stands for a null `ArrayRCP`. -/
  lgMap_ : List Int
  glMap_ : HashTable
  deriving DecidableEq, Repr

/-- `Map::checkIsDist`: `numGlobalElements_` and `numLocalElements_` give the
members of the Map under construction on every rank. -/
def checkIsDist (commSize : Nat) (numGlobalElements_ numLocalElements_ : Nat → Nat)
    (myRank : Nat) : Bool :=
  if commSize > 1 then
    let localRep : Nat → Nat := fun r =>
      if numGlobalElements_ r = numLocalElements_ r then 1 else 0
    let allLocalRep := reduceAllMin commSize localRep (localRep myRank)
    if allLocalRep ≠ 1 then true else false
  else false

/-! ## Constructor 1: even split (or locally replicated) -/

/-- The arguments one process passes to the first constructor. -/
structure UniformArgs where
  numGlobalElements : Nat
  indexBase : Int
  lOrG : LocalGlobal
  deriving DecidableEq, Repr

/-- `Map::Map (numGlobalElements, indexBase, comm, lOrG, node)` on rank
`myRank`.  `HAVE_TPETRA_DEBUG` is the build option of the same name.  The
arithmetic in `GlobalOrdinal` is taken without wrap-around; `Map.mkUniformGO`
is the constructor for a `GlobalOrdinal` of a fixed width, and it builds the
same Map when the IDs are values of the type (`mkUniformGO_eq_mkUniform`). -/
def Map.mkUniform (HAVE_TPETRA_DEBUG : Bool) (numProcs : Nat) (args : Nat → UniformArgs)
    (myRank : Nat) : Except MapError Map :=
  let numGlobalElements := (args myRank).numGlobalElements
  let indexBase := (args myRank).indexBase
  let lOrG := (args myRank).lOrG
  let minNumGlobalElements :=
    reduceAllMin numProcs (fun r => (args r).numGlobalElements) numGlobalElements
  let maxNumGlobalElements :=
    reduceAllMax numProcs (fun r => (args r).numGlobalElements) numGlobalElements
  let minIndexBase := reduceAllMin numProcs (fun r => (args r).indexBase) indexBase
  let maxIndexBase := reduceAllMax numProcs (fun r => (args r).indexBase) indexBase
  if HAVE_TPETRA_DEBUG ∧
      (minNumGlobalElements ≠ maxNumGlobalElements ∨ numGlobalElements ≠ minNumGlobalElements) then
    .error .numGlobalNotSame
  else if HAVE_TPETRA_DEBUG ∧ (minIndexBase ≠ maxIndexBase ∨ indexBase ≠ minIndexBase) then
    .error .indexBaseNotSame
  else if numGlobalElements < 1 ∧ numGlobalElements ≠ 0 then
    .error .negativeNumGlobal
  else if numGlobalElements = GSTI then
    .error .invalidNumGlobal
  else
    match lOrG with
    | .GloballyDistributed =>
      let quotient := numGlobalElements / numProcs
      let remainder := numGlobalElements - quotient * numProcs
      let numLocalElements : Nat := if myRank < remainder then 1 + quotient else quotient
      let startIndex : Int :=
        if myRank < remainder then (myRank : Int) * (numLocalElements : Int)
        else (myRank : Int) * (numLocalElements : Int) + (remainder : Int)
      .ok { commSize := numProcs
            commRank := myRank
            minMyGID_ := indexBase + startIndex
            maxMyGID_ := indexBase + startIndex + numLocalElements - 1
            minAllGID_ := indexBase
            maxAllGID_ := indexBase + numGlobalElements - 1
            distributed_ := decide (numProcs > 1)
            indexBase_ := indexBase
            numGlobalElements_ := numGlobalElements
            numLocalElements_ := numLocalElements
            contiguous_ := true
            lgMap_ := []
            glMap_ := HashTable.new 0 }
    | .LocallyReplicated =>
      .ok { commSize := numProcs
            commRank := myRank
            minMyGID_ := indexBase
            maxMyGID_ := indexBase + numGlobalElements - 1
            distributed_ := false
            minAllGID_ := indexBase
            maxAllGID_ := indexBase + numGlobalElements - 1
            indexBase_ := indexBase
            numGlobalElements_ := numGlobalElements
            numLocalElements_ := numGlobalElements
            contiguous_ := true
            lgMap_ := []
            glMap_ := HashTable.new 0 }

/-! ## Constructor 2: user-specified local counts (contiguous) -/

/-- The arguments one process passes to the second constructor. -/
structure ContigArgs where
  numGlobalElements : Nat
  numLocalElements : Nat
  indexBase : Int
  deriving DecidableEq, Repr

/-- The value the second constructor stores in `numGlobalElements_` on rank
`myRank` (the `if (numGlobalElements != GSTI) ... else ...` block). -/
def Map.contigNumGlobal (numProcs : Nat) (args : Nat → ContigArgs) (myRank : Nat) : Nat :=
  let numGlobalElements := (args myRank).numGlobalElements
  let scanResult : Nat → Int := fun r => scan (fun q => ((args q).numLocalElements : Int)) r
  if numGlobalElements ≠ GSTI then
    numGlobalElements
  else
    let globalSum : Nat :=
      if numProcs > 1 then broadcast (fun r => (scanResult r).toNat) (numProcs - 1)
      else (scanResult myRank).toNat
    globalSum

/-- The local offset `myOffset` computed by the second constructor on rank
`myRank`: the result of the inclusive scan of the local counts, minus the
rank's own local count. -/
def Map.contigMyOffset (args : Nat → ContigArgs) (myRank : Nat) : Int :=
  let numLocalElements := (args myRank).numLocalElements
  let scanResult : Int := scan (fun q => ((args q).numLocalElements : Int)) myRank
  scanResult - numLocalElements

/-- `Map::Map (numGlobalElements, numLocalElements, indexBase, comm, node)` on
rank `myRank`, with the scan and the offsets taken without wrap-around and
every rank taken to complete its collectives.  `Map.mkContigGO` is the
constructor for a `GlobalOrdinal` of a fixed width, which also tells when the
ranks do not return; it has the same outcome when the ranks agree on the
sentinel and the IDs and the count are values of the type
(`mkContigGO_eq_mkContig`). -/
def Map.mkContig (HAVE_TPETRA_DEBUG : Bool) (numProcs : Nat) (args : Nat → ContigArgs)
    (myRank : Nat) : Except MapError Map :=
  let numGlobalElements := (args myRank).numGlobalElements
  let numLocalElements := (args myRank).numLocalElements
  let indexBase := (args myRank).indexBase
  let debugGlobalSum := reduceAllSum numProcs (fun r => (args r).numLocalElements)
  let minNumGlobalElements :=
    reduceAllMin numProcs (fun r => (args r).numGlobalElements) numGlobalElements
  let maxNumGlobalElements :=
    reduceAllMax numProcs (fun r => (args r).numGlobalElements) numGlobalElements
  let minIndexBase := reduceAllMin numProcs (fun r => (args r).indexBase) indexBase
  let maxIndexBase := reduceAllMax numProcs (fun r => (args r).indexBase) indexBase
  if HAVE_TPETRA_DEBUG ∧
      (minNumGlobalElements ≠ maxNumGlobalElements ∨ numGlobalElements ≠ minNumGlobalElements) then
    .error .numGlobalNotSame
  else if HAVE_TPETRA_DEBUG ∧ (minIndexBase ≠ maxIndexBase ∨ indexBase ≠ minIndexBase) then
    .error .indexBaseNotSame
  else if HAVE_TPETRA_DEBUG ∧ (numGlobalElements ≠ GSTI ∧ debugGlobalSum ≠ numGlobalElements) then
    .error .sumNotNumGlobal
  else
    let myOffset : Int := Map.contigMyOffset args myRank
    let numGlobalElements_ := Map.contigNumGlobal numProcs args myRank
    if HAVE_TPETRA_DEBUG ∧ numGlobalElements = GSTI ∧ numGlobalElements_ ≠ debugGlobalSum then
      .error .globalSumBug
    else
      .ok { commSize := numProcs
            commRank := myRank
            numGlobalElements_ := numGlobalElements_
            numLocalElements_ := numLocalElements
            indexBase_ := indexBase
            minAllGID_ := indexBase
            maxAllGID_ := indexBase + numGlobalElements_ - 1
            minMyGID_ := indexBase + myOffset
            maxMyGID_ := indexBase + myOffset + numLocalElements - 1
            contiguous_ := true
            distributed_ :=
              checkIsDist numProcs (Map.contigNumGlobal numProcs args)
                (fun r => (args r).numLocalElements) myRank
            lgMap_ := []
            glMap_ := HashTable.new 0 }

/-! ## Constructor 3: explicit list of global IDs -/

/-- The arguments one process passes to the third constructor. -/
structure NonContigArgs where
  numGlobalElements_in : Nat
  entryList : List Int
  indexBase_in : Int
  deriving DecidableEq, Repr

/-- The variables written by the loop that fills the two tables. -/
structure TableState where
  lgMap_ : List Int
  glMap_ : HashTable
  numUniqueGIDs : Nat
  minMyGID_ : Int
  maxMyGID_ : Int
  deriving DecidableEq, Repr

/-- One iteration of `for (size_t i=0; i < numLocalElements_; i++)`, with
`entry = entryList[i]`; iteration `i` writes slot `i` of `lgMap_`, which is the
end of the slots written so far. -/
def Map.fillStep (s : TableState) (entry : Int) : TableState :=
  { lgMap_ := s.lgMap_ ++ [entry]
    glMap_ := s.glMap_.add entry s.numUniqueGIDs
    numUniqueGIDs := s.numUniqueGIDs + 1
    minMyGID_ := if entry < s.minMyGID_ then entry else s.minMyGID_
    maxMyGID_ := if entry > s.maxMyGID_ then entry else s.maxMyGID_ }

/-- The local pass of the third constructor over `entryList`: the defaults
`minMyGID_ = maxMyGID_ = indexBase_`, then the table construction loop. -/
def Map.fillTables (indexBase_ : Int) (entryList : List Int) : TableState :=
  let numLocalElements_ := entryList.length
  match entryList with
  | [] =>
    { lgMap_ := []
      glMap_ := HashTable.new numLocalElements_
      numUniqueGIDs := 0
      minMyGID_ := indexBase_
      maxMyGID_ := indexBase_ }
  | entry0 :: _ =>
    entryList.foldl Map.fillStep
      { lgMap_ := []
        glMap_ := HashTable.new numLocalElements_
        numUniqueGIDs := 0
        minMyGID_ := entry0
        maxMyGID_ := entry0 }

/-- The array `localChecks` of the third constructor on rank `myRank`, after
the three local tests. -/
def Map.localChecks (numProcs : Nat) (args : Nat → NonContigArgs) (myRank : Nat) : Int × Int :=
  let numGlobalElements_in := (args myRank).numGlobalElements_in
  let indexBase_in := (args myRank).indexBase_in
  let global_sum := reduceAllSum numProcs (fun r => (args r).entryList.length)
  let checks1 : Int × Int :=
    if numGlobalElements_in < 1 ∧ numGlobalElements_in ≠ 0 ∧ numGlobalElements_in ≠ GSTI then
      ((myRank : Int), 1)
    else if numGlobalElements_in ≠ GSTI ∧ numGlobalElements_in ≠ global_sum then
      ((myRank : Int), 2)
    else
      (-1, 0)
  let rootIndexBase := broadcast (fun r => (args r).indexBase_in) 0
  if indexBase_in ≠ rootIndexBase then ((myRank : Int), 3) else checks1

/-- The array `globalChecks`: the element-wise maximum of `localChecks` over
the ranks. -/
def Map.globalChecks (numProcs : Nat) (args : Nat → NonContigArgs) (myRank : Nat) : Int × Int :=
  (reduceAllMax numProcs (fun r => (Map.localChecks numProcs args r).1)
      (Map.localChecks numProcs args myRank).1,
   reduceAllMax numProcs (fun r => (Map.localChecks numProcs args r).2)
      (Map.localChecks numProcs args myRank).2)

/-- The value the third constructor stores in `numGlobalElements_`. -/
def Map.nonContigNumGlobal (numProcs : Nat) (args : Nat → NonContigArgs) (myRank : Nat) : Nat :=
  let global_sum := reduceAllSum numProcs (fun r => (args r).entryList.length)
  if (args myRank).numGlobalElements_in = GSTI then global_sum
  else (args myRank).numGlobalElements_in

/-- `Map::Map (numGlobalElements_in, entryList, indexBase_in, comm_in, node_in)`
on rank `myRank`. -/
def Map.mkNonContig (numProcs : Nat) (args : Nat → NonContigArgs) (myRank : Nat) :
    Except MapError Map :=
  let entryList := (args myRank).entryList
  let indexBase_in := (args myRank).indexBase_in
  let numLocalElements_in := entryList.length
  let globalChecks := Map.globalChecks numProcs args myRank
  if globalChecks.1 ≠ -1 then
    if globalChecks.2 = 1 then .error .negativeNumGlobal
    else if globalChecks.2 = 2 then .error .sumNotNumGlobal
    else if globalChecks.2 = 3 then .error .indexBaseNotSame
    else .error .shouldNeverGetHere
  else
    let numGlobalElements_ := Map.nonContigNumGlobal numProcs args myRank
    let numLocalElements_ := numLocalElements_in
    let indexBase_ := indexBase_in
    let tables := Map.fillTables indexBase_ entryList
    let tablesOf : Nat → TableState := fun r =>
      Map.fillTables (args r).indexBase_in (args r).entryList
    let minAllGID_ := reduceAllMin numProcs (fun r => (tablesOf r).minMyGID_) tables.minMyGID_
    let maxAllGID_ := reduceAllMax numProcs (fun r => (tablesOf r).maxMyGID_) tables.maxMyGID_
    let distributed_ :=
      checkIsDist numProcs (Map.nonContigNumGlobal numProcs args)
        (fun r => (args r).entryList.length) myRank
    if minAllGID_ < indexBase_ then
      .error .minBelowIndexBase
    else
      .ok { commSize := numProcs
            commRank := myRank
            numGlobalElements_ := numGlobalElements_
            numLocalElements_ := numLocalElements_
            indexBase_ := indexBase_
            minMyGID_ := tables.minMyGID_
            maxMyGID_ := tables.maxMyGID_
            minAllGID_ := minAllGID_
            maxAllGID_ := maxAllGID_
            contiguous_ := false
            distributed_ := distributed_
            lgMap_ := tables.lgMap_
            glMap_ := tables.glMap_ }

/-! ## Local lookups -/

/-- `Map::getMinGlobalIndex`. -/
def Map.getMinGlobalIndex (m : Map) : Int := m.minMyGID_

/-- `Map::getMaxGlobalIndex`. -/
def Map.getMaxGlobalIndex (m : Map) : Int := m.maxMyGID_

/-- `Map::getNodeNumElements`. -/
def Map.getNodeNumElements (m : Map) : Nat := m.numLocalElements_

/-- `Map::getGlobalNumElements`. -/
def Map.getGlobalNumElements (m : Map) : Nat := m.numGlobalElements_

/-- Modelled from the spec: `Map::getMinLocalIndex` (declared in
`Tpetra_Map_decl.hpp`): local offsets start at zero. -/
def Map.getMinLocalIndex (_m : Map) : Int := 0

/-- Modelled from the spec: `Map::getMaxLocalIndex` (declared in
`Tpetra_Map_decl.hpp`): the valid local offsets are `[0, localCount)`, so the
largest is the local count minus one. -/
def Map.getMaxLocalIndex (m : Map) : Int := (m.numLocalElements_ : Int) - 1

/-- `Map::isContiguous`. -/
def Map.isContiguous (m : Map) : Bool := m.contiguous_

/-- `Map::isDistributed`. -/
def Map.isDistributed (m : Map) : Bool := m.distributed_

/-- `Map::getLocalElement`. -/
def Map.getLocalElement (m : Map) (globalIndex : Int) : Int :=
  if m.isContiguous then
    if globalIndex < m.getMinGlobalIndex ∨ globalIndex > m.getMaxGlobalIndex then
      invalidLO
    else
      globalIndex - m.getMinGlobalIndex
  else
    let i := m.glMap_.get globalIndex
    if i = -1 then invalidLO else i

/-- `Map::getGlobalElement`.  `lgMap_[localIndex]` is read only for an offset
that passed the range test. -/
def Map.getGlobalElement (m : Map) (localIndex : Int) : Int :=
  if localIndex < m.getMinLocalIndex ∨ localIndex > m.getMaxLocalIndex then
    invalidGO
  else if m.isContiguous then
    m.getMinGlobalIndex + localIndex
  else
    m.lgMap_.getD localIndex.toNat 0

/-- `Map::isNodeLocalElement`. -/
def Map.isNodeLocalElement (m : Map) (localIndex : Int) : Bool :=
  if localIndex < m.getMinLocalIndex ∨ localIndex > m.getMaxLocalIndex then false
  else true

/-- `Map::isNodeGlobalElement`. -/
def Map.isNodeGlobalElement (m : Map) (globalIndex : Int) : Bool :=
  if m.isContiguous then
    decide (m.getMinGlobalIndex ≤ globalIndex) && decide (globalIndex ≤ m.getMaxGlobalIndex)
  else
    let i := m.glMap_.get globalIndex
    decide (i ≠ -1)

/-- `Map::getIndexBase`. -/
def Map.getIndexBase (m : Map) : Int := m.indexBase_

/-- `Map::getNodeElementList`: the list of the global IDs owned by the calling
process.  When the local-to-global table does not exist yet and there are
local elements, the method fills it with the loop
`for (gid = minMyGID_; gid <= maxMyGID_; ++gid)`; the table it caches in the
`mutable` member is the list it returns. -/
def Map.getNodeElementList (m : Map) : List Int :=
  if m.lgMap_ = [] ∧ m.numLocalElements_ > 0 then
    (List.range (m.maxMyGID_ - m.minMyGID_ + 1).toNat).map (fun (k : Nat) => m.minMyGID_ + (k : Int))
  else
    m.lgMap_

/-- `Map::getMinAllGlobalIndex`. -/
def Map.getMinAllGlobalIndex (m : Map) : Int := m.minAllGID_

/-- `Map::getMaxAllGlobalIndex`. -/
def Map.getMaxAllGlobalIndex (m : Map) : Int := m.maxAllGID_

/-! ## Comparison of two Maps -/

/-- `Map::isCompatible` on rank `myRank`.  `thisMap q` and `map q` are the two
Maps on rank `q`, `numProcs` is the size of `comm_`; `locallyCompat` is the
`char` each rank contributes to the reduction. -/
def Map.isCompatible (numProcs : Nat) (thisMap map : Nat → Map) (myRank : Nat) : Bool :=
  let locallyCompat : Nat → Nat := fun q =>
    if (thisMap q).getGlobalNumElements ≠ (map q).getGlobalNumElements ∨
        (thisMap q).getNodeNumElements ≠ (map q).getNodeNumElements then
      0
    else
      1
  let globallyCompat := reduceAllMin numProcs locallyCompat (locallyCompat myRank)
  decide (globallyCompat = 1)

/-- The local part of `Map::isSameAs`: the value of `isSame_lcl` that a rank
contributes to the reduction.  `std::equal (ge1.begin (), ge1.end (),
ge2.begin ())` compares the entries of `ge1` with the entries of `ge2` at the
same positions. -/
def Map.isSame_lcl (thisMap map : Map) : Nat :=
  if thisMap.getNodeNumElements ≠ map.getNodeNumElements then
    0
  else if thisMap.isContiguous ∧ map.isContiguous then
    if thisMap.getMinGlobalIndex ≠ map.getMinGlobalIndex ∨
        thisMap.getMaxGlobalIndex ≠ map.getMaxGlobalIndex then
      0
    else
      1
  else
    let ge1 := thisMap.getNodeElementList
    let ge2 := map.getNodeElementList
    if ¬ (ge1 = ge2.take ge1.length) then 0 else 1

/-- `Map::isSameAs` on rank `myRank`.  `thisMap q` and `map q` are the two
Maps on rank `q`, `numProcs` is the size of `comm_`, and `sameObject` is the
outcome of the test `this == &map`. -/
def Map.isSameAs (numProcs : Nat) (thisMap map : Nat → Map) (sameObject : Bool)
    (myRank : Nat) : Bool :=
  if sameObject then
    true
  else if (thisMap myRank).getMinAllGlobalIndex ≠ (map myRank).getMinAllGlobalIndex ∨
      (thisMap myRank).getMaxAllGlobalIndex ≠ (map myRank).getMaxAllGlobalIndex ∨
      (thisMap myRank).getGlobalNumElements ≠ (map myRank).getGlobalNumElements ∨
      (thisMap myRank).isDistributed ≠ (map myRank).isDistributed ∨
      (thisMap myRank).getIndexBase ≠ (map myRank).getIndexBase then
    false
  else
    let isSame_gbl :=
      reduceAllMin numProcs (fun q => Map.isSame_lcl (thisMap q) (map q))
        (Map.isSame_lcl (thisMap myRank) (map myRank))
    decide (isSame_gbl = 1)

/-! ## Remote lookups -/

/-- The throw site of `Map::getRemoteIndexList`:
"getRemoteIndexList() cannot be called, zero entries in Map." -/
inductive LookupError where
  | zeroEntriesInMap
  deriving DecidableEq, Repr

/-- The exception class thrown by `Map::getRemoteIndexList`. -/
def LookupError.exceptionClass : LookupError → ExceptionClass
  | .zeroEntriesInMap => .runtime_error

/-- `Map::getRemoteIndexList (GIDList, imageIDList, LIDList)`.  The source of
`Tpetra::Directory` is not part of the files at hand: `getDirectoryEntries`
stands for `directory_->getDirectoryEntries (GIDList, imageIDList, LIDList)`,
and `ρ` for what that call produces (its status and the arrays it fills). -/
def Map.getRemoteIndexList {ρ : Type} (m : Map) (getDirectoryEntries : List Int → ρ)
    (GIDList : List Int) : Except LookupError ρ :=
  if GIDList.length > 0 ∧ m.getGlobalNumElements = 0 then
    .error .zeroEntriesInMap
  else
    .ok (getDirectoryEntries GIDList)

/-- `Map::getRemoteIndexList (GIDList, imageIDList)`, the overload without
local offsets; `getDirectoryEntries` stands for
`directory_->getDirectoryEntries (GIDList, imageIDList)`. -/
def Map.getRemoteIndexListNoLID {ρ : Type} (m : Map) (getDirectoryEntries : List Int → ρ)
    (GIDList : List Int) : Except LookupError ρ :=
  if GIDList.length > 0 ∧ m.getGlobalNumElements = 0 then
    .error .zeroEntriesInMap
  else
    .ok (getDirectoryEntries GIDList)

/-! ## One-to-one reduction -/

/-- The conversion of a `GlobalOrdinal` value to `global_size_t` (unsigned 64
bits) that takes place when it is passed as the global count of a
constructor. -/
def asGlobalSize (x : Int) : Nat := (x % 2 ^ 64).toNat

/-- The loop `for (size_t i=0; i<numMyElems; ++i)` of `createOneToOne`: the
entries written to `myOwned_vec`, in the order they are written.
`owner_procs_vec` is an `Array<int>` that starts filled with zeros. -/
def createOneToOne.myOwned_vec (myID : Int) (myElems : List Int) (owner_procs_vec : List Int)
    (numMyElems : Nat) : List Int :=
  (List.range numMyElems).foldl
    (fun myOwned i =>
      let GID := myElems.getD i 0
      let owner := owner_procs_vec.getD i 0
      if myID = owner then myOwned ++ [GID] else myOwned)
    []

/-- The arguments that rank `q` passes to the constructor at the end of
`createOneToOne`.  `M q` is the source Map on rank `q`; `getDirectoryEntries q`
stands for `directory.getDirectoryEntries (myElems, owner_procs_vec ())` on
that rank (the source of `Tpetra::Directory` is not part of the files at hand)
and gives the owner ranks written to `owner_procs_vec`. -/
def createOneToOne.args (M : Nat → Map) (getDirectoryEntries : Nat → List Int → List Int)
    (q : Nat) : NonContigArgs :=
  let myID : Int := ((M q).commRank : Int)
  let numMyElems := (M q).getNodeNumElements
  let myElems := (M q).getNodeElementList
  let owner_procs_vec := getDirectoryEntries q myElems
  { numGlobalElements_in := asGlobalSize invalidGO
    entryList := createOneToOne.myOwned_vec myID myElems owner_procs_vec numMyElems
    indexBase_in := (M q).getIndexBase }

/-- `Tpetra::createOneToOne` on rank `myRank`: the new Map is built by the
third constructor on the communicator of `M`. -/
def createOneToOne (M : Nat → Map) (getDirectoryEntries : Nat → List Int → List Int)
    (myRank : Nat) : Except MapError Map :=
  Map.mkNonContig (M myRank).commSize (createOneToOne.args M getDirectoryEntries) myRank

/-! ## The collective calls of the constructors -/

/-- The kinds of collective operation the constructors call on the
communicator. -/
inductive Collective where
  | broadcast
  | reduceAll
  | scan
  deriving DecidableEq, Repr

/-- The collective calls of `Map::checkIsDist`: one `reduceAll` when the
communicator has more than one process. -/
def checkIsDist.collectives (commSize : Nat) : List Collective :=
  if commSize > 1 then [.reduceAll] else []

/-- The collective calls the first constructor makes on rank `myRank`, in the
order of the source, up to the point where it throws or reaches
`setupDirectory`.  All of them are inside `#ifdef HAVE_TPETRA_DEBUG`: a
broadcast and two reductions of the global count, the first test, then a
broadcast and two reductions of the index base; the tests of the count itself
follow them. -/
def Map.mkUniform.collectives (HAVE_TPETRA_DEBUG : Bool) (numProcs : Nat)
    (args : Nat → UniformArgs) (myRank : Nat) : List Collective :=
  let numGlobalElements := (args myRank).numGlobalElements
  let minNumGlobalElements :=
    reduceAllMin numProcs (fun r => (args r).numGlobalElements) numGlobalElements
  let maxNumGlobalElements :=
    reduceAllMax numProcs (fun r => (args r).numGlobalElements) numGlobalElements
  if HAVE_TPETRA_DEBUG then
    let first : List Collective := [.broadcast, .reduceAll, .reduceAll]
    if minNumGlobalElements ≠ maxNumGlobalElements ∨ numGlobalElements ≠ minNumGlobalElements then
      first
    else
      first ++ [.broadcast, .reduceAll, .reduceAll]
  else
    []

/-- The collective calls the second constructor makes on rank `myRank`, in the
order of the source, up to the point where it throws or reaches
`setupDirectory`: in a debug build the reduction for `debugGlobalSum` and the
two groups of broadcast and reductions before the three debug tests; then the
scan, the broadcast of the last rank's sum when the count is the sentinel and
there is more than one process, and the reduction of `checkIsDist`. -/
def Map.mkContig.collectives (HAVE_TPETRA_DEBUG : Bool) (numProcs : Nat)
    (args : Nat → ContigArgs) (myRank : Nat) : List Collective :=
  let numGlobalElements := (args myRank).numGlobalElements
  let indexBase := (args myRank).indexBase
  let debugGlobalSum := reduceAllSum numProcs (fun r => (args r).numLocalElements)
  let minNumGlobalElements :=
    reduceAllMin numProcs (fun r => (args r).numGlobalElements) numGlobalElements
  let maxNumGlobalElements :=
    reduceAllMax numProcs (fun r => (args r).numGlobalElements) numGlobalElements
  let minIndexBase := reduceAllMin numProcs (fun r => (args r).indexBase) indexBase
  let maxIndexBase := reduceAllMax numProcs (fun r => (args r).indexBase) indexBase
  let first : List Collective :=
    if HAVE_TPETRA_DEBUG then [.reduceAll, .broadcast, .reduceAll, .reduceAll] else []
  if HAVE_TPETRA_DEBUG ∧
      (minNumGlobalElements ≠ maxNumGlobalElements ∨ numGlobalElements ≠ minNumGlobalElements) then
    first
  else
    let second : List Collective :=
      if HAVE_TPETRA_DEBUG then first ++ [.broadcast, .reduceAll, .reduceAll] else first
    if HAVE_TPETRA_DEBUG ∧ (minIndexBase ≠ maxIndexBase ∨ indexBase ≠ minIndexBase) then
      second
    else if HAVE_TPETRA_DEBUG ∧
        (numGlobalElements ≠ GSTI ∧ debugGlobalSum ≠ numGlobalElements) then
      second
    else
      let third : List Collective :=
        if numGlobalElements ≠ GSTI then second ++ [.scan]
        else if numProcs > 1 then second ++ [.scan, .broadcast]
        else second ++ [.scan]
      if HAVE_TPETRA_DEBUG ∧ numGlobalElements = GSTI ∧
          Map.contigNumGlobal numProcs args myRank ≠ debugGlobalSum then
        third
      else
        third ++ checkIsDist.collectives numProcs

/-- The collective calls the third constructor makes on rank `myRank`, in the
order of the source, up to the point where it throws or reaches
`setupDirectory`: the reduction for `global_sum`, the broadcast of rank 0's
index base and the reduction of `localChecks` come before the first throw;
the two reductions of the ID bounds and the reduction of `checkIsDist` come
before the test of the minimum ID. -/
def Map.mkNonContig.collectives (numProcs : Nat) (args : Nat → NonContigArgs)
    (myRank : Nat) : List Collective :=
  let globalChecks := Map.globalChecks numProcs args myRank
  let first : List Collective := [.reduceAll, .broadcast, .reduceAll]
  if globalChecks.1 ≠ -1 then
    first
  else
    first ++ [.reduceAll, .reduceAll] ++ checkIsDist.collectives numProcs

/-! ## The constructors for a fixed-width GlobalOrdinal -/

/-- The value that a `GlobalOrdinal` of `bits` bits (signed, two's complement)
holds after an arithmetic result or a conversion whose exact value is `x`: the
representative of `x` modulo `2 ^ bits` in `[-2^bits/2, 2^bits/2)`.  Arithmetic
that mixes a `GlobalOrdinal` with the unsigned 64-bit types is done modulo
`2 ^ 64` and converted back, which for `bits ≤ 64` is the same value. -/
def wrapGO (bits : Nat) (x : Int) : Int :=
  (x + 2 ^ bits / 2) % 2 ^ bits - 2 ^ bits / 2

/-- Whether `x` is a value of a `GlobalOrdinal` of `bits` bits. -/
def fitsGO (bits : Nat) (x : Int) : Bool :=
  decide (-(2 ^ bits / 2) ≤ x) && decide (x < 2 ^ bits / 2)

/-- `Map::Map (numGlobalElements, indexBase, comm, lOrG, node)` on rank
`myRank`, for a `GlobalOrdinal` of `bits` bits: `startIndex`, `minMyGID_`,
`maxMyGID_` and `maxAllGID_` are computed in `GlobalOrdinal` and wrap.  The
counts are of the unsigned 64-bit types, as in `Map.mkUniform`. -/
def Map.mkUniformGO (bits : Nat) (HAVE_TPETRA_DEBUG : Bool) (numProcs : Nat)
    (args : Nat → UniformArgs) (myRank : Nat) : Except MapError Map :=
  let numGlobalElements := (args myRank).numGlobalElements
  let indexBase := (args myRank).indexBase
  let lOrG := (args myRank).lOrG
  let minNumGlobalElements :=
    reduceAllMin numProcs (fun r => (args r).numGlobalElements) numGlobalElements
  let maxNumGlobalElements :=
    reduceAllMax numProcs (fun r => (args r).numGlobalElements) numGlobalElements
  let minIndexBase := reduceAllMin numProcs (fun r => (args r).indexBase) indexBase
  let maxIndexBase := reduceAllMax numProcs (fun r => (args r).indexBase) indexBase
  if HAVE_TPETRA_DEBUG ∧
      (minNumGlobalElements ≠ maxNumGlobalElements ∨ numGlobalElements ≠ minNumGlobalElements) then
    .error .numGlobalNotSame
  else if HAVE_TPETRA_DEBUG ∧ (minIndexBase ≠ maxIndexBase ∨ indexBase ≠ minIndexBase) then
    .error .indexBaseNotSame
  else if numGlobalElements < 1 ∧ numGlobalElements ≠ 0 then
    .error .negativeNumGlobal
  else if numGlobalElements = GSTI then
    .error .invalidNumGlobal
  else
    match lOrG with
    | .GloballyDistributed =>
      let quotient := numGlobalElements / numProcs
      let remainder := numGlobalElements - quotient * numProcs
      let numLocalElements : Nat := if myRank < remainder then 1 + quotient else quotient
      let startIndex : Int :=
        if myRank < remainder then
          wrapGO bits (wrapGO bits (myRank : Int) * wrapGO bits (numLocalElements : Int))
        else
          wrapGO bits
            (wrapGO bits (wrapGO bits (myRank : Int) * wrapGO bits (numLocalElements : Int)) +
              wrapGO bits (remainder : Int))
      .ok { commSize := numProcs
            commRank := myRank
            minMyGID_ := wrapGO bits (indexBase + startIndex)
            maxMyGID_ := wrapGO bits (indexBase + startIndex + numLocalElements - 1)
            minAllGID_ := indexBase
            maxAllGID_ := wrapGO bits (indexBase + numGlobalElements - 1)
            distributed_ := decide (numProcs > 1)
            indexBase_ := indexBase
            numGlobalElements_ := numGlobalElements
            numLocalElements_ := numLocalElements
            contiguous_ := true
            lgMap_ := []
            glMap_ := HashTable.new 0 }
    | .LocallyReplicated =>
      .ok { commSize := numProcs
            commRank := myRank
            minMyGID_ := indexBase
            maxMyGID_ := wrapGO bits (indexBase + numGlobalElements - 1)
            distributed_ := false
            minAllGID_ := indexBase
            maxAllGID_ := wrapGO bits (indexBase + numGlobalElements - 1)
            indexBase_ := indexBase
            numGlobalElements_ := numGlobalElements
            numLocalElements_ := numGlobalElements
            contiguous_ := true
            lgMap_ := []
            glMap_ := HashTable.new 0 }

/-- Modelled from the spec: `scan<int, GO> (comm, REDUCE_SUM, value, result)` for
a `GlobalOrdinal` of `bits` bits: the value of each rank is converted to
`GlobalOrdinal` and the inclusive prefix sum is taken in `GlobalOrdinal`. -/
def scanGO (bits : Nat) (vals : Nat → Int) (myRank : Nat) : Int :=
  wrapGO bits (((List.range (myRank + 1)).map (fun q => wrapGO bits (vals q))).sum)

/-- The local offset `myOffset = scanResult - numLocalElements` of the second
constructor on rank `myRank`, computed in a `GlobalOrdinal` of `bits` bits. -/
def Map.contigMyOffsetGO (bits : Nat) (args : Nat → ContigArgs) (myRank : Nat) : Int :=
  let numLocalElements := (args myRank).numLocalElements
  let scanResult : Int := scanGO bits (fun q => ((args q).numLocalElements : Int)) myRank
  wrapGO bits (scanResult - numLocalElements)

/-- The value the second constructor stores in `numGlobalElements_` on rank
`myRank` for a `GlobalOrdinal` of `bits` bits: the given count, or with the
sentinel `GST globalSum = scanResult`, the `GlobalOrdinal` result of the scan
converted to `global_size_t`, which the last rank broadcasts when there is more
than one process. -/
def Map.contigNumGlobalGO (bits : Nat) (numProcs : Nat) (args : Nat → ContigArgs)
    (myRank : Nat) : Nat :=
  let numGlobalElements := (args myRank).numGlobalElements
  let scanResult : Nat → Int := fun r => scanGO bits (fun q => ((args q).numLocalElements : Int)) r
  if numGlobalElements ≠ GSTI then
    numGlobalElements
  else
    let globalSum : Nat :=
      if numProcs > 1 then broadcast (fun r => asGlobalSize (scanResult r)) (numProcs - 1)
      else asGlobalSize (scanResult myRank)
    globalSum

/-- `Map::Map (numGlobalElements, numLocalElements, indexBase, comm, node)` on
rank `myRank`, for a `GlobalOrdinal` of `bits` bits.  The result is `none` when
the constructor does not return: without the debug checks a rank that passed
the sentinel calls `broadcast` after the scan while a rank that passed a count
calls the `reduceAll` of `checkIsDist`, so on more than one process ranks that
differ in this make different collective calls and none of them returns.  In
a debug build the first test throws on every rank in that case. -/
def Map.mkContigGO (bits : Nat) (HAVE_TPETRA_DEBUG : Bool) (numProcs : Nat)
    (args : Nat → ContigArgs) (myRank : Nat) : Option (Except MapError Map) :=
  let numGlobalElements := (args myRank).numGlobalElements
  let numLocalElements := (args myRank).numLocalElements
  let indexBase := (args myRank).indexBase
  let debugGlobalSum := reduceAllSum numProcs (fun r => (args r).numLocalElements)
  let minNumGlobalElements :=
    reduceAllMin numProcs (fun r => (args r).numGlobalElements) numGlobalElements
  let maxNumGlobalElements :=
    reduceAllMax numProcs (fun r => (args r).numGlobalElements) numGlobalElements
  let minIndexBase := reduceAllMin numProcs (fun r => (args r).indexBase) indexBase
  let maxIndexBase := reduceAllMax numProcs (fun r => (args r).indexBase) indexBase
  if HAVE_TPETRA_DEBUG ∧
      (minNumGlobalElements ≠ maxNumGlobalElements ∨ numGlobalElements ≠ minNumGlobalElements) then
    some (.error .numGlobalNotSame)
  else if HAVE_TPETRA_DEBUG ∧ (minIndexBase ≠ maxIndexBase ∨ indexBase ≠ minIndexBase) then
    some (.error .indexBaseNotSame)
  else if HAVE_TPETRA_DEBUG ∧ (numGlobalElements ≠ GSTI ∧ debugGlobalSum ≠ numGlobalElements) then
    some (.error .sumNotNumGlobal)
  else if numProcs > 1 ∧ ∃ q, q < numProcs ∧
      ¬ ((args q).numGlobalElements = GSTI ↔ numGlobalElements = GSTI) then
    none
  else
    let myOffset : Int := Map.contigMyOffsetGO bits args myRank
    let numGlobalElements_ := Map.contigNumGlobalGO bits numProcs args myRank
    if HAVE_TPETRA_DEBUG ∧ numGlobalElements = GSTI ∧ numGlobalElements_ ≠ debugGlobalSum then
      some (.error .globalSumBug)
    else
      some (.ok { commSize := numProcs
                  commRank := myRank
                  numGlobalElements_ := numGlobalElements_
                  numLocalElements_ := numLocalElements
                  indexBase_ := indexBase
                  minAllGID_ := indexBase
                  maxAllGID_ := wrapGO bits (indexBase + numGlobalElements_ - 1)
                  minMyGID_ := wrapGO bits (indexBase + myOffset)
                  maxMyGID_ := wrapGO bits (indexBase + myOffset + numLocalElements - 1)
                  contiguous_ := true
                  distributed_ :=
                    checkIsDist numProcs (Map.contigNumGlobalGO bits numProcs args)
                      (fun r => (args r).numLocalElements) myRank
                  lgMap_ := []
                  glMap_ := HashTable.new 0 })

/-! ## Arithmetic on `double` and `int` -/

/-- A finite value of the type `double` (IEEE 754 binary64): the number
`mant * 2 ^ expo`. -/
structure Double where
  mant : Int
  expo : Int
  deriving DecidableEq, Repr

/-- The number of binary digits of `n`, for `n < 2 ^ fuel`. -/
def Double.bitLength : Nat → Nat → Nat
  | 0, _ => 0
  | fuel + 1, n => if n = 0 then 0 else Double.bitLength fuel (n / 2) + 1

/-- Rounding to `double` of the positive number `num / den * 2 ^ scale` (round
to nearest, ties to even): the significand is the quotient scaled into
`[2^52, 2^53)` and rounded to an integer.  The exponent range of `double` is
left out: the operands that occur here are `int` and 64-bit values (numerators
and denominators below `2 ^ 128`), for which no result overflows or is
subnormal. -/
def Double.roundPos (num den : Nat) (scale : Int) : Nat × Int :=
  let k0 : Int := (Double.bitLength 128 num : Int) - (Double.bitLength 128 den : Int)
  let k : Int := if den * 2 ^ k0.toNat ≤ num * 2 ^ (-k0).toNat then k0 else k0 - 1
  let s : Int := 52 - k
  let n := num * 2 ^ s.toNat
  let d := den * 2 ^ (-s).toNat
  let q := n / d
  let r := n % d
  let m := if 2 * r < d then q else if d < 2 * r then q + 1 else if q % 2 = 0 then q else q + 1
  (m, scale - s)

/-- Rounding to `double` of the number `num / den * 2 ^ scale`, `den > 0`. -/
def Double.round (num : Int) (den : Nat) (scale : Int) : Double :=
  if num = 0 then ⟨0, 0⟩
  else
    let me := Double.roundPos num.natAbs den scale
    ⟨if num < 0 then -(me.1 : Int) else (me.1 : Int), me.2⟩

/-- The conversion `(double) x` of an integer value. -/
def Double.ofInt (x : Int) : Double := Double.round x 1 0

/-- The quotient `x / y` of two `double` values; `none` when `y` is zero (the
result is then an infinity or a NaN). -/
def Double.div (x y : Double) : Option Double :=
  if y.mant = 0 then none
  else some (Double.round (if y.mant < 0 then -x.mant else x.mant) y.mant.natAbs (x.expo - y.expo))

/-- The product `x * y` of two `double` values. -/
def Double.mul (x y : Double) : Double :=
  Double.round (x.mant * y.mant) 1 (x.expo + y.expo)

/-- The value of `std::floor (x)`, as an integer. -/
def Double.floor (x : Double) : Int :=
  if 0 ≤ x.expo then x.mant * 2 ^ x.expo.toNat else x.mant / 2 ^ (-x.expo).toNat

/-- The value an `int` (32 bits, two's complement) holds after an arithmetic
result or a conversion from an integer type whose exact value is `x`. -/
def wrapInt (x : Int) : Int := wrapGO 32 x

/-- The conversion `(int) x` of a `double` with integral value `x`: defined
when the value is in the range of `int`, undefined behaviour (`none`)
otherwise. -/
def intOfFloor (x : Int) : Option Int :=
  if -2147483648 ≤ x ∧ x ≤ 2147483647 then some x else none

/-! ## Weighted contiguous Maps -/

/-- Modelled from the spec: `reduceAll(value, SUM)` of `Teuchos::Comm` on `int`
values; the exact sum, which the caller stores in an `int`. -/
def reduceAllSumInt (numProcs : Nat) (vals : Nat → Int) : Int :=
  ((List.range numProcs).map vals).sum

/-- The arguments one process passes to `createWeightedContigMapWithNode`:
`myWeight` is an `int`, `numElements` a `global_size_t`. -/
structure WeightedArgs where
  myWeight : Int
  numElements : Nat
  deriving DecidableEq, Repr

/-- The ways `createWeightedContigMapWithNode` throws: its own
`TEUCHOS_TEST_FOR_EXCEPT` on `elemsLeft` (a `std::logic_error`), or a throw of
the constructor it calls. -/
inductive WeightedError where
  | elemsLeftOutOfRange
  | constructor (e : MapError)
  deriving DecidableEq, Repr

/-- The conversion of an `int` value to `size_t` (unsigned 64 bits) that takes
place when `localNumElements` is passed to `createContigMapWithNode`. -/
def asSize (x : Int) : Nat := (x % 2 ^ 64).toNat

/-- The value of `sumOfWeights` after the first `reduceAll`. -/
def createWeightedContigMapWithNode.sumOfWeights (numImages : Nat) (args : Nat → WeightedArgs) :
    Int :=
  wrapInt (reduceAllSumInt numImages (fun r => (args r).myWeight))

/-- The value of `localNumElements` after
`(int)std::floor( myShare * ((double)numElements) )` on rank `q`, where
`myShare = ((double)myWeight) / ((double)sumOfWeights)`; `none` when the
behaviour is undefined (the quotient is not finite, or the floor is outside
the range of `int`). -/
def createWeightedContigMapWithNode.share (numImages : Nat) (args : Nat → WeightedArgs)
    (q : Nat) : Option Int :=
  let sumOfWeights := createWeightedContigMapWithNode.sumOfWeights numImages args
  match Double.div (Double.ofInt (args q).myWeight) (Double.ofInt sumOfWeights) with
  | none => none
  | some myShare =>
    intOfFloor (Double.floor (Double.mul myShare (Double.ofInt ((args q).numElements : Int))))

/-- The value of `elemsLeft` on rank `myImageID` after
`elemsLeft = numElements - elemsLeft`: the second `reduceAll` sums the values of
`localNumElements` of all ranks in `int`, and the difference, taken in the
unsigned 64-bit type of `numElements`, is converted back to `int`.  It is
`none` when the behaviour on some rank is undefined. -/
def createWeightedContigMapWithNode.elemsLeft (numImages : Nat) (args : Nat → WeightedArgs)
    (myImageID : Nat) : Option Int :=
  if (List.range numImages).all
      (fun q => (createWeightedContigMapWithNode.share numImages args q).isSome) then
    let elemsLeft : Int :=
      wrapInt (reduceAllSumInt numImages
        (fun q => (createWeightedContigMapWithNode.share numImages args q).getD 0))
    some (wrapInt (((args myImageID).numElements : Int) - elemsLeft))
  else none

/-- Whether rank `q` throws at
`TEUCHOS_TEST_FOR_EXCEPT(elemsLeft < -numImages || numImages < elemsLeft)`. -/
def createWeightedContigMapWithNode.outOfRange (numImages : Nat) (args : Nat → WeightedArgs)
    (q : Nat) : Bool :=
  match createWeightedContigMapWithNode.elemsLeft numImages args q with
  | none => false
  | some elemsLeft =>
    decide (elemsLeft < -(numImages : Int) ∨ (numImages : Int) < elemsLeft)

/-- The value of `localNumElements` on rank `myImageID` after the adjustment:
with a negative `elemsLeft` the last ranks lose an element, with a positive
one the first `elemsLeft` ranks gain an element. -/
def createWeightedContigMapWithNode.localNumElements (numImages : Nat)
    (args : Nat → WeightedArgs) (myImageID : Nat) : Option Int :=
  match createWeightedContigMapWithNode.share numImages args myImageID,
      createWeightedContigMapWithNode.elemsLeft numImages args myImageID with
  | some localNumElements, some elemsLeft =>
    if elemsLeft < 0 then
      if (myImageID : Int) ≥ wrapInt ((numImages : Int) - elemsLeft) then
        some (wrapInt (localNumElements - 1))
      else some localNumElements
    else if elemsLeft > 0 then
      if (myImageID : Int) < elemsLeft then some (wrapInt (localNumElements + 1))
      else some localNumElements
    else some localNumElements
  | _, _ => none

/-- The arguments rank `q` passes on to the second constructor through
`createContigMapWithNode`: the global count, the local count converted to
`size_t`, and the index base zero. -/
def createWeightedContigMapWithNode.args (numImages : Nat) (args : Nat → WeightedArgs)
    (q : Nat) : ContigArgs :=
  { numGlobalElements := (args q).numElements
    numLocalElements :=
      asSize ((createWeightedContigMapWithNode.localNumElements numImages args q).getD 0)
    indexBase := 0 }

/-- `Tpetra::createWeightedContigMapWithNode` on rank `myImageID`, for a
`GlobalOrdinal` of `bits` bits.  The result is `none` when the behaviour is
undefined or the call does not return: a rank that passes the test on
`elemsLeft` enters the collectives of the constructor, which do not complete
when another rank has thrown at the test. -/
def createWeightedContigMapWithNode (bits : Nat) (HAVE_TPETRA_DEBUG : Bool) (numImages : Nat)
    (args : Nat → WeightedArgs) (myImageID : Nat) : Option (Except WeightedError Map) :=
  match createWeightedContigMapWithNode.elemsLeft numImages args myImageID with
  | none => none
  | some elemsLeft =>
    if elemsLeft < -(numImages : Int) ∨ (numImages : Int) < elemsLeft then
      some (.error .elemsLeftOutOfRange)
    else if (List.range numImages).any
        (fun q => createWeightedContigMapWithNode.outOfRange numImages args q) then
      none
    else
      match Map.mkContigGO bits HAVE_TPETRA_DEBUG numImages
          (createWeightedContigMapWithNode.args numImages args) myImageID with
      | none => none
      | some (.ok map) => some (.ok map)
      | some (.error e) => some (.error (.constructor e))

/-! ## Auxiliary definitions used in the statements -/

/-- The arguments of a collective call of the first constructor in which every
process passes the same global count, index base and distribution flag. -/
def uniformArgs (numGlobalElements : Nat) (indexBase : Int) (lOrG : LocalGlobal) :
    Nat → UniformArgs :=
  fun _ => ⟨numGlobalElements, indexBase, lOrG⟩

/-- The number of elements that the even split of `N` elements over `P`
processes gives to the ranks below `k`: `k * quotient`, plus one for each of
these ranks that is below the remainder. -/
def evenStart (N P k : Nat) : Nat := k * (N / P) + min k (N % P)

/-- The table `t` answers for the list `l` of global IDs: a key that is not in
the list gives `-1`, a key of the list gives the largest position that holds
it. -/
def TableFor (l : List Int) (t : HashTable) : Prop :=
  ∀ g : Int,
    (g ∉ l → t.get g = -1) ∧
    (g ∈ l → ∃ i : Nat, t.get g = (i : Int) ∧ i < l.length ∧ l[i]? = some g ∧
        ∀ j, i < j → l[j]? ≠ some g)

/-- The relation between the members of a Map that the lookups rely on: a
contiguous Map owns the range that starts at `minMyGID_` and has
`numLocalElements_` elements; a noncontiguous Map has a local-to-global table
of `numLocalElements_` entries and a global-to-local table that answers for
it. -/
def Map.LookupInv (m : Map) : Prop :=
  (m.contiguous_ = true → m.maxMyGID_ = m.minMyGID_ + m.numLocalElements_ - 1) ∧
  (m.contiguous_ = false →
    m.lgMap_.length = m.numLocalElements_ ∧ TableFor m.lgMap_ m.glMap_)

/-- The explicit-ID-list scenario of the specification on two processes: rank
0 passes `[5, 5, 7]`, rank 1 passes `[5, 2]`, both with the sentinel as global
count and index base 0. -/
def overlapExample : Nat → NonContigArgs :=
  fun r => if r = 0 then ⟨GSTI, [5, 5, 7], 0⟩ else ⟨GSTI, [5, 2], 0⟩

/-- A local-count scenario: rank `r` passes the local count `r + 2`, the
sentinel as global count and index base 1. -/
def localCountExample : Nat → ContigArgs :=
  fun r => ⟨GSTI, r + 2, 1⟩

/-- An explicit-ID-list scenario with an ID below the index base: rank 0
passes `[5, 1]`, every other rank the empty list, all with index base 2 and the
sentinel as global count. -/
def belowBaseExample : Nat → NonContigArgs :=
  fun r => if r = 0 then ⟨GSTI, [5, 1], 2⟩ else ⟨GSTI, [], 2⟩

/-- An explicit-ID-list scenario with a process that holds nothing: rank 0
passes `[5]`, every other rank the empty list, all with index base 0 and the
sentinel as global count. -/
def emptyRankExample : Nat → NonContigArgs :=
  fun r => if r = 0 then ⟨GSTI, [5], 0⟩ else ⟨GSTI, [], 0⟩

/-- An explicit-ID-list scenario with a wrong global count on one process:
rank 0 passes the count 2 with the list `[5, 1]`, every other rank the count 3
with the list `[7]`; on two processes the lists hold 3 IDs. -/
def wrongCountExample : Nat → NonContigArgs :=
  fun r => if r = 0 then ⟨2, [5, 1], 0⟩ else ⟨3, [7], 0⟩

/-- A local-count scenario with a wrong global count: every rank passes the
global count 5 and the local count 1. -/
def wrongSumExample : Nat → ContigArgs :=
  fun _ => ⟨5, 1, 0⟩

/-- An even-split scenario in which the processes disagree on the global
count: rank 0 passes 4, every other rank 6. -/
def mixedCountExample : Nat → UniformArgs :=
  fun r => if r = 0 then ⟨4, 0, .GloballyDistributed⟩ else ⟨6, 0, .GloballyDistributed⟩

/-- Scenarios in which rank 0 uses index base 0 and every other rank index
base 1, for the three constructors. -/
def mixedBaseUniform : Nat → UniformArgs :=
  fun r => if r = 0 then ⟨4, 0, .GloballyDistributed⟩ else ⟨4, 1, .GloballyDistributed⟩

/-- See `mixedBaseUniform`. -/
def mixedBaseContig : Nat → ContigArgs :=
  fun r => if r = 0 then ⟨GSTI, 2, 0⟩ else ⟨GSTI, 2, 1⟩

/-- See `mixedBaseUniform`. -/
def mixedBaseNonContig : Nat → NonContigArgs :=
  fun r => if r = 0 then ⟨GSTI, [5, 1], 0⟩ else ⟨GSTI, [7], 1⟩

/-- The two Maps that the third constructor builds for `overlapExample` on
ranks 0 and 1 of two processes (every further rank is given the Map of rank
1). -/
def overlapMaps : Nat → Map :=
  fun r =>
    if r = 0 then
      { commSize := 2, commRank := 0, numGlobalElements_ := 5, numLocalElements_ := 3,
        indexBase_ := 0, minMyGID_ := 5, maxMyGID_ := 7, minAllGID_ := 2, maxAllGID_ := 7,
        contiguous_ := false, distributed_ := true, lgMap_ := [5, 5, 7],
        glMap_ := ⟨[(7, 2), (5, 1), (5, 0)]⟩ }
    else
      { commSize := 2, commRank := 1, numGlobalElements_ := 5, numLocalElements_ := 2,
        indexBase_ := 0, minMyGID_ := 2, maxMyGID_ := 5, minAllGID_ := 2, maxAllGID_ := 7,
        contiguous_ := false, distributed_ := true, lgMap_ := [5, 2],
        glMap_ := ⟨[(2, 1), (5, 0)]⟩ }

/-- A directory answer for `overlapMaps`: the owner of the global ID 5 is rank
1, the owner of 7 is rank 0 and the owner of 2 is rank 1. -/
def overlapOwners : Nat → List Int → List Int :=
  fun _ GIDList => GIDList.map (fun g => if g = 7 then 0 else 1)

/-- Follows the spec's words ("retain only IDs for which the local rank equals
the returned owner"): the entries of `myElems` whose reported owner, the entry
of `owners` at the same position, is `myID`, in their original order. -/
def retainedByOwner (myID : Int) (myElems owners : List Int) : List Int :=
  ((myElems.zip owners).filter (fun p => decide (myID = p.2))).map Prod.fst

/-- The Maps that a collective constructor call leaves on the ranks, as a
function of the rank.  On a rank on which the call throws no Map exists; the
value there is a Map with every member zero, and the examples below use
`builtMaps` for calls that succeed only. -/
def builtMaps (ctor : Nat → Except MapError Map) : Nat → Map :=
  fun q =>
    match ctor q with
    | .ok m => m
    | .error _ =>
      { commSize := 0, commRank := 0, numGlobalElements_ := 0, numLocalElements_ := 0,
        indexBase_ := 0, minMyGID_ := 0, maxMyGID_ := 0, minAllGID_ := 0, maxAllGID_ := 0,
        contiguous_ := false, distributed_ := false, lgMap_ := [], glMap_ := HashTable.new 0 }

/-- The arguments with which each rank passes the element list and the index
base of its Map `A q` to the third constructor, with the sentinel as global
count. -/
def listArgsOf (A : Nat → Map) : Nat → NonContigArgs :=
  fun q => ⟨GSTI, (A q).getNodeElementList, (A q).getIndexBase⟩

/-- A local-count scenario with an empty rank: ranks 0 and 2 pass the local
count 2, rank 1 passes 0; the global count is the sentinel and the index base
is 1. -/
def gapExample : Nat → ContigArgs :=
  fun r => ⟨GSTI, if r = 1 then 0 else 2, 1⟩

/-- The Maps of the scenario `gapExample` on three processes, and the Maps the
third constructor builds from their element lists. -/
def gapMaps : Nat → Map := builtMaps (Map.mkContig false 3 gapExample)

def gapAsLists : Nat → Map := builtMaps (Map.mkNonContig 3 (listArgsOf gapMaps))

/-- The even split of no element (index base 0) on one process, and the Map
the third constructor builds from the empty list. -/
def emptyMaps : Nat → Map :=
  builtMaps (Map.mkUniform false 1 (uniformArgs 0 0 .GloballyDistributed))

def emptyAsLists : Nat → Map := builtMaps (Map.mkNonContig 1 (listArgsOf emptyMaps))

/-- An explicit-ID-list scenario on one process whose list is an unbroken
increasing range: the IDs 3, 4, 5 with index base 3. -/
def rangeListExample : Nat → NonContigArgs :=
  fun _ => ⟨GSTI, [3, 4, 5], 3⟩

/-- The source Maps of `createOneToOne` on a group of `P` processes: rank `q`
holds the Map `M q` of that group, whose element list has as many entries as
the Map has local elements; all have the index base `b` and no ID below it. -/
def SourceMaps (P : Nat) (M : Nat → Map) (b : Int) : Prop :=
  ∀ q, q < P →
    (M q).commRank = q ∧ (M q).commSize = P ∧
    (M q).getNodeElementList.length = (M q).getNodeNumElements ∧
    (M q).getIndexBase = b ∧ ∀ g ∈ (M q).getNodeElementList, b ≤ g

/-- Follows the spec's words on the directory ("one owner rank that is the same
on every process and is a rank holding that ID"): on every rank the directory
answers the element list with the owners `owner g` of its entries, and
`owner g` is a rank of the group that holds `g`. -/
def OwnerDirectory (P : Nat) (M : Nat → Map) (getDirectoryEntries : Nat → List Int → List Int)
    (owner : Int → Nat) : Prop :=
  ∀ q, q < P →
    getDirectoryEntries q (M q).getNodeElementList =
      (M q).getNodeElementList.map (fun g => (owner g : Int)) ∧
    ∀ g ∈ (M q).getNodeElementList, owner g < P ∧ g ∈ (M (owner g)).getNodeElementList

/-- Follows the spec's words ("distinct global IDs across the union"): the set
of the global IDs held by some rank of the group. -/
def distinctIDs (P : Nat) (M : Nat → Map) : Finset Int :=
  (Finset.range P).biUnion (fun q => (M q).getNodeElementList.toFinset)

/-- The owners of `overlapOwners` as a function of the ID: rank 0 owns 7,
rank 1 owns every other ID. -/
def overlapOwner : Int → Nat := fun g => if g = 7 then 0 else 1

/-- A second directory for `overlapMaps`: rank 1 owns 2, rank 0 owns every
other ID, among them the ID 5 that rank 0 lists twice. -/
def repeatOwner : Int → Nat := fun g => if g = 2 then 1 else 0

def repeatOwners : Nat → List Int → List Int :=
  fun _ GIDList => GIDList.map (fun g => (repeatOwner g : Int))

/-- The scenario of the specification in which two ranks claim the ID 7: rank
0 passes `[5, 7]`, rank 1 passes `[7, 2]`, both with the sentinel as global
count and index base 0; the directory names rank 0 as owner of 5 and rank 1 as
owner of 7 and 2. -/
def sharedExample : Nat → NonContigArgs :=
  fun r => if r = 0 then ⟨GSTI, [5, 7], 0⟩ else ⟨GSTI, [7, 2], 0⟩

def sharedMaps : Nat → Map := builtMaps (Map.mkNonContig 2 sharedExample)

def sharedOwner : Int → Nat := fun g => if g = 5 then 0 else 1

def sharedOwners : Nat → List Int → List Int :=
  fun _ GIDList => GIDList.map (fun g => (sharedOwner g : Int))

/-- The arguments of a collective call of `createWeightedContigMapWithNode` in
which rank `q` passes the weight `w q` and every rank the count
`numElements`. -/
def weightedArgs (w : Nat → Int) (numElements : Nat) : Nat → WeightedArgs :=
  fun q => ⟨w q, numElements⟩

/-- A weighted scenario on two processes: the weights 1 and 2. -/
def weightExample : Nat → Int := fun q => if q = 0 then 1 else 2

/-- A weighted scenario on two processes whose shares of 22 elements are not
computed exactly in `double`: the weights 7 and 15. -/
def roundedWeightExample : Nat → Int := fun q => if q = 0 then 7 else 15

/-- A weighted scenario in which every process has the weight 1. -/
def equalWeightExample : Nat → Int := fun _ => 1

/-- A local-count scenario on two processes whose second offset is not a value
of a 32-bit `GlobalOrdinal`: rank 0 passes the local count 2147483648, rank 1
the local count 1, both the sentinel as global count and index base 0. -/
def wrapOffsetExample : Nat → ContigArgs :=
  fun q => if q = 0 then ⟨GSTI, 2147483648, 0⟩ else ⟨GSTI, 1, 0⟩

/-- A local-count scenario in which the ranks do not agree on the sentinel:
rank 0 passes the sentinel as global count, rank 1 the count 3; the local
counts are 1 and 2 and the index base is 0. -/
def mixedSentinelExample : Nat → ContigArgs :=
  fun q => if q = 0 then ⟨GSTI, 1, 0⟩ else ⟨3, 2, 0⟩

end Tpetra

/-! # Anasazi::BasicEigenproblem (packages/anasazi/src/AnasaziBasicEigenproblem.hpp) -/

namespace Anasazi

/-- The ways a call of `setProblem` can end: it returns a `bool`, or an
allocation throws. -/
inductive Outcome where
  | returned (b : Bool)
  | threw
  deriving DecidableEq, Repr

/-- The data members of `Anasazi::BasicEigenproblem<ScalarType, MV, OP>`.  A
`Teuchos::RefCountPtr` is an `Option`, `none` for the null pointer; of the
vectors behind `_index` and `_Evals` the length is kept; `SOL` is the type
`Eigensolution<ScalarType,MV>`. -/
structure BasicEigenproblem (OP MV SOL : Type) where
  _AOp : Option OP
  _MOp : Option OP
  _Op : Option OP
  _Prec : Option OP
  _InitVec : Option MV
  _AuxVecs : Option MV
  _Evecs : Option MV
  _Espace : Option MV
  _index : Option Nat
  _Evals : Option Nat
  _nev : Int
  _isSym : Bool
  _isSet : Bool
  _sol : SOL

variable {OP MV SOL : Type}

/-- `BasicEigenproblem ()`, the empty constructor. -/
def BasicEigenproblem.empty [Inhabited SOL] : BasicEigenproblem OP MV SOL :=
  { _AOp := none, _MOp := none, _Op := none, _Prec := none, _InitVec := none, _AuxVecs := none,
    _Evecs := none, _Espace := none, _index := none, _Evals := none,
    _nev := 0, _isSym := false, _isSet := false, _sol := default }

/-- `BasicEigenproblem (Op, InitVec)`, the standard eigenvalue problem
constructor. -/
def BasicEigenproblem.standard [Inhabited SOL] (Op : Option OP) (InitVec : Option MV) :
    BasicEigenproblem OP MV SOL :=
  { _AOp := none, _MOp := none, _Op := Op, _Prec := none, _InitVec := InitVec, _AuxVecs := none,
    _Evecs := none, _Espace := none, _index := none, _Evals := none,
    _nev := 0, _isSym := false, _isSet := false, _sol := default }

/-- `BasicEigenproblem (Op, B, InitVec)`, the generalized eigenvalue problem
constructor; the second argument initialises `_MOp`. -/
def BasicEigenproblem.generalized [Inhabited SOL] (Op M : Option OP) (InitVec : Option MV) :
    BasicEigenproblem OP MV SOL :=
  { _AOp := none, _MOp := M, _Op := Op, _Prec := none, _InitVec := InitVec, _AuxVecs := none,
    _Evecs := none, _Espace := none, _index := none, _Evals := none,
    _nev := 0, _isSym := false, _isSet := false, _sol := default }

/-- `BasicEigenproblem (Problem)`, the copy constructor: the members of its
initialiser list are copied, the others are default-constructed. -/
def BasicEigenproblem.copy [Inhabited SOL] (Problem : BasicEigenproblem OP MV SOL) :
    BasicEigenproblem OP MV SOL :=
  { _AOp := Problem._AOp, _MOp := Problem._MOp, _Op := Problem._Op, _Prec := Problem._Prec,
    _InitVec := Problem._InitVec, _AuxVecs := none, _Evecs := Problem._Evecs, _Espace := none,
    _index := none, _Evals := Problem._Evals, _nev := Problem._nev, _isSym := Problem._isSym,
    _isSet := Problem._isSet, _sol := default }

/-- `setOperator`. -/
def BasicEigenproblem.setOperator (s : BasicEigenproblem OP MV SOL) (Op : Option OP) :
    BasicEigenproblem OP MV SOL :=
  { s with _Op := Op, _isSet := false }

/-- `setA`. -/
def BasicEigenproblem.setA (s : BasicEigenproblem OP MV SOL) (A : Option OP) :
    BasicEigenproblem OP MV SOL :=
  { s with _AOp := A, _isSet := false }

/-- `setM`. -/
def BasicEigenproblem.setM (s : BasicEigenproblem OP MV SOL) (M : Option OP) :
    BasicEigenproblem OP MV SOL :=
  { s with _MOp := M, _isSet := false }

/-- `setPrec`. -/
def BasicEigenproblem.setPrec (s : BasicEigenproblem OP MV SOL) (Prec : Option OP) :
    BasicEigenproblem OP MV SOL :=
  { s with _Prec := Prec, _isSet := false }

/-- `setInitVec`. -/
def BasicEigenproblem.setInitVec (s : BasicEigenproblem OP MV SOL) (InitVec : Option MV) :
    BasicEigenproblem OP MV SOL :=
  { s with _InitVec := InitVec, _isSet := false }

/-- `setAuxVecs`. -/
def BasicEigenproblem.setAuxVecs (s : BasicEigenproblem OP MV SOL) (AuxVecs : Option MV) :
    BasicEigenproblem OP MV SOL :=
  { s with _AuxVecs := AuxVecs, _isSet := false }

/-- `setNEV`. -/
def BasicEigenproblem.setNEV (s : BasicEigenproblem OP MV SOL) (nev : Int) :
    BasicEigenproblem OP MV SOL :=
  { s with _nev := nev, _isSet := false }

/-- `setHermitian`. -/
def BasicEigenproblem.setHermitian (s : BasicEigenproblem OP MV SOL) (isSym : Bool) :
    BasicEigenproblem OP MV SOL :=
  { s with _isSym := isSym, _isSet := false }

/-- `setSolution`. -/
def BasicEigenproblem.setSolution (s : BasicEigenproblem OP MV SOL) (sol : SOL) :
    BasicEigenproblem OP MV SOL :=
  { s with _sol := sol }

/-- `getOperator`. -/
def BasicEigenproblem.getOperator (s : BasicEigenproblem OP MV SOL) : Option OP := s._Op

/-- `getA`. -/
def BasicEigenproblem.getA (s : BasicEigenproblem OP MV SOL) : Option OP := s._AOp

/-- `getInitVec`. -/
def BasicEigenproblem.getInitVec (s : BasicEigenproblem OP MV SOL) : Option MV := s._InitVec

/-- `getNEV`. -/
def BasicEigenproblem.getNEV (s : BasicEigenproblem OP MV SOL) : Int := s._nev

/-- `isProblemSet`. -/
def BasicEigenproblem.isProblemSet (s : BasicEigenproblem OP MV SOL) : Bool := s._isSet

/-- The expression `new std::vector<T>( _nev )` of the C++ standard library for
an `int` argument: the value is converted to the unsigned `size_type`, so a
negative `_nev` asks for more than `max_size ()` elements and the constructor
throws (`none`); otherwise the vector has `_nev` elements.  Exhausted memory is
left out. -/
def newVector (nev : Int) : Option Nat :=
  if nev < 0 then none else some nev.toNat

/-- `BasicEigenproblem::setProblem`: the object after the call and how the
call ended.  `CloneEvecs` and `CloneEspace` stand for the two calls
`MVT::Clone( *_InitVec, _nev )` of the traits class (its source is not part of
the files at hand); `none` is a call that throws.  Each member is assigned
when the right-hand side has been evaluated, so a throw leaves the members
assigned before it. -/
def BasicEigenproblem.setProblem (CloneEvecs CloneEspace : MV → Int → Option MV)
    (s : BasicEigenproblem OP MV SOL) : BasicEigenproblem OP MV SOL × Outcome :=
  if s._AOp.isNone ∧ s._Op.isNone then (s, .returned false)
  else
    match s._InitVec with
    | none => (s, .returned false)
    | some InitVec =>
      if s._nev = 0 then (s, .returned false)
      else
        let s1 := if s._AOp.isSome ∧ s._Op.isNone then { s with _Op := s._AOp } else s
        match CloneEvecs InitVec s1._nev with
        | none => (s1, .threw)
        | some Evecs =>
          let s2 := { s1 with _Evecs := some Evecs }
          match newVector s2._nev with
          | none => (s2, .threw)
          | some Evals =>
            let s3 := { s2 with _Evals := some Evals }
            match newVector s3._nev with
            | none => (s3, .threw)
            | some index =>
              let s4 := { s3 with _index := some index }
              if s4._isSym then
                ({ s4 with _Espace := s4._Evecs, _isSet := true }, .returned true)
              else
                match CloneEspace InitVec s4._nev with
                | none => (s4, .threw)
                | some Espace =>
                  ({ s4 with _Espace := some Espace, _isSet := true }, .returned true)

/-- The states an object can be in: it is built by one of the four
constructors (the copy constructor from a reachable object) and then changed
by the setters and by `setProblem`, whatever the traits class does. -/
inductive Reachable [Inhabited SOL] : BasicEigenproblem OP MV SOL → Prop where
  | empty : Reachable BasicEigenproblem.empty
  | standard (Op : Option OP) (InitVec : Option MV) :
      Reachable (BasicEigenproblem.standard Op InitVec)
  | generalized (Op M : Option OP) (InitVec : Option MV) :
      Reachable (BasicEigenproblem.generalized Op M InitVec)
  | copy (s : BasicEigenproblem OP MV SOL) : Reachable s → Reachable s.copy
  | setOperator (s : BasicEigenproblem OP MV SOL) (Op : Option OP) :
      Reachable s → Reachable (s.setOperator Op)
  | setA (s : BasicEigenproblem OP MV SOL) (A : Option OP) :
      Reachable s → Reachable (s.setA A)
  | setM (s : BasicEigenproblem OP MV SOL) (M : Option OP) :
      Reachable s → Reachable (s.setM M)
  | setPrec (s : BasicEigenproblem OP MV SOL) (Prec : Option OP) :
      Reachable s → Reachable (s.setPrec Prec)
  | setInitVec (s : BasicEigenproblem OP MV SOL) (InitVec : Option MV) :
      Reachable s → Reachable (s.setInitVec InitVec)
  | setAuxVecs (s : BasicEigenproblem OP MV SOL) (AuxVecs : Option MV) :
      Reachable s → Reachable (s.setAuxVecs AuxVecs)
  | setNEV (s : BasicEigenproblem OP MV SOL) (nev : Int) :
      Reachable s → Reachable (s.setNEV nev)
  | setHermitian (s : BasicEigenproblem OP MV SOL) (isSym : Bool) :
      Reachable s → Reachable (s.setHermitian isSym)
  | setSolution (s : BasicEigenproblem OP MV SOL) (sol : SOL) :
      Reachable s → Reachable (s.setSolution sol)
  | setProblem (CloneEvecs CloneEspace : MV → Int → Option MV)
      (s : BasicEigenproblem OP MV SOL) :
      Reachable s → Reachable (s.setProblem CloneEvecs CloneEspace).1

/-- An object of the standard constructor (operator and initial vector given)
after `setNEV (nev)`; operators, multivectors and solutions are of type
`Unit`. -/
def nevExample (nev : Int) : BasicEigenproblem Unit Unit Unit :=
  (BasicEigenproblem.standard (some ()) (some ())).setNEV nev

/-- A traits class whose `Clone` returns a multivector for every argument. -/
def cloneExample : Unit → Int → Option Unit := fun _ _ => some ()

end Anasazi

namespace Tpetra

/-! # Theorems -/

/-! ## Collectives on equal contributions -/

theorem foldl_min_const {α : Type} [LinearOrder α] (c : α) (l : List α) (h : ∀ x ∈ l, x = c) :
    l.foldl min c = c := by
  induction l with
  | nil => rfl
  | cons a t ih =>
    have ha : a = c := h a (List.mem_cons_self a t)
    simp only [List.foldl_cons, ha, min_self]
    exact ih (fun x hx => h x (List.mem_cons_of_mem a hx))

theorem foldl_max_const {α : Type} [LinearOrder α] (c : α) (l : List α) (h : ∀ x ∈ l, x = c) :
    l.foldl max c = c := by
  induction l with
  | nil => rfl
  | cons a t ih =>
    have ha : a = c := h a (List.mem_cons_self a t)
    simp only [List.foldl_cons, ha, max_self]
    exact ih (fun x hx => h x (List.mem_cons_of_mem a hx))

theorem reduceAllMin_const {α : Type} [LinearOrder α] (P : Nat) (c : α) :
    reduceAllMin P (fun _ => c) c = c := by
  unfold reduceAllMin
  apply foldl_min_const
  intro x hx
  simp only [List.mem_map, List.mem_range] at hx
  obtain ⟨r, _, rfl⟩ := hx
  rfl

theorem reduceAllMax_const {α : Type} [LinearOrder α] (P : Nat) (c : α) :
    reduceAllMax P (fun _ => c) c = c := by
  unfold reduceAllMax
  apply foldl_max_const
  intro x hx
  simp only [List.mem_map, List.mem_range] at hx
  obtain ⟨r, _, rfl⟩ := hx
  rfl

/-! ## The even split -/

theorem sub_div_mul_eq_mod (N P : Nat) : N - N / P * P = N % P := by
  have := Nat.div_add_mod N P
  have h2 : N / P * P = P * (N / P) := Nat.mul_comm _ _
  omega

/-- The outcome of the even-split constructor on rank `r` when every process
passes the count `N` (not the sentinel) and the index base `b`. -/
theorem mkUniform_dist_spec (dbg : Bool) (P N : Nat) (b : Int) (r : Nat) (hN : N ≠ GSTI) :
    ∃ m, Map.mkUniform dbg P (uniformArgs N b .GloballyDistributed) r = .ok m ∧
      m.numLocalElements_ = (if r < N % P then N / P + 1 else N / P) ∧
      m.minMyGID_ = b + (evenStart N P r : Int) ∧
      m.maxMyGID_ = m.minMyGID_ + m.numLocalElements_ - 1 ∧
      m.contiguous_ = true ∧ m.numGlobalElements_ = N ∧ m.indexBase_ = b ∧
      m.distributed_ = decide (P > 1) := by
  have h1 : ¬ (N < 1 ∧ N ≠ 0) := by omega
  simp only [Map.mkUniform, uniformArgs, reduceAllMin_const, reduceAllMax_const, ne_eq,
    not_true_eq_false, or_self, and_false, if_false, h1, hN, sub_div_mul_eq_mod]
  refine ⟨_, rfl, ?_, ?_, ?_, rfl, rfl, rfl, rfl⟩
  · simp only []
    split <;> omega
  · simp only [evenStart]
    split
    · rename_i h
      rw [min_eq_left (le_of_lt h)]
      push_cast
      ring
    · rename_i h
      rw [min_eq_right (not_lt.mp h)]
      push_cast
      ring
  · simp only []

theorem evenStart_succ (N P k : Nat) :
    evenStart N P (k + 1) = evenStart N P k + (if k < N % P then N / P + 1 else N / P) := by
  unfold evenStart
  rw [Nat.succ_mul]
  split <;> omega

theorem evenStart_zero (N P : Nat) : evenStart N P 0 = 0 := by
  simp [evenStart]

theorem evenStart_numProcs (N P : Nat) (hP : 1 ≤ P) : evenStart N P P = N := by
  unfold evenStart
  have h1 : N % P < P := Nat.mod_lt _ (by omega)
  have h2 := Nat.div_add_mod N P
  rw [min_eq_right (le_of_lt h1)]
  exact h2

theorem evenStart_mono (N P : Nat) {j k : Nat} (h : j ≤ k) :
    evenStart N P j ≤ evenStart N P k := by
  unfold evenStart
  have := Nat.mul_le_mul_right (N / P) h
  omega

theorem evenSplit_sum (N P k : Nat) :
    ∑ r in Finset.range k, (if r < N % P then N / P + 1 else N / P) = evenStart N P k := by
  induction k with
  | zero => simp [evenStart_zero]
  | succ k ih => rw [Finset.sum_range_succ, ih, evenStart_succ]

theorem evenStart_locate (N P : Nat) (x : Nat) :
    ∀ k, x < evenStart N P k →
      ∃ r, r < k ∧ evenStart N P r ≤ x ∧ x < evenStart N P (r + 1) := by
  intro k
  induction k with
  | zero => intro h; rw [evenStart_zero] at h; omega
  | succ k ih =>
    intro h
    by_cases hk : x < evenStart N P k
    · obtain ⟨r, hr, h1, h2⟩ := ih hk
      exact ⟨r, by omega, h1, h2⟩
    · exact ⟨k, by omega, by omega, h⟩

theorem evenStart_unique (N P : Nat) (x r s : Nat)
    (hr1 : evenStart N P r ≤ x) (hr2 : x < evenStart N P (r + 1))
    (hs1 : evenStart N P s ≤ x) (hs2 : x < evenStart N P (s + 1)) : r = s := by
  by_contra hne
  rcases Nat.lt_or_gt_of_ne hne with h | h
  · have := evenStart_mono N P (show r + 1 ≤ s by omega)
    omega
  · have := evenStart_mono N P (show s + 1 ≤ r by omega)
    omega

theorem isNodeGlobalElement_contiguous (m : Map) (h : m.contiguous_ = true) (g : Int) :
    m.isNodeGlobalElement g = true ↔ m.minMyGID_ ≤ g ∧ g ≤ m.maxMyGID_ := by
  simp [Map.isNodeGlobalElement, Map.isContiguous, h, Map.getMinGlobalIndex,
    Map.getMaxGlobalIndex]

/-- C1: for every global count `N` other than the sentinel and every
process-group size `P ≥ 1`, the even-split construction succeeds on every
rank, the local counts of ranks `0 .. P-1` sum to `N`, and any two local counts
differ by at most one. -/
theorem evenSplit_sum_and_skew (dbg : Bool) (P N : Nat) (b : Int) (hP : 1 ≤ P)
    (hN : N ≠ GSTI) :
    ∃ maps : Nat → Map,
      (∀ r, r < P →
        Map.mkUniform dbg P (uniformArgs N b .GloballyDistributed) r = .ok (maps r)) ∧
      (∑ r in Finset.range P, (maps r).numLocalElements_) = N ∧
      (∀ r s, r < P → s < P →
        (maps r).numLocalElements_ ≤ (maps s).numLocalElements_ + 1) := by
  choose maps hok hcnt _ _ _ _ _ _ using
    fun r => mkUniform_dist_spec dbg P N b r hN
  refine ⟨maps, fun r _ => hok r, ?_, ?_⟩
  · simp only [hcnt]
    rw [evenSplit_sum, evenStart_numProcs N P hP]
  · intro r s _ _
    rw [hcnt r, hcnt s]
    split <;> split <;> omega

/-- Witness of C1 at `N = 10`, `P = 3`, index base `0`. -/
theorem evenSplit_sum_and_skew_witness :
    1 ≤ 3 ∧ 10 ≠ GSTI ∧
    ∃ maps : Nat → Map,
      (∀ r, r < 3 →
        Map.mkUniform false 3 (uniformArgs 10 0 .GloballyDistributed) r = .ok (maps r)) ∧
      (∑ r in Finset.range 3, (maps r).numLocalElements_) = 10 ∧
      (∀ r s, r < 3 → s < 3 →
        (maps r).numLocalElements_ ≤ (maps s).numLocalElements_ + 1) :=
  ⟨by decide, by decide, evenSplit_sum_and_skew false 3 10 0 (by decide) (by decide)⟩

/-! ## Sums over the ranks -/

theorem list_range_sum_eq {M : Type} [AddCommMonoid M] (f : Nat → M) (n : Nat) :
    ((List.range n).map f).sum = ∑ q in Finset.range n, f q := by
  induction n with
  | zero => simp
  | succ n ih => rw [List.sum_range_succ, ih, Finset.sum_range_succ]

theorem scan_eq (f : Nat → Int) (r : Nat) : scan f r = ∑ q in Finset.range (r + 1), f q := by
  unfold scan
  exact list_range_sum_eq f (r + 1)

theorem reduceAllSum_eq (P : Nat) (f : Nat → Nat) :
    reduceAllSum P f = ∑ q in Finset.range P, f q := by
  unfold reduceAllSum
  exact list_range_sum_eq f P

theorem contigMyOffset_eq (args : Nat → ContigArgs) (r : Nat) :
    Map.contigMyOffset args r = ∑ q in Finset.range r, ((args q).numLocalElements : Int) := by
  simp only [Map.contigMyOffset, scan_eq, Finset.sum_range_succ]
  ring

theorem mkContig_ok (dbg : Bool) (P : Nat) (args : Nat → ContigArgs) (r : Nat) (m : Map)
    (h : Map.mkContig dbg P args r = .ok m) :
    m = { commSize := P
          commRank := r
          numGlobalElements_ := Map.contigNumGlobal P args r
          numLocalElements_ := (args r).numLocalElements
          indexBase_ := (args r).indexBase
          minAllGID_ := (args r).indexBase
          maxAllGID_ := (args r).indexBase + Map.contigNumGlobal P args r - 1
          minMyGID_ := (args r).indexBase + Map.contigMyOffset args r
          maxMyGID_ := (args r).indexBase + Map.contigMyOffset args r + (args r).numLocalElements - 1
          contiguous_ := true
          distributed_ :=
            checkIsDist P (Map.contigNumGlobal P args) (fun q => (args q).numLocalElements) r
          lgMap_ := []
          glMap_ := HashTable.new 0 } := by
  unfold Map.mkContig at h
  simp only [] at h
  split_ifs at h
  injection h with h
  exact h.symm

theorem contigNumGlobal_sentinel (P : Nat) (args : Nat → ContigArgs) (r : Nat) (hr : r < P)
    (h : (args r).numGlobalElements = GSTI) :
    Map.contigNumGlobal P args r = ∑ q in Finset.range P, (args q).numLocalElements := by
  have hcast : ∀ k, (∑ q in Finset.range k, ((args q).numLocalElements : Int)).toNat
      = ∑ q in Finset.range k, (args q).numLocalElements := by
    intro k
    rw [← Nat.cast_sum]
    exact Int.toNat_natCast _
  simp only [Map.contigNumGlobal, h, ne_eq, not_true_eq_false, if_false, broadcast, scan_eq]
  split
  · rw [show P - 1 + 1 = P by omega]
    exact hcast P
  · have hP : P = 1 := by omega
    have hr0 : r = 0 := by omega
    subst hP; subst hr0
    exact hcast 1

/-! ## The tables of the third constructor -/

theorem HashTable.get_add (t : HashTable) (k v g : Int) :
    (t.add k v).get g = if g = k then v else t.get g := by
  unfold HashTable.get HashTable.add
  simp only [List.lookup_cons]
  by_cases h : g = k
  · subst h; simp
  · have : (g == k) = false := by simpa using h
    simp [this, h]

theorem tableFor_nil : TableFor [] (HashTable.new 0) := by
  intro g
  refine ⟨fun _ => rfl, fun h => ?_⟩
  simp at h

theorem tableFor_step (p : List Int) (t : HashTable) (e : Int) (h : TableFor p t) :
    TableFor (p ++ [e]) (t.add e (p.length : Nat)) := by
  intro g
  rw [HashTable.get_add]
  by_cases hg : g = e
  · subst hg
    refine ⟨fun hn => absurd (by simp) hn, fun _ => ⟨p.length, by simp, by simp, by simp, ?_⟩⟩
    intro j hj
    rw [List.getElem?_eq_none (by simp; omega)]
    simp
  · simp only [hg, if_false]
    refine ⟨fun hn => (h g).1 (fun hm => hn (by simp [hm])), fun hm => ?_⟩
    have hm2 : g ∈ p := by
      simp only [List.mem_append, List.mem_singleton] at hm
      rcases hm with hm | hm
      · exact hm
      · exact absurd hm hg
    obtain ⟨i, h1, h2, h3, h4⟩ := (h g).2 hm2
    refine ⟨i, h1, by simp; omega, by rw [List.getElem?_append_left h2]; exact h3, ?_⟩
    intro j hj
    by_cases hjl : j < p.length
    · rw [List.getElem?_append_left hjl]; exact h4 j hj
    · rw [List.getElem?_append_right (by omega)]
      by_cases hj0 : j - p.length = 0
      · rw [hj0]; simp; exact fun h => hg h.symm
      · rw [List.getElem?_eq_none (by simp; omega)]; simp

theorem fill_foldl (p : List Int) (s0 : TableState) (h1 : s0.lgMap_ = [])
    (h2 : s0.glMap_ = HashTable.new 0) (h3 : s0.numUniqueGIDs = 0) :
    (p.foldl Map.fillStep s0).lgMap_ = p ∧
    (p.foldl Map.fillStep s0).numUniqueGIDs = p.length ∧
    TableFor p (p.foldl Map.fillStep s0).glMap_ ∧
    (∀ e ∈ p, (p.foldl Map.fillStep s0).minMyGID_ ≤ e ∧ e ≤ (p.foldl Map.fillStep s0).maxMyGID_) ∧
    (p.foldl Map.fillStep s0).minMyGID_ ≤ s0.minMyGID_ ∧
    s0.maxMyGID_ ≤ (p.foldl Map.fillStep s0).maxMyGID_ ∧
    ((p.foldl Map.fillStep s0).minMyGID_ = s0.minMyGID_ ∨ (p.foldl Map.fillStep s0).minMyGID_ ∈ p) ∧
    ((p.foldl Map.fillStep s0).maxMyGID_ = s0.maxMyGID_ ∨ (p.foldl Map.fillStep s0).maxMyGID_ ∈ p) := by
  induction p using List.reverseRecOn with
  | nil =>
    exact ⟨h1, h3, by rw [List.foldl_nil, h2]; exact tableFor_nil, by simp, le_refl _,
      le_refl _, Or.inl rfl, Or.inl rfl⟩
  | append_singleton p e ih =>
    obtain ⟨a1, a2, a3, a4, a5, a6, a7, a8⟩ := ih
    simp only [List.foldl_append, List.foldl_cons, List.foldl_nil]
    simp only [Map.fillStep, a1, a2]
    refine ⟨trivial, by simp, tableFor_step p _ e a3, ?_, ?_, ?_, ?_, ?_⟩
    · intro x hx
      simp only [List.mem_append, List.mem_singleton] at hx
      rcases hx with hx | hx
      · have := a4 x hx
        constructor <;> split <;> omega
      · subst hx
        constructor <;> split <;> omega
    · split <;> omega
    · split <;> omega
    · split
      · right; simp
      · rcases a7 with h | h
        · left; exact h
        · right; simp [h]
    · split
      · right; simp
      · rcases a8 with h | h
        · left; exact h
        · right; simp [h]

/-! ## What a successful construction stores -/

theorem fillTables_spec (b : Int) (l : List Int) :
    (Map.fillTables b l).lgMap_ = l ∧ TableFor l (Map.fillTables b l).glMap_ ∧
    (∀ e ∈ l, (Map.fillTables b l).minMyGID_ ≤ e ∧ e ≤ (Map.fillTables b l).maxMyGID_) ∧
    (l = [] → (Map.fillTables b l).minMyGID_ = b ∧ (Map.fillTables b l).maxMyGID_ = b) ∧
    (l ≠ [] → (Map.fillTables b l).minMyGID_ ∈ l ∧ (Map.fillTables b l).maxMyGID_ ∈ l) := by
  cases l with
  | nil =>
    refine ⟨rfl, tableFor_nil, by simp, fun _ => ⟨rfl, rfl⟩, fun h => absurd rfl h⟩
  | cons e0 t =>
    obtain ⟨a1, _, a3, a4, _, _, a7, a8⟩ :=
      fill_foldl (e0 :: t) ⟨[], HashTable.new (e0 :: t).length, 0, e0, e0⟩ rfl rfl rfl
    refine ⟨a1, a3, a4, fun h => by simp at h, fun _ => ⟨?_, ?_⟩⟩
    · rcases a7 with h | h
      · simp only [Map.fillTables]; rw [h]; simp
      · exact h
    · rcases a8 with h | h
      · simp only [Map.fillTables]; rw [h]; simp
      · exact h

theorem foldl_min_le {α : Type} [LinearOrder α] (l : List α) (x : α) :
    l.foldl min x ≤ x ∧ ∀ y ∈ l, l.foldl min x ≤ y := by
  induction l generalizing x with
  | nil => simp
  | cons a t ih =>
    simp only [List.foldl_cons, List.mem_cons, forall_eq_or_imp]
    have h1 := (ih (min x a)).1
    exact ⟨le_trans h1 (min_le_left _ _), le_trans h1 (min_le_right _ _), (ih (min x a)).2⟩

theorem mkNonContig_ok (P : Nat) (args : Nat → NonContigArgs) (r : Nat) (m : Map)
    (h : Map.mkNonContig P args r = .ok m) :
    m.commSize = P ∧ m.commRank = r ∧
    m.numGlobalElements_ = Map.nonContigNumGlobal P args r ∧
    m.numLocalElements_ = (args r).entryList.length ∧
    m.indexBase_ = (args r).indexBase_in ∧
    m.minMyGID_ = (Map.fillTables (args r).indexBase_in (args r).entryList).minMyGID_ ∧
    m.maxMyGID_ = (Map.fillTables (args r).indexBase_in (args r).entryList).maxMyGID_ ∧
    m.minAllGID_ = reduceAllMin P
      (fun q => (Map.fillTables (args q).indexBase_in (args q).entryList).minMyGID_)
      (Map.fillTables (args r).indexBase_in (args r).entryList).minMyGID_ ∧
    m.maxAllGID_ = reduceAllMax P
      (fun q => (Map.fillTables (args q).indexBase_in (args q).entryList).maxMyGID_)
      (Map.fillTables (args r).indexBase_in (args r).entryList).maxMyGID_ ∧
    m.contiguous_ = false ∧
    m.distributed_ = checkIsDist P (Map.nonContigNumGlobal P args)
        (fun q => (args q).entryList.length) r ∧
    m.lgMap_ = (args r).entryList ∧
    m.glMap_ = (Map.fillTables (args r).indexBase_in (args r).entryList).glMap_ ∧
    (Map.globalChecks P args r).1 = -1 ∧
    (args r).indexBase_in ≤ m.minAllGID_ := by
  unfold Map.mkNonContig at h
  simp only [] at h
  split_ifs at h
  rename_i h1 h2
  injection h with h
  subst h
  simp only [(fillTables_spec _ _).1, true_and, and_true]
  refine ⟨?_, ?_⟩
  · simpa using h1
  · simpa using h2

theorem mkUniform_ok (dbg : Bool) (P : Nat) (args : Nat → UniformArgs) (r : Nat) (m : Map)
    (h : Map.mkUniform dbg P args r = .ok m) :
    m.contiguous_ = true ∧ m.maxMyGID_ = m.minMyGID_ + m.numLocalElements_ - 1 ∧
    m.indexBase_ ≤ m.minMyGID_ ∧ m.indexBase_ = (args r).indexBase ∧
    m.numGlobalElements_ = (args r).numGlobalElements ∧
    m.distributed_ = (decide (P > 1) && decide ((args r).lOrG = .GloballyDistributed)) ∧
    ((args r).lOrG = .GloballyDistributed →
      m.numLocalElements_ =
        if r < (args r).numGlobalElements - (args r).numGlobalElements / P * P then
          1 + (args r).numGlobalElements / P
        else (args r).numGlobalElements / P) ∧
    ((args r).lOrG = .LocallyReplicated →
      m.numLocalElements_ = (args r).numGlobalElements) := by
  unfold Map.mkUniform at h
  simp only [] at h
  split_ifs at h
  all_goals
    split at h
    all_goals
      rename_i hl
      injection h with h
      subst h
      refine ⟨rfl, ?_, ?_, rfl, rfl, ?_, ?_, ?_⟩
      · rfl
      · first
          | exact le_refl _
          | (simp only []; apply le_add_of_nonneg_right; positivity)
      · simp [hl]
      · intro hgd
        first
          | (rw [hl] at hgd; exact absurd hgd (by decide))
          | (simp only []; rw [if_pos (by assumption)])
          | (simp only []; rw [if_neg (by assumption)])
      · intro hlr
        first
          | (rw [hl] at hlr; exact absurd hlr (by decide))
          | rfl

theorem getGlobalElement_inside (m : Map) (i : Int) (h0 : 0 ≤ i)
    (h1 : i < (m.numLocalElements_ : Int)) :
    m.getGlobalElement i =
      if m.contiguous_ = true then m.minMyGID_ + i else m.lgMap_.getD i.toNat 0 := by
  unfold Map.getGlobalElement Map.getMinLocalIndex Map.getMaxLocalIndex Map.isContiguous
    Map.getMinGlobalIndex
  rw [if_neg (by omega)]

theorem mkNonContig_lookupInv (P : Nat) (args : Nat → NonContigArgs) (r : Nat)
    (m : Map) (h : Map.mkNonContig P args r = .ok m) : m.LookupInv := by
  obtain ⟨-, -, -, hn, -, -, -, -, -, hc, -, hlg, hgl, -⟩ := mkNonContig_ok P args r m h
  refine ⟨fun ht => by rw [hc] at ht; exact absurd ht (by decide), fun _ => ?_⟩
  rw [hlg, hgl, hn]
  exact ⟨rfl, (fillTables_spec _ _).2.1⟩

theorem checkIsDist_iff (P : Nat) (G L : Nat → Nat) (r : Nat) (hr : r < P) :
    checkIsDist P G L r = true ↔ 1 < P ∧ ∃ q, q < P ∧ L q ≠ G q := by
  unfold checkIsDist
  by_cases hP : P > 1
  · simp only [hP, if_true, true_and, ne_eq, ite_eq_left_iff, not_not, Bool.false_eq_true,
      imp_false]
    constructor
    · intro h
      by_contra hcon
      apply h
      have hall : ∀ q, q < P → (if G q = L q then 1 else 0) = 1 := by
        intro q hq
        by_cases hq2 : G q = L q
        · simp [hq2]
        · exact absurd ⟨q, hq, fun h => hq2 h.symm⟩ hcon
      unfold reduceAllMin
      rw [hall r hr]
      apply foldl_min_const
      intro x hx
      simp only [List.mem_map, List.mem_range] at hx
      obtain ⟨q, hq, rfl⟩ := hx
      exact hall q hq
    · rintro ⟨q, hq, hne⟩ h
      have hle := (foldl_min_le ((List.range P).map (fun r => if G r = L r then 1 else 0))
        (if G r = L r then 1 else 0)).2 (if G q = L q then 1 else 0)
        (List.mem_map.mpr ⟨q, List.mem_range.mpr hq, rfl⟩)
      unfold reduceAllMin at h
      rw [h, if_neg (fun h => hne h.symm)] at hle
      omega
  · have hP2 : ¬ 1 < P := hP
    simp [hP, hP2]

/-- Counterexample to C10: the even split of zero elements over two processes
sets the distributed flag on both ranks, although on both ranks the local
count equals the global count. -/
theorem evenSplit_zero_count_distributed :
    ∃ m0 m1, Map.mkUniform false 2 (uniformArgs 0 0 .GloballyDistributed) 0 = .ok m0 ∧
      Map.mkUniform false 2 (uniformArgs 0 0 .GloballyDistributed) 1 = .ok m1 ∧
      m0.distributed_ = true ∧ m1.distributed_ = true ∧
      m0.numLocalElements_ = m0.numGlobalElements_ ∧
      m1.numLocalElements_ = m1.numGlobalElements_ :=
  ⟨_, _, rfl, rfl, by decide, by decide, by decide, by decide⟩

/-- C10 (amended): after a construction that succeeded on every rank, in
local-count and explicit-ID-list mode the distributed flag is true if and only
if there is more than one process and on some process the local count differs
from the global count; in the first constructor the flag is true if and only
if there is more than one process and the call asked for `GloballyDistributed`,
which is the same condition whenever the global count is not zero. -/
theorem distributed_flag (P r : Nat) (hr : r < P) :
    (∀ (dbg : Bool) (args : Nat → UniformArgs) (m : Map),
      Map.mkUniform dbg P args r = .ok m →
      (m.distributed_ = true ↔ 1 < P ∧ (args r).lOrG = .GloballyDistributed)) ∧
    (∀ (dbg : Bool) (N : Nat) (b : Int) (lOrG : LocalGlobal) (m : Map),
      0 < N →
      (∀ q, q < P → ∃ mq, Map.mkUniform dbg P (uniformArgs N b lOrG) q = .ok mq) →
      Map.mkUniform dbg P (uniformArgs N b lOrG) r = .ok m →
      (m.distributed_ = true ↔
        1 < P ∧ ∃ q, q < P ∧ ∃ mq, Map.mkUniform dbg P (uniformArgs N b lOrG) q = .ok mq ∧
          mq.numLocalElements_ ≠ mq.numGlobalElements_)) ∧
    (∀ (dbg : Bool) (args : Nat → ContigArgs) (m : Map),
      (∀ q, q < P → ∃ mq, Map.mkContig dbg P args q = .ok mq) →
      Map.mkContig dbg P args r = .ok m →
      (m.distributed_ = true ↔
        1 < P ∧ ∃ q, q < P ∧ ∃ mq, Map.mkContig dbg P args q = .ok mq ∧
          mq.numLocalElements_ ≠ mq.numGlobalElements_)) ∧
    (∀ (args : Nat → NonContigArgs) (m : Map),
      (∀ q, q < P → ∃ mq, Map.mkNonContig P args q = .ok mq) →
      Map.mkNonContig P args r = .ok m →
      (m.distributed_ = true ↔
        1 < P ∧ ∃ q, q < P ∧ ∃ mq, Map.mkNonContig P args q = .ok mq ∧
          mq.numLocalElements_ ≠ mq.numGlobalElements_)) := by
  have huni : ∀ (dbg : Bool) (args : Nat → UniformArgs) (m : Map),
      Map.mkUniform dbg P args r = .ok m →
      (m.distributed_ = true ↔ 1 < P ∧ (args r).lOrG = .GloballyDistributed) := by
    intro dbg args m h
    obtain ⟨-, -, -, -, -, hd, -⟩ := mkUniform_ok dbg P args r m h
    rw [hd]
    simp
  refine ⟨huni, ?_, ?_, ?_⟩
  · intro dbg N b lOrG m hN hall hok
    rw [huni dbg _ _ hok]
    simp only [uniformArgs]
    constructor
    · rintro ⟨hP, hl⟩
      obtain ⟨mq, hq⟩ := hall (P - 1) (by omega)
      refine ⟨hP, P - 1, by omega, mq, hq, ?_⟩
      obtain ⟨-, -, -, -, hg, -, hcnt, -⟩ := mkUniform_ok dbg P _ (P - 1) _ hq
      rw [hg, hcnt hl]
      simp only [uniformArgs]
      have h1 : N % P < P := Nat.mod_lt _ (by omega)
      rw [sub_div_mul_eq_mod, if_neg (by omega)]
      have := Nat.div_lt_self hN hP
      omega
    · rintro ⟨hP, q, hq, mq, hmq, hne⟩
      refine ⟨hP, ?_⟩
      cases lOrG with
      | GloballyDistributed => rfl
      | LocallyReplicated =>
        exfalso
        obtain ⟨-, -, -, -, hg, -, -, hcnt⟩ := mkUniform_ok dbg P _ q _ hmq
        apply hne
        rw [hg, hcnt rfl]
  · intro dbg args m hall hok
    have hm : ∀ q mq, Map.mkContig dbg P args q = .ok mq →
        mq.numLocalElements_ = (args q).numLocalElements ∧
        mq.numGlobalElements_ = Map.contigNumGlobal P args q := by
      intro q mq hq
      rw [mkContig_ok dbg P args q _ hq]
      exact ⟨rfl, rfl⟩
    rw [mkContig_ok dbg P args r _ hok]
    simp only []
    rw [checkIsDist_iff P _ _ r hr]
    constructor
    · rintro ⟨hP, q, hq, hne⟩
      obtain ⟨mq, hmq⟩ := hall q hq
      exact ⟨hP, q, hq, mq, hmq, by rw [(hm q mq hmq).1, (hm q mq hmq).2]; exact hne⟩
    · rintro ⟨hP, q, hq, mq, hmq, hne⟩
      exact ⟨hP, q, hq, by rw [(hm q mq hmq).1, (hm q mq hmq).2] at hne; exact hne⟩
  · intro args m hall hok
    have hm : ∀ q mq, Map.mkNonContig P args q = .ok mq →
        mq.numLocalElements_ = (args q).entryList.length ∧
        mq.numGlobalElements_ = Map.nonContigNumGlobal P args q := by
      intro q mq hq
      obtain ⟨-, -, h1, h2, -⟩ := mkNonContig_ok P args q _ hq
      exact ⟨h2, h1⟩
    obtain ⟨-, -, -, -, -, -, -, -, -, -, hd, -⟩ := mkNonContig_ok P args r _ hok
    rw [hd, checkIsDist_iff P _ _ r hr]
    constructor
    · rintro ⟨hP, q, hq, hne⟩
      obtain ⟨mq, hmq⟩ := hall q hq
      exact ⟨hP, q, hq, mq, hmq, by rw [(hm q mq hmq).1, (hm q mq hmq).2]; exact hne⟩
    · rintro ⟨hP, q, hq, mq, hmq, hne⟩
      exact ⟨hP, q, hq, by rw [(hm q mq hmq).1, (hm q mq hmq).2] at hne; exact hne⟩

/-- Witness of the amended C10 on rank 1 of two processes. -/
theorem distributed_flag_witness :
    1 < 2 ∧
    (∃ m, Map.mkUniform false 2 (uniformArgs 0 0 .GloballyDistributed) 1 = .ok m ∧
      (m.distributed_ = true ↔
        1 < 2 ∧ (uniformArgs 0 0 .GloballyDistributed 1).lOrG = .GloballyDistributed)) ∧
    (∃ m, Map.mkUniform false 2 (uniformArgs 10 0 .LocallyReplicated) 1 = .ok m ∧
      (m.distributed_ = true ↔
        1 < 2 ∧ ∃ q, q < 2 ∧
          ∃ mq, Map.mkUniform false 2 (uniformArgs 10 0 .LocallyReplicated) q = .ok mq ∧
            mq.numLocalElements_ ≠ mq.numGlobalElements_)) ∧
    (∃ m, Map.mkContig false 2 localCountExample 1 = .ok m ∧
      (m.distributed_ = true ↔
        1 < 2 ∧ ∃ q, q < 2 ∧ ∃ mq, Map.mkContig false 2 localCountExample q = .ok mq ∧
          mq.numLocalElements_ ≠ mq.numGlobalElements_)) ∧
    (∃ m, Map.mkNonContig 2 overlapExample 1 = .ok m ∧
      (m.distributed_ = true ↔
        1 < 2 ∧ ∃ q, q < 2 ∧ ∃ mq, Map.mkNonContig 2 overlapExample q = .ok mq ∧
          mq.numLocalElements_ ≠ mq.numGlobalElements_)) :=
  ⟨by decide,
   ⟨_, rfl, (distributed_flag 2 1 (by decide)).1 false
      (uniformArgs 0 0 .GloballyDistributed) _ rfl⟩,
   ⟨_, rfl, (distributed_flag 2 1 (by decide)).2.1 false 10 0 .LocallyReplicated _ (by decide)
      (fun q hq => by interval_cases q <;> exact ⟨_, rfl⟩) rfl⟩,
   ⟨_, rfl, (distributed_flag 2 1 (by decide)).2.2.1 false localCountExample _
      (fun q hq => by interval_cases q <;> exact ⟨_, rfl⟩) rfl⟩,
   ⟨_, rfl, (distributed_flag 2 1 (by decide)).2.2.2 overlapExample _
      (fun q hq => by interval_cases q <;> exact ⟨_, rfl⟩) rfl⟩⟩

/-! ## Reductions over the ranks and the checks of the third constructor -/

theorem foldl_max_ge {α : Type} [LinearOrder α] (l : List α) (x : α) :
    x ≤ l.foldl max x ∧ ∀ y ∈ l, y ≤ l.foldl max x := by
  induction l generalizing x with
  | nil => simp
  | cons a t ih =>
    simp only [List.foldl_cons, List.mem_cons, forall_eq_or_imp]
    have h1 := (ih (max x a)).1
    exact ⟨le_trans (le_max_left _ _) h1, le_trans (le_max_right _ _) h1, (ih (max x a)).2⟩

theorem foldl_min_mem {α : Type} [LinearOrder α] (l : List α) (x : α) :
    l.foldl min x = x ∨ l.foldl min x ∈ l := by
  induction l generalizing x with
  | nil => simp
  | cons a t ih =>
    simp only [List.foldl_cons, List.mem_cons]
    rcases ih (min x a) with h | h
    · rcases min_choice x a with h2 | h2
      · left; rw [h, h2]
      · right; left; rw [h, h2]
    · right; right; exact h

theorem foldl_max_mem {α : Type} [LinearOrder α] (l : List α) (x : α) :
    l.foldl max x = x ∨ l.foldl max x ∈ l := by
  induction l generalizing x with
  | nil => simp
  | cons a t ih =>
    simp only [List.foldl_cons, List.mem_cons]
    rcases ih (max x a) with h | h
    · rcases max_choice x a with h2 | h2
      · left; rw [h, h2]
      · right; left; rw [h, h2]
    · right; right; exact h

theorem reduceAllMin_le {α : Type} [LinearOrder α] (P : Nat) (vals : Nat → α) (x : α)
    (q : Nat) (hq : q < P) : reduceAllMin P vals x ≤ vals q :=
  (foldl_min_le _ x).2 _ (List.mem_map.mpr ⟨q, List.mem_range.mpr hq, rfl⟩)

theorem reduceAllMax_ge {α : Type} [LinearOrder α] (P : Nat) (vals : Nat → α) (x : α)
    (q : Nat) (hq : q < P) : vals q ≤ reduceAllMax P vals x :=
  (foldl_max_ge _ x).2 _ (List.mem_map.mpr ⟨q, List.mem_range.mpr hq, rfl⟩)

theorem reduceAllMax_ge_mine {α : Type} [LinearOrder α] (P : Nat) (vals : Nat → α) (x : α) :
    x ≤ reduceAllMax P vals x :=
  (foldl_max_ge _ x).1

theorem reduceAllMin_mem {α : Type} [LinearOrder α] (P : Nat) (vals : Nat → α) (x : α) :
    reduceAllMin P vals x = x ∨ ∃ q, q < P ∧ reduceAllMin P vals x = vals q := by
  rcases foldl_min_mem ((List.range P).map vals) x with h | h
  · exact Or.inl h
  · obtain ⟨q, hq, he⟩ := List.mem_map.mp h
    exact Or.inr ⟨q, List.mem_range.mp hq, he.symm⟩

theorem reduceAllMax_mem {α : Type} [LinearOrder α] (P : Nat) (vals : Nat → α) (x : α) :
    reduceAllMax P vals x = x ∨ ∃ q, q < P ∧ reduceAllMax P vals x = vals q := by
  rcases foldl_max_mem ((List.range P).map vals) x with h | h
  · exact Or.inl h
  · obtain ⟨q, hq, he⟩ := List.mem_map.mp h
    exact Or.inr ⟨q, List.mem_range.mp hq, he.symm⟩

/-- Every process of the group contributed a value with the property `p`, so
the reduced value has it. -/
theorem reduceAllMax_of_forall {α : Type} [LinearOrder α] (P : Nat) (vals : Nat → α) (r : Nat)
    (hr : r < P) (p : α → Prop) (h : ∀ q, q < P → p (vals q)) :
    p (reduceAllMax P vals (vals r)) := by
  rcases reduceAllMax_mem P vals (vals r) with h1 | ⟨q, hq, h1⟩
  · rw [h1]; exact h r hr
  · rw [h1]; exact h q hq

theorem reduceAllMin_of_forall {α : Type} [LinearOrder α] (P : Nat) (vals : Nat → α) (r : Nat)
    (hr : r < P) (p : α → Prop) (h : ∀ q, q < P → p (vals q)) :
    p (reduceAllMin P vals (vals r)) := by
  rcases reduceAllMin_mem P vals (vals r) with h1 | ⟨q, hq, h1⟩
  · rw [h1]; exact h r hr
  · rw [h1]; exact h q hq

/-- The shapes of `localChecks`. -/
theorem localChecks_cases (P : Nat) (args : Nat → NonContigArgs) (q : Nat) :
    let ok := (args q).indexBase_in = (args 0).indexBase_in ∧
      ((args q).numGlobalElements_in = GSTI ∨
        (args q).numGlobalElements_in = ∑ k in Finset.range P, (args k).entryList.length)
    (ok → Map.localChecks P args q = (-1, 0)) ∧
    (¬ ok → (Map.localChecks P args q).1 = (q : Int) ∧
      ((Map.localChecks P args q).2 = 2 ∨ (Map.localChecks P args q).2 = 3)) ∧
    ((args q).indexBase_in ≠ (args 0).indexBase_in → Map.localChecks P args q = ((q : Int), 3)) := by
  intro ok
  have hneg : ¬ ((args q).numGlobalElements_in < 1 ∧ (args q).numGlobalElements_in ≠ 0 ∧
      (args q).numGlobalElements_in ≠ GSTI) := by omega
  simp only [Map.localChecks, broadcast, reduceAllSum_eq, hneg, if_false]
  refine ⟨?_, ?_, ?_⟩
  · rintro ⟨h1, h2⟩
    rw [if_neg (by simpa using h1), if_neg (by rcases h2 with h | h <;> simp [h])]
  · intro hn
    by_cases hb : (args q).indexBase_in = (args 0).indexBase_in
    · have h2 : (args q).numGlobalElements_in ≠ GSTI ∧ (args q).numGlobalElements_in ≠
          ∑ k in Finset.range P, (args k).entryList.length := by
        constructor
        · intro h; exact hn ⟨hb, Or.inl h⟩
        · intro h; exact hn ⟨hb, Or.inr h⟩
      rw [if_neg (by simpa using hb), if_pos h2]
      exact ⟨rfl, Or.inl rfl⟩
    · rw [if_pos hb]
      exact ⟨rfl, Or.inr rfl⟩
  · intro hb
    rw [if_pos hb]

/-- When every local check passes, `globalChecks` reports no failure. -/
theorem globalChecks_pass (P : Nat) (args : Nat → NonContigArgs) (r : Nat) (hr : r < P)
    (h : ∀ q, q < P → Map.localChecks P args q = (-1, 0)) :
    Map.globalChecks P args r = (-1, 0) := by
  unfold Map.globalChecks
  have h1 := reduceAllMax_of_forall P (fun q => (Map.localChecks P args q).1) r hr
    (fun x => x = -1) (fun q hq => by simp [h q hq])
  have h2 := reduceAllMax_of_forall P (fun q => (Map.localChecks P args q).2) r hr
    (fun x => x = 0) (fun q hq => by simp [h q hq])
  simp only [] at h1 h2
  rw [h1, h2]

/-- A failed local check on some rank shows in `globalChecks` on every rank. -/
theorem globalChecks_fail (P : Nat) (args : Nat → NonContigArgs) (r q : Nat) (hq : q < P)
    (h : (Map.localChecks P args q).1 = (q : Int)) (h2 : 2 ≤ (Map.localChecks P args q).2) :
    (Map.globalChecks P args r).1 ≠ -1 ∧
    ((Map.globalChecks P args r).2 = 2 ∨ (Map.globalChecks P args r).2 = 3) ∧
    (Map.localChecks P args q).2 ≤ (Map.globalChecks P args r).2 := by
  unfold Map.globalChecks
  simp only []
  have hge1 := reduceAllMax_ge P (fun k => (Map.localChecks P args k).1)
    (Map.localChecks P args r).1 q hq
  have hge2 := reduceAllMax_ge P (fun k => (Map.localChecks P args k).2)
    (Map.localChecks P args r).2 q hq
  beta_reduce at hge1 hge2
  have hcode : ∀ k, (Map.localChecks P args k).2 = 0 ∨ (Map.localChecks P args k).2 = 2 ∨
      (Map.localChecks P args k).2 = 3 := by
    intro k
    obtain ⟨a, b, _⟩ := localChecks_cases P args k
    by_cases hk : (args k).indexBase_in = (args 0).indexBase_in ∧
      ((args k).numGlobalElements_in = GSTI ∨
        (args k).numGlobalElements_in = ∑ j in Finset.range P, (args j).entryList.length)
    · left; rw [a hk]
    · right; exact (b hk).2
  refine ⟨by omega, ?_, hge2⟩
  rcases reduceAllMax_mem P (fun k => (Map.localChecks P args k).2)
      (Map.localChecks P args r).2 with h3 | ⟨k, _, h3⟩
  · rcases hcode r with h4 | h4 | h4 <;> omega
  · rcases hcode k with h4 | h4 | h4 <;> omega

/-- What the third constructor does once the collective checks have passed. -/
theorem mkNonContig_of_pass (P : Nat) (args : Nat → NonContigArgs) (r : Nat)
    (h : Map.globalChecks P args r = (-1, 0)) :
    let minAll := reduceAllMin P
      (fun q => (Map.fillTables (args q).indexBase_in (args q).entryList).minMyGID_)
      (Map.fillTables (args r).indexBase_in (args r).entryList).minMyGID_
    (minAll < (args r).indexBase_in → Map.mkNonContig P args r = .error .minBelowIndexBase) ∧
    (¬ minAll < (args r).indexBase_in → ∃ m, Map.mkNonContig P args r = .ok m) := by
  intro minAll
  unfold Map.mkNonContig
  simp only [h, ne_eq, not_true_eq_false, if_false]
  constructor
  · intro hlt
    rw [if_pos hlt]
  · intro hlt
    rw [if_neg hlt]
    exact ⟨_, rfl⟩

theorem fillTables_min_lt_iff (b0 b : Int) (l : List Int) (hb : b0 = b) :
    (Map.fillTables b0 l).minMyGID_ < b ↔ ∃ g ∈ l, g < b := by
  subst hb
  obtain ⟨-, -, h3, h4, h5⟩ := fillTables_spec b0 l
  by_cases hl : l = []
  · subst hl
    simp [(h4 rfl).1]
  · constructor
    · intro h
      exact ⟨_, (h5 hl).1, h⟩
    · rintro ⟨g, hg, hlt⟩
      have := (h3 g hg).1
      omega

/-- C11: an explicit-ID-list construction whose count and index base
arguments are valid (every process passes the index base `b` and the sentinel
or the summed list length as count) fails on rank `r` with an invalid-argument
error if and only if some process's list holds a global ID smaller than `b`;
the only error it can raise is the one thrown after the global minimum
reduction, and it is raised exactly when the reduced minimum is below `b`. The
condition does not depend on the rank, so every process fails or none. -/
theorem range_violation_iff (P : Nat) (args : Nat → NonContigArgs) (b : Int) (r : Nat)
    (hr : r < P)
    (hvalid : ∀ q, q < P → (args q).indexBase_in = b ∧
      ((args q).numGlobalElements_in = GSTI ∨
        (args q).numGlobalElements_in = ∑ k in Finset.range P, (args k).entryList.length)) :
    ((∃ e, Map.mkNonContig P args r = .error e ∧ e.exceptionClass = .invalid_argument) ↔
      ∃ q, q < P ∧ ∃ g ∈ (args q).entryList, g < b) ∧
    (∀ e, Map.mkNonContig P args r = .error e → e = .minBelowIndexBase) ∧
    ((∃ q, q < P ∧ ∃ g ∈ (args q).entryList, g < b) ↔
      reduceAllMin P
        (fun q => (Map.fillTables (args q).indexBase_in (args q).entryList).minMyGID_)
        (Map.fillTables (args r).indexBase_in (args r).entryList).minMyGID_ < b) := by
  have h0 : (args 0).indexBase_in = b := (hvalid 0 (by omega)).1
  have hbr : (args r).indexBase_in = b := (hvalid r hr).1
  have hlc : ∀ q, q < P → Map.localChecks P args q = (-1, 0) := by
    intro q hq
    exact (localChecks_cases P args q).1 ⟨by rw [(hvalid q hq).1, h0], (hvalid q hq).2⟩
  have hgc := globalChecks_pass P args r hr hlc
  obtain ⟨hfail, hpass⟩ := mkNonContig_of_pass P args r hgc
  have hiff : (∃ q, q < P ∧ ∃ g ∈ (args q).entryList, g < b) ↔
      reduceAllMin P
        (fun q => (Map.fillTables (args q).indexBase_in (args q).entryList).minMyGID_)
        (Map.fillTables (args r).indexBase_in (args r).entryList).minMyGID_ < b := by
    constructor
    · rintro ⟨q, hq, hg⟩
      have h1 := reduceAllMin_le P
        (fun q => (Map.fillTables (args q).indexBase_in (args q).entryList).minMyGID_)
        (Map.fillTables (args r).indexBase_in (args r).entryList).minMyGID_ q hq
      have h2 := (fillTables_min_lt_iff (args q).indexBase_in b (args q).entryList
        (hvalid q hq).1).mpr hg
      exact lt_of_le_of_lt h1 h2
    · intro hlt
      exact reduceAllMin_of_forall P
        (fun q => (Map.fillTables (args q).indexBase_in (args q).entryList).minMyGID_) r hr
        (fun x => x < b → ∃ q, q < P ∧ ∃ g ∈ (args q).entryList, g < b)
        (fun q hq hx => ⟨q, hq,
          (fillTables_min_lt_iff (args q).indexBase_in b (args q).entryList
            (hvalid q hq).1).mp hx⟩) hlt
  refine ⟨⟨?_, ?_⟩, ?_, hiff⟩
  · rintro ⟨e, he, -⟩
    by_contra hcon
    obtain ⟨m, hm⟩ := hpass (fun h => hcon (hiff.mpr (lt_of_lt_of_eq h hbr)))
    rw [hm] at he
    cases he
  · intro h
    exact ⟨_, hfail (lt_of_lt_of_eq (hiff.mp h) hbr.symm), rfl⟩
  · intro e he
    by_cases hlt : reduceAllMin P
        (fun q => (Map.fillTables (args q).indexBase_in (args q).entryList).minMyGID_)
        (Map.fillTables (args r).indexBase_in (args r).entryList).minMyGID_ < b
    · rw [hfail (lt_of_lt_of_eq hlt hbr.symm)] at he
      injection he with he
      exact he.symm
    · obtain ⟨m, hm⟩ := hpass (fun h => hlt (lt_of_lt_of_eq h hbr))
      rw [hm] at he
      cases he

/-- What the third constructor does once a collective check has failed. -/
theorem mkNonContig_of_fail (P : Nat) (args : Nat → NonContigArgs) (r : Nat)
    (h : (Map.globalChecks P args r).1 ≠ -1) :
    ((Map.globalChecks P args r).2 = 2 → Map.mkNonContig P args r = .error .sumNotNumGlobal) ∧
    ((Map.globalChecks P args r).2 = 3 → Map.mkNonContig P args r = .error .indexBaseNotSame) := by
  unfold Map.mkNonContig
  simp only [h, ne_eq, not_false_eq_true, if_true]
  constructor
  · intro h2
    rw [h2]
    rfl
  · intro h3
    rw [h3]
    rfl

/-- C13: when on some process `q` of the group the given (non-sentinel)
global count differs from the sum of all processes' list lengths, the
explicit-ID-list construction fails on every rank `r` with an invalid-argument
error (the count error, or the index-base error when the index bases disagree
as well). -/
theorem wrong_global_count_fails_everywhere (P : Nat) (args : Nat → NonContigArgs) (q : Nat)
    (hq : q < P) (hgiven : (args q).numGlobalElements_in ≠ GSTI)
    (hwrong : (args q).numGlobalElements_in ≠ ∑ k in Finset.range P, (args k).entryList.length) :
    ∀ r, ∃ e, Map.mkNonContig P args r = .error e ∧
      e.exceptionClass = .invalid_argument ∧
      (e = .sumNotNumGlobal ∨ e = .indexBaseNotSame) := by
  intro r
  have hlc := (localChecks_cases P args q).2.1
    (fun h => by rcases h.2 with h | h; exact hgiven h; exact hwrong h)
  obtain ⟨h1, h2, -⟩ := globalChecks_fail P args r q hq hlc.1 (by rcases hlc.2 with h | h <;> omega)
  obtain ⟨f2, f3⟩ := mkNonContig_of_fail P args r h1
  rcases h2 with h2 | h2
  · exact ⟨_, f2 h2, rfl, Or.inl rfl⟩
  · exact ⟨_, f3 h2, rfl, Or.inr rfl⟩

/-- Two processes passed different index bases: the third constructor
throws the index-base error on every rank. -/
theorem mkNonContig_indexBase_mismatch (P : Nat) (args : Nat → NonContigArgs) (q q2 : Nat)
    (hq : q < P) (hq2 : q2 < P) (hne : (args q).indexBase_in ≠ (args q2).indexBase_in) (r : Nat) :
    Map.mkNonContig P args r = .error .indexBaseNotSame := by
  have key : ∀ k, k < P → (args k).indexBase_in ≠ (args 0).indexBase_in →
      Map.mkNonContig P args r = .error .indexBaseNotSame := by
    intro k hk hk0
    have hlc := (localChecks_cases P args k).2.2 hk0
    obtain ⟨h1, h2, h3⟩ := globalChecks_fail P args r k hk (by rw [hlc]) (by rw [hlc]; show (2 : Int) ≤ 3; omega)
    rw [hlc] at h3
    exact (mkNonContig_of_fail P args r h1).2 (by rcases h2 with h | h <;> omega)
  by_cases h0 : (args q).indexBase_in = (args 0).indexBase_in
  · exact key q2 hq2 (fun h => hne (by rw [h0, h]))
  · exact key q hq h0

/-! ## The debug checks of the first two constructors -/

/-- Two ranks contributed different values, so the minimum and the maximum
over the ranks differ. -/
theorem reduceAll_min_ne_max {α : Type} [LinearOrder α] (P : Nat) (vals : Nat → α) (x : α)
    (q q2 : Nat) (hq : q < P) (hq2 : q2 < P) (hne : vals q ≠ vals q2) :
    reduceAllMin P vals x ≠ reduceAllMax P vals x := by
  intro h
  have a1 := reduceAllMin_le P vals x q hq
  have a2 := reduceAllMax_ge P vals x q hq
  have b1 := reduceAllMin_le P vals x q2 hq2
  have b2 := reduceAllMax_ge P vals x q2 hq2
  rw [h] at a1 b1
  exact hne (le_antisymm (le_trans a2 b1) (le_trans b2 a1))

/-- The minimum and the maximum over the ranks agree, so every rank
contributed that value. -/
theorem reduceAll_eq_of_min_eq_max {α : Type} [LinearOrder α] (P : Nat) (vals : Nat → α)
    (x : α) (h : reduceAllMin P vals x = reduceAllMax P vals x) (q : Nat) (hq : q < P) :
    vals q = reduceAllMin P vals x := by
  have a1 := reduceAllMin_le P vals x q hq
  have a2 := reduceAllMax_ge P vals x q hq
  rw [← h] at a2
  exact le_antisymm a2 a1

/-- The checks that a successful debug run of the first constructor passed. -/
theorem mkUniform_debug_ok (P : Nat) (args : Nat → UniformArgs) (r : Nat) (m : Map)
    (h : Map.mkUniform true P args r = .ok m) :
    (∀ q, q < P → (args q).numGlobalElements = (args r).numGlobalElements) ∧
    (∀ q, q < P → (args q).indexBase = (args r).indexBase) := by
  unfold Map.mkUniform at h
  simp only [true_and, ne_eq] at h
  split_ifs at h
  all_goals
    rename_i c1 c2 _ _ _
    rw [not_or, not_not, not_not] at c1 c2
    refine ⟨fun q hq => ?_, fun q hq => ?_⟩
    · rw [c1.2]
      exact reduceAll_eq_of_min_eq_max P (fun k => (args k).numGlobalElements) _ c1.1 q hq
    · rw [c2.2]
      exact reduceAll_eq_of_min_eq_max P (fun k => (args k).indexBase) _ c2.1 q hq

/-- The checks that a successful debug run of the second constructor passed. -/
theorem mkContig_debug_ok (P : Nat) (args : Nat → ContigArgs) (r : Nat) (m : Map)
    (h : Map.mkContig true P args r = .ok m) :
    (∀ q, q < P → (args q).numGlobalElements = (args r).numGlobalElements) ∧
    (∀ q, q < P → (args q).indexBase = (args r).indexBase) ∧
    ((args r).numGlobalElements = GSTI ∨
      (args r).numGlobalElements = ∑ k in Finset.range P, (args k).numLocalElements) := by
  unfold Map.mkContig at h
  simp only [true_and, ne_eq, reduceAllSum_eq] at h
  split_ifs at h
  rename_i c1 c2 c3 _
  rw [not_or, not_not, not_not] at c1 c2
  refine ⟨fun q hq => ?_, fun q hq => ?_, ?_⟩
  · rw [c1.2]
    exact reduceAll_eq_of_min_eq_max P (fun k => (args k).numGlobalElements) _ c1.1 q hq
  · rw [c2.2]
    exact reduceAll_eq_of_min_eq_max P (fun k => (args k).indexBase) _ c2.1 q hq
  · by_cases hs : (args r).numGlobalElements = GSTI
    · exact Or.inl hs
    · right
      by_contra hne
      exact c3 ⟨hs, fun h => hne h.symm⟩

/-! ## Explicit-ID-list construction: range and count errors -/

/-- Witness of C11: rank 1 of two processes, rank 0 holding the ID 1 below the
index base 2. -/
theorem range_violation_iff_witness :
    ((∃ e, Map.mkNonContig 2 belowBaseExample 1 = .error e ∧
        e.exceptionClass = .invalid_argument) ↔
      ∃ q, q < 2 ∧ ∃ g ∈ (belowBaseExample q).entryList, g < 2) ∧
    (∀ e, Map.mkNonContig 2 belowBaseExample 1 = .error e → e = .minBelowIndexBase) ∧
    ((∃ q, q < 2 ∧ ∃ g ∈ (belowBaseExample q).entryList, g < 2) ↔
      reduceAllMin 2
        (fun q => (Map.fillTables (belowBaseExample q).indexBase_in
          (belowBaseExample q).entryList).minMyGID_)
        (Map.fillTables (belowBaseExample 1).indexBase_in
          (belowBaseExample 1).entryList).minMyGID_ < 2) :=
  range_violation_iff 2 belowBaseExample 2 1 (by decide)
    (fun q hq => by interval_cases q <;> exact ⟨rfl, Or.inl rfl⟩)

/-- Evaluation for C12: rank 0 holds `[5]`, rank 1 holds nothing, index base
0.  Both ranks store 0 as the all-process minimum (the default of the empty
rank), not the smallest listed ID 5; the all-process maximum is 5. -/
theorem minAllGID_with_empty_rank :
    ∃ m0 m1, Map.mkNonContig 2 emptyRankExample 0 = .ok m0 ∧
      Map.mkNonContig 2 emptyRankExample 1 = .ok m1 ∧
      m0.lgMap_ = [5] ∧ m1.lgMap_ = [] ∧
      m0.minAllGID_ = 0 ∧ m1.minAllGID_ = 0 ∧ m0.maxAllGID_ = 5 ∧ m1.maxAllGID_ = 5 :=
  ⟨_, _, rfl, rfl, by decide, by decide, by decide, by decide, by decide, by decide⟩

/-- Witness of C13: rank 0 passes the count 2, the lists hold 3 IDs; rank 1,
whose own count 3 is right, fails as well. -/
theorem wrong_global_count_fails_everywhere_witness :
    ∃ e, Map.mkNonContig 2 wrongCountExample 1 = .error e ∧
      e.exceptionClass = .invalid_argument ∧
      (e = .sumNotNumGlobal ∨ e = .indexBaseNotSame) :=
  wrong_global_count_fails_everywhere 2 wrongCountExample 0 (by decide) (by decide) (by decide) 1

/-! ## Local-count construction: the debug check of the global count -/

/-- A debug run of the second constructor in which some process passed a
global count that is neither the sentinel nor the sum fails on every rank. -/
theorem mkContig_debug_wrong_count (P : Nat) (args : Nat → ContigArgs) (q : Nat) (hq : q < P)
    (hgiven : (args q).numGlobalElements ≠ GSTI)
    (hwrong : (args q).numGlobalElements ≠ ∑ k in Finset.range P, (args k).numLocalElements)
    (r : Nat) :
    ∃ e, Map.mkContig true P args r = .error e ∧ e.exceptionClass = .invalid_argument := by
  unfold Map.mkContig
  simp only [true_and, ne_eq, reduceAllSum_eq]
  split_ifs with c1 c2 c3 c4
  · exact ⟨_, rfl, rfl⟩
  · exact ⟨_, rfl, rfl⟩
  · exact ⟨_, rfl, rfl⟩
  · exfalso
    rw [not_or, not_not, not_not] at c1
    have hqr : (args q).numGlobalElements = (args r).numGlobalElements := by
      rw [c1.2]
      exact reduceAll_eq_of_min_eq_max P (fun k => (args k).numGlobalElements) _ c1.1 q hq
    rw [hqr] at hgiven hwrong
    exact c3 ⟨hgiven, fun h => hwrong h.symm⟩
  · exfalso
    rw [not_or, not_not, not_not] at c1
    have hqr : (args q).numGlobalElements = (args r).numGlobalElements := by
      rw [c1.2]
      exact reduceAll_eq_of_min_eq_max P (fun k => (args k).numGlobalElements) _ c1.1 q hq
    rw [hqr] at hgiven hwrong
    exact c3 ⟨hgiven, fun h => hwrong h.symm⟩

/-- The global count stored by a successful debug run of the second
constructor is the sum of the local counts. -/
theorem mkContig_debug_stores_sum (P : Nat) (args : Nat → ContigArgs) (r : Nat) (hr : r < P)
    (m : Map) (h : Map.mkContig true P args r = .ok m) :
    m.numGlobalElements_ = ∑ k in Finset.range P, (args k).numLocalElements := by
  obtain ⟨-, -, h3⟩ := mkContig_debug_ok P args r m h
  rw [mkContig_ok true P args r m h]
  show Map.contigNumGlobal P args r = _
  by_cases hs : (args r).numGlobalElements = GSTI
  · exact contigNumGlobal_sentinel P args r hr hs
  · rcases h3 with h3 | h3
    · exact absurd h3 hs
    · simp only [Map.contigNumGlobal, ne_eq, hs, not_false_eq_true, if_true]
      exact h3

/-! ## Mismatched index bases -/

/-- A debug run of the first constructor in which two processes passed
different index bases fails on every rank. -/
theorem mkUniform_debug_indexBase_mismatch (P : Nat) (args : Nat → UniformArgs) (q q2 : Nat)
    (hq : q < P) (hq2 : q2 < P) (hne : (args q).indexBase ≠ (args q2).indexBase) (r : Nat) :
    Map.mkUniform true P args r = .error .numGlobalNotSame ∨
    Map.mkUniform true P args r = .error .indexBaseNotSame := by
  have hmm := reduceAll_min_ne_max P (fun k => (args k).indexBase) (args r).indexBase
    q q2 hq hq2 hne
  unfold Map.mkUniform
  simp only [true_and, ne_eq]
  split_ifs with c1 c2
  · exact Or.inl rfl
  · exact Or.inr rfl
  all_goals exact absurd (Or.inl hmm) c2

/-- A debug run of the second constructor in which two processes passed
different index bases fails on every rank. -/
theorem mkContig_debug_indexBase_mismatch (P : Nat) (args : Nat → ContigArgs) (q q2 : Nat)
    (hq : q < P) (hq2 : q2 < P) (hne : (args q).indexBase ≠ (args q2).indexBase) (r : Nat) :
    Map.mkContig true P args r = .error .numGlobalNotSame ∨
    Map.mkContig true P args r = .error .indexBaseNotSame := by
  have hmm := reduceAll_min_ne_max P (fun k => (args k).indexBase) (args r).indexBase
    q q2 hq hq2 hne
  unfold Map.mkContig
  simp only [true_and, ne_eq]
  split_ifs with c1 c2
  · exact Or.inl rfl
  · exact Or.inr rfl
  all_goals exact absurd (Or.inl hmm) c2

/-- C15: when two processes `q`, `q2` of the group pass different index bases,
construction fails on every rank `r` with an invalid-argument error: in
explicit-ID-list mode always, with the index-base error; in even-split and
local-count mode when the debug validation is enabled, with the index-base
error or, when the global counts disagree as well, with the error of the
global-count check that comes first. -/
theorem index_base_mismatch_fails (P q q2 : Nat) (hq : q < P) (hq2 : q2 < P) (r : Nat) :
    (∀ args : Nat → NonContigArgs, (args q).indexBase_in ≠ (args q2).indexBase_in →
      Map.mkNonContig P args r = .error .indexBaseNotSame) ∧
    (∀ args : Nat → UniformArgs, (args q).indexBase ≠ (args q2).indexBase →
      ∃ e, Map.mkUniform true P args r = .error e ∧ e.exceptionClass = .invalid_argument ∧
        (e = .numGlobalNotSame ∨ e = .indexBaseNotSame)) ∧
    (∀ args : Nat → ContigArgs, (args q).indexBase ≠ (args q2).indexBase →
      ∃ e, Map.mkContig true P args r = .error e ∧ e.exceptionClass = .invalid_argument ∧
        (e = .numGlobalNotSame ∨ e = .indexBaseNotSame)) ∧
    MapError.indexBaseNotSame.exceptionClass = .invalid_argument := by
  refine ⟨fun args hne => mkNonContig_indexBase_mismatch P args q q2 hq hq2 hne r, ?_, ?_, rfl⟩
  · intro args hne
    rcases mkUniform_debug_indexBase_mismatch P args q q2 hq hq2 hne r with h | h
    · exact ⟨_, h, rfl, Or.inl rfl⟩
    · exact ⟨_, h, rfl, Or.inr rfl⟩
  · intro args hne
    rcases mkContig_debug_indexBase_mismatch P args q q2 hq hq2 hne r with h | h
    · exact ⟨_, h, rfl, Or.inl rfl⟩
    · exact ⟨_, h, rfl, Or.inr rfl⟩

/-- Witness of C15: rank 0 uses index base 0, rank 1 uses index base 1. -/
theorem index_base_mismatch_fails_witness :
    Map.mkNonContig 2 mixedBaseNonContig 1 = .error .indexBaseNotSame ∧
    (∃ e, Map.mkUniform true 2 mixedBaseUniform 1 = .error e ∧
      e.exceptionClass = .invalid_argument ∧
      (e = .numGlobalNotSame ∨ e = .indexBaseNotSame)) ∧
    (∃ e, Map.mkContig true 2 mixedBaseContig 1 = .error e ∧
      e.exceptionClass = .invalid_argument ∧
      (e = .numGlobalNotSame ∨ e = .indexBaseNotSame)) :=
  ⟨(index_base_mismatch_fails 2 0 1 (by decide) (by decide) 1).1 mixedBaseNonContig (by decide),
   (index_base_mismatch_fails 2 0 1 (by decide) (by decide) 1).2.1 mixedBaseUniform (by decide),
   (index_base_mismatch_fails 2 0 1 (by decide) (by decide) 1).2.2.1 mixedBaseContig
     (by decide)⟩

/-! ## The stored global count -/

/-- The global count stored by a successful run of the third constructor is
the sum of the list lengths. -/
theorem mkNonContig_stores_sum (P : Nat) (args : Nat → NonContigArgs) (r : Nat) (m : Map)
    (h : Map.mkNonContig P args r = .ok m) :
    m.numGlobalElements_ = ∑ k in Finset.range P, (args k).entryList.length := by
  obtain ⟨-, -, hN, -, -, -, -, -, -, -, -, -, -, hgc, -⟩ := mkNonContig_ok P args r m h
  have hle : (Map.localChecks P args r).1 ≤ -1 := by
    rw [← hgc]
    exact reduceAllMax_ge_mine P _ _
  obtain ⟨-, hfail, -⟩ := localChecks_cases P args r
  have hpass : (args r).indexBase_in = (args 0).indexBase_in ∧
      ((args r).numGlobalElements_in = GSTI ∨
        (args r).numGlobalElements_in = ∑ k in Finset.range P, (args k).entryList.length) := by
    by_contra hcon
    have := (hfail hcon).1
    omega
  rw [hN]
  simp only [Map.nonContigNumGlobal, reduceAllSum_eq]
  rcases hpass.2 with h1 | h1
  · rw [if_pos h1]
  · split
    · rfl
    · exact h1

/-- Counterexample to C16: without the debug validation, an even split in
which rank 0 passes the global count 4 and rank 1 the global count 6 succeeds
on both ranks, which store 4 and 6. -/
theorem evenSplit_global_count_differs_without_debug :
    ∃ m0 m1, Map.mkUniform false 2 mixedCountExample 0 = .ok m0 ∧
      Map.mkUniform false 2 mixedCountExample 1 = .ok m1 ∧
      m0.numGlobalElements_ = 4 ∧ m1.numGlobalElements_ = 6 ∧
      m0.numGlobalElements_ ≠ m1.numGlobalElements_ :=
  ⟨_, _, rfl, rfl, by decide, by decide, by decide⟩

/-- C16 (amended): after a successful construction on the ranks `r` and `s`,
both store the same global count in explicit-ID-list mode, and in even-split
and local-count mode when the debug validation is enabled; without the debug
validation the first two constructors store the count each process passed
(the second one when it is not the sentinel). -/
theorem global_count_same_on_all_ranks (P r s : Nat) (hr : r < P) (hs : s < P) :
    (∀ (args : Nat → NonContigArgs) (mr ms : Map),
      Map.mkNonContig P args r = .ok mr → Map.mkNonContig P args s = .ok ms →
      mr.numGlobalElements_ = ms.numGlobalElements_) ∧
    (∀ (args : Nat → UniformArgs) (mr ms : Map),
      Map.mkUniform true P args r = .ok mr → Map.mkUniform true P args s = .ok ms →
      mr.numGlobalElements_ = ms.numGlobalElements_) ∧
    (∀ (args : Nat → ContigArgs) (mr ms : Map),
      Map.mkContig true P args r = .ok mr → Map.mkContig true P args s = .ok ms →
      mr.numGlobalElements_ = ms.numGlobalElements_) ∧
    (∀ (args : Nat → UniformArgs) (mr : Map),
      Map.mkUniform false P args r = .ok mr →
      mr.numGlobalElements_ = (args r).numGlobalElements) ∧
    (∀ (args : Nat → ContigArgs) (mr : Map),
      Map.mkContig false P args r = .ok mr → (args r).numGlobalElements ≠ GSTI →
      mr.numGlobalElements_ = (args r).numGlobalElements) := by
  refine ⟨?_, ?_, ?_, ?_, ?_⟩
  · intro args mr ms h1 h2
    rw [mkNonContig_stores_sum P args r mr h1, mkNonContig_stores_sum P args s ms h2]
  · intro args mr ms h1 h2
    obtain ⟨-, -, -, -, g1, -⟩ := mkUniform_ok true P args r mr h1
    obtain ⟨-, -, -, -, g2, -⟩ := mkUniform_ok true P args s ms h2
    rw [g1, g2]
    exact ((mkUniform_debug_ok P args r mr h1).1 s hs).symm
  · intro args mr ms h1 h2
    rw [mkContig_debug_stores_sum P args r hr mr h1, mkContig_debug_stores_sum P args s hs ms h2]
  · intro args mr h1
    exact (mkUniform_ok false P args r mr h1).2.2.2.2.1
  · intro args mr h1 hne
    rw [mkContig_ok false P args r mr h1]
    simp only [Map.contigNumGlobal, ne_eq, hne, not_false_eq_true, if_true]

/-- Witness of the amended C16 on ranks 0 and 1 of two processes. -/
theorem global_count_same_on_all_ranks_witness :
    (∃ m0 m1, Map.mkNonContig 2 overlapExample 0 = .ok m0 ∧
      Map.mkNonContig 2 overlapExample 1 = .ok m1 ∧
      m0.numGlobalElements_ = m1.numGlobalElements_) ∧
    (∃ m0 m1, Map.mkUniform true 2 (uniformArgs 7 1 .GloballyDistributed) 0 = .ok m0 ∧
      Map.mkUniform true 2 (uniformArgs 7 1 .GloballyDistributed) 1 = .ok m1 ∧
      m0.numGlobalElements_ = m1.numGlobalElements_) ∧
    (∃ m0 m1, Map.mkContig true 2 localCountExample 0 = .ok m0 ∧
      Map.mkContig true 2 localCountExample 1 = .ok m1 ∧
      m0.numGlobalElements_ = m1.numGlobalElements_) ∧
    (∃ m0, Map.mkUniform false 2 mixedCountExample 0 = .ok m0 ∧
      m0.numGlobalElements_ = (mixedCountExample 0).numGlobalElements) ∧
    (∃ m0, Map.mkContig false 2 wrongSumExample 0 = .ok m0 ∧
      m0.numGlobalElements_ = (wrongSumExample 0).numGlobalElements) :=
  ⟨⟨_, _, rfl, rfl,
      (global_count_same_on_all_ranks 2 0 1 (by decide) (by decide)).1 overlapExample _ _
        rfl rfl⟩,
   ⟨_, _, rfl, rfl,
      (global_count_same_on_all_ranks 2 0 1 (by decide) (by decide)).2.1
        (uniformArgs 7 1 .GloballyDistributed) _ _ rfl rfl⟩,
   ⟨_, _, rfl, rfl,
      (global_count_same_on_all_ranks 2 0 1 (by decide) (by decide)).2.2.1 localCountExample _ _
        rfl rfl⟩,
   ⟨_, rfl,
      (global_count_same_on_all_ranks 2 0 1 (by decide) (by decide)).2.2.2.1 mixedCountExample _
        rfl⟩,
   ⟨_, rfl,
      (global_count_same_on_all_ranks 2 0 1 (by decide) (by decide)).2.2.2.2 wrongSumExample _
        rfl (by decide)⟩⟩

/-- C17: the even-split constructor called with the sentinel as global count
throws an invalid-argument error (the sentinel error itself without debug
validation or when all processes pass the sentinel) and builds no partition;
for every other count, 0 included, neither count validity check throws, and
the construction succeeds without debug validation and whenever all processes
pass the same arguments. -/
theorem evenSplit_rejects_sentinel (P r : Nat) :
    (∀ (dbg : Bool) (args : Nat → UniformArgs), (args r).numGlobalElements = GSTI →
      ∃ e, Map.mkUniform dbg P args r = .error e ∧ e.exceptionClass = .invalid_argument) ∧
    (∀ (args : Nat → UniformArgs), (args r).numGlobalElements = GSTI →
      Map.mkUniform false P args r = .error .invalidNumGlobal) ∧
    (∀ (dbg : Bool) (b : Int) (l : LocalGlobal),
      Map.mkUniform dbg P (uniformArgs GSTI b l) r = .error .invalidNumGlobal) ∧
    (∀ (dbg : Bool) (args : Nat → UniformArgs), (args r).numGlobalElements ≠ GSTI →
      Map.mkUniform dbg P args r ≠ .error .negativeNumGlobal ∧
      Map.mkUniform dbg P args r ≠ .error .invalidNumGlobal) ∧
    (∀ (args : Nat → UniformArgs), (args r).numGlobalElements ≠ GSTI →
      ∃ m, Map.mkUniform false P args r = .ok m) ∧
    (∀ (dbg : Bool) (N : Nat) (b : Int) (l : LocalGlobal), N ≠ GSTI →
      ∃ m, Map.mkUniform dbg P (uniformArgs N b l) r = .ok m ∧ m.numGlobalElements_ = N) := by
  have hneg : ∀ N : Nat, ¬ (N < 1 ∧ N ≠ 0) := fun N => by omega
  refine ⟨?_, ?_, ?_, ?_, ?_, ?_⟩
  · intro dbg args hs
    unfold Map.mkUniform
    simp only [hneg, hs, if_false, if_true]
    split_ifs
    · exact ⟨_, rfl, rfl⟩
    · exact ⟨_, rfl, rfl⟩
    · exact ⟨_, rfl, rfl⟩
  · intro args hs
    unfold Map.mkUniform
    simp only [hneg, hs, if_false, if_true, Bool.false_eq_true, false_and]
  · intro dbg b l
    simp only [Map.mkUniform, uniformArgs, reduceAllMin_const, reduceAllMax_const, ne_eq,
      not_true_eq_false, or_self, and_false, if_false, hneg, if_true]
  · intro dbg args hs
    unfold Map.mkUniform
    simp only [hneg, hs, if_false]
    split_ifs
    all_goals
      first
        | (constructor <;> (intro h; cases h))
        | (constructor <;> (intro h; split at h <;> cases h))
  · intro args hs
    unfold Map.mkUniform
    simp only [hneg, hs, if_false, Bool.false_eq_true, false_and]
    split <;> exact ⟨_, rfl⟩
  · intro dbg N b l hN
    simp only [Map.mkUniform, uniformArgs, reduceAllMin_const, reduceAllMax_const, ne_eq,
      not_true_eq_false, or_self, and_false, if_false, hneg, hN]
    cases l <;> exact ⟨_, rfl, rfl⟩

/-- Witness of C17 on rank 1 of two processes. -/
theorem evenSplit_rejects_sentinel_witness :
    (∃ e, Map.mkUniform true 2 (uniformArgs GSTI 0 .GloballyDistributed) 1 = .error e ∧
      e.exceptionClass = .invalid_argument) ∧
    Map.mkUniform false 2 (uniformArgs GSTI 0 .GloballyDistributed) 1 =
      .error .invalidNumGlobal ∧
    (Map.mkUniform true 2 mixedCountExample 1 ≠ .error .negativeNumGlobal ∧
      Map.mkUniform true 2 mixedCountExample 1 ≠ .error .invalidNumGlobal) ∧
    (∃ m, Map.mkUniform false 2 (uniformArgs 0 0 .GloballyDistributed) 1 = .ok m) ∧
    (∃ m, Map.mkUniform true 2 (uniformArgs 0 0 .GloballyDistributed) 1 = .ok m ∧
      m.numGlobalElements_ = 0) :=
  ⟨(evenSplit_rejects_sentinel 2 1).1 true (uniformArgs GSTI 0 .GloballyDistributed) rfl,
   (evenSplit_rejects_sentinel 2 1).2.1 (uniformArgs GSTI 0 .GloballyDistributed) rfl,
   (evenSplit_rejects_sentinel 2 1).2.2.2.1 true mixedCountExample (by decide),
   (evenSplit_rejects_sentinel 2 1).2.2.2.2.1 (uniformArgs 0 0 .GloballyDistributed) (by decide),
   (evenSplit_rejects_sentinel 2 1).2.2.2.2.2 true 0 0 .GloballyDistributed (by decide)⟩

/-! ## Remote lookups on an empty partition -/

/-- Counterexample to C18: on a partition whose global count is zero, both
overloads of `getRemoteIndexList` called with an empty ID list raise no error
and give what the directory gives for the empty list. -/
theorem empty_lookup_on_empty_partition_is_no_error :
    ∃ m, Map.mkUniform false 1 (uniformArgs 0 0 .GloballyDistributed) 0 = .ok m ∧
      m.getGlobalNumElements = 0 ∧
      ∀ (ρ : Type) (getDirectoryEntries : List Int → ρ),
        m.getRemoteIndexList getDirectoryEntries [] = .ok (getDirectoryEntries []) ∧
        m.getRemoteIndexListNoLID getDirectoryEntries [] = .ok (getDirectoryEntries []) :=
  ⟨_, rfl, rfl, fun _ _ => ⟨rfl, rfl⟩⟩

/-- C18 (amended): `getRemoteIndexList` (either overload) called with an empty
global-ID list raises no error of its own, also on a partition whose global
element count is zero: the test for a zero count applies to a non-empty list
only, and the call returns the directory's result. -/
theorem empty_lookup_returns_directory_result {ρ : Type} (m : Map)
    (getDirectoryEntries : List Int → ρ) :
    m.getRemoteIndexList getDirectoryEntries [] = .ok (getDirectoryEntries []) ∧
    m.getRemoteIndexListNoLID getDirectoryEntries [] = .ok (getDirectoryEntries []) := by
  constructor <;> simp [Map.getRemoteIndexList, Map.getRemoteIndexListNoLID]

/-- C19: `getRemoteIndexList` (either overload) called with at least one
global ID on a partition whose global element count is zero throws the
run-time error, whatever the IDs and whatever the directory would answer; with
a non-zero global count it does not throw and returns the directory's
result. -/
theorem lookup_on_empty_partition_fails {ρ : Type} (m : Map)
    (getDirectoryEntries : List Int → ρ) (GIDList : List Int) :
    (GIDList ≠ [] → m.getGlobalNumElements = 0 →
      m.getRemoteIndexList getDirectoryEntries GIDList = .error .zeroEntriesInMap ∧
      m.getRemoteIndexListNoLID getDirectoryEntries GIDList = .error .zeroEntriesInMap) ∧
    LookupError.zeroEntriesInMap.exceptionClass = .runtime_error ∧
    (m.getGlobalNumElements ≠ 0 →
      m.getRemoteIndexList getDirectoryEntries GIDList = .ok (getDirectoryEntries GIDList) ∧
      m.getRemoteIndexListNoLID getDirectoryEntries GIDList =
        .ok (getDirectoryEntries GIDList)) := by
  refine ⟨?_, rfl, ?_⟩
  · intro hne h0
    have hlen : GIDList.length > 0 := List.length_pos.mpr hne
    simp [Map.getRemoteIndexList, Map.getRemoteIndexListNoLID, hlen, h0]
  · intro h0
    simp [Map.getRemoteIndexList, Map.getRemoteIndexListNoLID, h0]

/-- Witness of C19: a lookup of `[5, 7]` on an empty partition and on rank 0
of the scenario with the list `[5, 5, 7]`. -/
theorem lookup_on_empty_partition_fails_witness :
    (∃ m, Map.mkUniform false 1 (uniformArgs 0 0 .GloballyDistributed) 0 = .ok m ∧
      m.getRemoteIndexList (overlapOwners 0) [5, 7] = .error .zeroEntriesInMap ∧
      m.getRemoteIndexListNoLID (overlapOwners 0) [5, 7] = .error .zeroEntriesInMap) ∧
    ((overlapMaps 0).getRemoteIndexList (overlapOwners 0) [5, 7] =
        .ok (overlapOwners 0 [5, 7]) ∧
      (overlapMaps 0).getRemoteIndexListNoLID (overlapOwners 0) [5, 7] =
        .ok (overlapOwners 0 [5, 7])) :=
  ⟨⟨_, rfl, (lookup_on_empty_partition_fails _ (overlapOwners 0) [5, 7]).1 (by decide) rfl⟩,
   (lookup_on_empty_partition_fails (overlapMaps 0) (overlapOwners 0) [5, 7]).2.2 (by decide)⟩

/-! ## One-to-one reduction -/

/-- The Maps of `overlapMaps` are the ones the third constructor builds. -/
theorem overlapMaps_built :
    Map.mkNonContig 2 overlapExample 0 = .ok (overlapMaps 0) ∧
    Map.mkNonContig 2 overlapExample 1 = .ok (overlapMaps 1) :=
  ⟨rfl, rfl⟩

/-- The loop of `createOneToOne` writes, in index order, the entries whose
owner is `myID`. -/
theorem myOwned_vec_eq_filterMap (myID : Int) (myElems owners : List Int) (n : Nat) :
    createOneToOne.myOwned_vec myID myElems owners n =
      (List.range n).filterMap
        (fun i => if myID = owners.getD i 0 then some (myElems.getD i 0) else none) := by
  unfold createOneToOne.myOwned_vec
  induction n with
  | zero => rfl
  | succ n ih =>
    rw [List.range_succ, List.foldl_append, List.filterMap_append, ih]
    simp only [List.foldl_cons, List.foldl_nil, List.filterMap_cons, List.filterMap_nil]
    split <;> simp_all

/-- When the directory reported one owner per entry, the entries written by
the loop are the entries of the list whose owner is `myID`. -/
theorem range_filterMap_eq_zip (myID : Int) (myElems owners : List Int)
    (h : owners.length = myElems.length) :
    (List.range myElems.length).filterMap
        (fun i => if myID = owners.getD i 0 then some (myElems.getD i 0) else none) =
      ((myElems.zip owners).filter (fun p => decide (myID = p.2))).map Prod.fst := by
  induction myElems generalizing owners with
  | nil => simp
  | cons e t ih =>
    cases owners with
    | nil => simp at h
    | cons o os =>
      have hl : os.length = t.length := by simpa using h
      rw [List.length_cons, List.range_succ_eq_map, List.filterMap_cons, List.filterMap_map]
      have hfun : ((fun i => if myID = (o :: os).getD i 0 then some ((e :: t).getD i 0) else none)
          ∘ Nat.succ) = (fun i => if myID = os.getD i 0 then some (t.getD i 0) else none) := by
        funext i
        simp [List.getD]
      rw [hfun, ih os hl]
      by_cases ho : myID = o
      · simp [List.getD, ho]
      · simp [List.getD, ho]

theorem retainedByOwner_sublist (myID : Int) (myElems owners : List Int)
    (h : owners.length = myElems.length) :
    (retainedByOwner myID myElems owners).Sublist myElems := by
  unfold retainedByOwner
  have h1 : ((myElems.zip owners).map Prod.fst) = myElems :=
    List.map_fst_zip _ _ (by omega)
  have h2 := (List.filter_sublist (myElems.zip owners) (p := fun p => decide (myID = p.2))).map
    Prod.fst
  rw [h1] at h2
  exact h2

/-- The invalid `GlobalOrdinal` value, passed as a global count, is the
sentinel of `global_size_t`. -/
theorem asGlobalSize_invalidGO : asGlobalSize invalidGO = GSTI := by
  decide

/-- C20: on a rank `r` where `createOneToOne` succeeds, the new partition is
an explicit-ID-list (noncontiguous) partition whose element list holds, in
index order, the entries of the source element list whose directory-reported
owner is the rank of the process; when the directory reported one owner per
entry this is the list of retained entries in their original order, a sublist
of the source list.  The constructor is called with the sentinel as global
count, so the stored count is the computed sum of the retained list lengths,
and with the index base and the communicator of the source partition. -/
theorem createOneToOne_spec (M : Nat → Map) (getDirectoryEntries : Nat → List Int → List Int)
    (r : Nat) (m : Map) (h : createOneToOne M getDirectoryEntries r = .ok m) :
    (createOneToOne.args M getDirectoryEntries r).numGlobalElements_in = GSTI ∧
    m.lgMap_ = (createOneToOne.args M getDirectoryEntries r).entryList ∧
    m.lgMap_ =
      (List.range (M r).getNodeNumElements).filterMap
        (fun i =>
          if ((M r).commRank : Int) =
              (getDirectoryEntries r (M r).getNodeElementList).getD i 0 then
            some ((M r).getNodeElementList.getD i 0)
          else none) ∧
    ((M r).getNodeElementList.length = (M r).getNodeNumElements →
      (getDirectoryEntries r (M r).getNodeElementList).length =
        (M r).getNodeElementList.length →
      m.lgMap_ = retainedByOwner ((M r).commRank : Int) (M r).getNodeElementList
          (getDirectoryEntries r (M r).getNodeElementList) ∧
      m.lgMap_.Sublist (M r).getNodeElementList) ∧
    m.getNodeElementList = m.lgMap_ ∧
    m.numLocalElements_ = m.lgMap_.length ∧
    m.contiguous_ = false ∧
    m.getIndexBase = (M r).getIndexBase ∧
    m.commSize = (M r).commSize ∧
    m.commRank = r ∧
    m.numGlobalElements_ =
      ∑ q in Finset.range (M r).commSize,
        (createOneToOne.args M getDirectoryEntries q).entryList.length := by
  unfold createOneToOne at h
  obtain ⟨h1, h2, -, h4, h5, -, -, -, -, h10, -, h12, -⟩ :=
    mkNonContig_ok _ _ r m h
  have hsum := mkNonContig_stores_sum _ _ r m h
  have hlg : m.lgMap_ =
      (List.range (M r).getNodeNumElements).filterMap
        (fun i =>
          if ((M r).commRank : Int) =
              (getDirectoryEntries r (M r).getNodeElementList).getD i 0 then
            some ((M r).getNodeElementList.getD i 0)
          else none) := by
    rw [h12]
    simp only [createOneToOne.args]
    exact myOwned_vec_eq_filterMap _ _ _ _
  refine ⟨asGlobalSize_invalidGO, h12, hlg, ?_, ?_, ?_, h10, ?_, h1, h2, hsum⟩
  · intro hlen howners
    have hz : m.lgMap_ = retainedByOwner ((M r).commRank : Int) (M r).getNodeElementList
        (getDirectoryEntries r (M r).getNodeElementList) := by
      rw [hlg, ← hlen]
      exact range_filterMap_eq_zip _ _ _ howners
    exact ⟨hz, by rw [hz]; exact retainedByOwner_sublist _ _ _ howners⟩
  · unfold Map.getNodeElementList
    rw [h4, ← h12]
    split
    · rename_i hc
      have : m.lgMap_.length = 0 := by rw [hc.1]; rfl
      omega
    · rfl
  · rw [h4, ← h12]
  · unfold Map.getIndexBase
    rw [h5]
    rfl

/-- Witness of C20: rank 0 of the scenario with the lists `[5, 5, 7]` and
`[5, 2]`, where rank 0 is the owner of 7 only. -/
theorem createOneToOne_spec_witness :
    ∃ m, createOneToOne overlapMaps overlapOwners 0 = .ok m ∧
      (createOneToOne.args overlapMaps overlapOwners 0).numGlobalElements_in = GSTI ∧
      (overlapMaps 0).getNodeElementList = [5, 5, 7] ∧
      overlapOwners 0 (overlapMaps 0).getNodeElementList = [1, 1, 0] ∧
      m.lgMap_ = retainedByOwner ((overlapMaps 0).commRank : Int)
        (overlapMaps 0).getNodeElementList
        (overlapOwners 0 (overlapMaps 0).getNodeElementList) ∧
      m.lgMap_ = [7] ∧
      m.getIndexBase = (overlapMaps 0).getIndexBase ∧
      m.commSize = (overlapMaps 0).commSize ∧
      m.numGlobalElements_ = 3 :=
  ⟨_, rfl, (createOneToOne_spec overlapMaps overlapOwners 0 _ rfl).1, by decide, by decide,
    ((createOneToOne_spec overlapMaps overlapOwners 0 _ rfl).2.2.2.1 (by decide)
      (by decide)).1,
    by decide,
    (createOneToOne_spec overlapMaps overlapOwners 0 _ rfl).2.2.2.2.2.2.2.1,
    (createOneToOne_spec overlapMaps overlapOwners 0 _ rfl).2.2.2.2.2.2.2.2.1,
    by decide⟩

/-! ## Repeated IDs and collective failure of the third constructor -/

/-- The key `g` is in the list exactly when the table has an offset for it. -/
theorem tableFor_get_ne_iff (l : List Int) (t : HashTable) (h : TableFor l t) (g : Int) :
    t.get g ≠ -1 ↔ g ∈ l := by
  constructor
  · intro hne
    by_contra hm
    exact hne ((h g).1 hm)
  · intro hm
    obtain ⟨i, h1, -⟩ := (h g).2 hm
    rw [h1]
    omega

/-- C27: in an explicit-ID-list partition every position of the list is a local
offset of its own (the local count is the list length, offset `i` holds the
`i`-th entry, repeated IDs included), and for every listed ID `g`
`getLocalElement g` is the largest position `i` with `list[i] = g`: the
global-to-local table keeps the most recent offset of a repeated ID. -/
theorem repeated_id_keeps_last_offset (P : Nat) (args : Nat → NonContigArgs) (r : Nat) (m : Map)
    (h : Map.mkNonContig P args r = .ok m) :
    m.numLocalElements_ = (args r).entryList.length ∧
    (∀ i : Nat, i < (args r).entryList.length →
      (args r).entryList[i]? = some (m.getGlobalElement (i : Int))) ∧
    (∀ g ∈ (args r).entryList, ∃ i : Nat,
      m.getLocalElement g = (i : Int) ∧ i < (args r).entryList.length ∧
      (args r).entryList[i]? = some g ∧
      ∀ j : Nat, i < j → (args r).entryList[j]? ≠ some g) := by
  obtain ⟨-, -, -, hn, -, -, -, -, -, hc, -, hlg, -⟩ := mkNonContig_ok P args r m h
  obtain ⟨-, hinv⟩ := mkNonContig_lookupInv P args r m h
  obtain ⟨-, htab⟩ := hinv hc
  rw [hlg] at htab
  refine ⟨hn, ?_, ?_⟩
  · intro i hi
    rw [getGlobalElement_inside m i (by omega) (by omega), if_neg (by simp [hc]), hlg]
    simp [List.getD, List.getElem?_eq_getElem hi]
  · intro g hg
    obtain ⟨i, h1, h2, h3, h4⟩ := (htab g).2 hg
    refine ⟨i, ?_, h2, h3, h4⟩
    simp only [Map.getLocalElement, Map.isContiguous, hc, Bool.false_eq_true, if_false]
    rw [h1, if_neg (by omega)]

/-- Witness of C27: the list `[5, 5, 7]`, where 5 is found at offset 1. -/
theorem repeated_id_keeps_last_offset_witness :
    ∃ m, Map.mkNonContig 2 overlapExample 0 = .ok m ∧
      m.numLocalElements_ = (overlapExample 0).entryList.length ∧
      m.numLocalElements_ = 3 ∧
      m.getGlobalElement 0 = 5 ∧ m.getGlobalElement 1 = 5 ∧ m.getGlobalElement 2 = 7 ∧
      m.getLocalElement 5 = 1 ∧ m.getLocalElement 7 = 2 :=
  ⟨_, rfl, (repeated_id_keeps_last_offset 2 overlapExample 0 _ rfl).1, by decide, by decide,
    by decide, by decide, by decide, by decide⟩

/-- The reduced maximum does not depend on which rank of the group asks. -/
theorem reduceAllMax_indep {α : Type} [LinearOrder α] (P : Nat) (vals : Nat → α) (r s : Nat)
    (hr : r < P) (hs : s < P) :
    reduceAllMax P vals (vals r) = reduceAllMax P vals (vals s) := by
  apply le_antisymm
  · exact reduceAllMax_of_forall P vals r hr (fun x => x ≤ reduceAllMax P vals (vals s))
      (fun q hq => reduceAllMax_ge P vals _ q hq)
  · exact reduceAllMax_of_forall P vals s hs (fun x => x ≤ reduceAllMax P vals (vals r))
      (fun q hq => reduceAllMax_ge P vals _ q hq)

/-- The reduced minimum does not depend on which rank of the group asks. -/
theorem reduceAllMin_indep {α : Type} [LinearOrder α] (P : Nat) (vals : Nat → α) (r s : Nat)
    (hr : r < P) (hs : s < P) :
    reduceAllMin P vals (vals r) = reduceAllMin P vals (vals s) := by
  apply le_antisymm
  · exact reduceAllMin_of_forall P vals s hs (fun x => reduceAllMin P vals (vals r) ≤ x)
      (fun q hq => reduceAllMin_le P vals _ q hq)
  · exact reduceAllMin_of_forall P vals r hr (fun x => reduceAllMin P vals (vals s) ≤ x)
      (fun q hq => reduceAllMin_le P vals _ q hq)

/-- Every rank of the group holds the same `globalChecks`. -/
theorem globalChecks_indep (P : Nat) (args : Nat → NonContigArgs) (r s : Nat)
    (hr : r < P) (hs : s < P) :
    Map.globalChecks P args r = Map.globalChecks P args s := by
  unfold Map.globalChecks
  rw [reduceAllMax_indep P (fun q => (Map.localChecks P args q).1) r s hr hs,
    reduceAllMax_indep P (fun q => (Map.localChecks P args q).2) r s hr hs]

/-- C28: when some process `q` of the group fails a local check of the
explicit-ID-list constructor (its index base differs from rank 0's, or its
given count is not the summed list length), every rank of the group throws,
and all ranks throw the same error, an invalid-argument error selected from
the reduced check result, which is the same on every rank: the count error
when the reduced code is 2, the index-base error when it is 3.  This holds
also on the ranks whose own arguments passed. -/
theorem validation_failure_is_collective (P : Nat) (args : Nat → NonContigArgs) (q : Nat)
    (hq : q < P)
    (hbad : (args q).indexBase_in ≠ (args 0).indexBase_in ∨
      ((args q).numGlobalElements_in ≠ GSTI ∧
        (args q).numGlobalElements_in ≠ ∑ k in Finset.range P, (args k).entryList.length)) :
    ∃ e, (e = MapError.sumNotNumGlobal ∨ e = MapError.indexBaseNotSame) ∧
      e.exceptionClass = .invalid_argument ∧
      (e = MapError.sumNotNumGlobal ↔ (Map.globalChecks P args q).2 = 2) ∧
      ∀ r, r < P →
        Map.mkNonContig P args r = .error e ∧
        Map.globalChecks P args r = Map.globalChecks P args q := by
  have hlc := (localChecks_cases P args q).2.1 (fun h => by
    rcases hbad with hb | hb
    · exact hb h.1
    · rcases h.2 with h2 | h2
      · exact hb.1 h2
      · exact hb.2 h2)
  obtain ⟨h1, h2, -⟩ := globalChecks_fail P args q q hq hlc.1
    (by rcases hlc.2 with h | h <;> omega)
  obtain ⟨f2, f3⟩ := mkNonContig_of_fail P args q h1
  have hall : ∀ e, Map.mkNonContig P args q = .error e →
      ∀ r, r < P → Map.mkNonContig P args r = .error e ∧
        Map.globalChecks P args r = Map.globalChecks P args q := by
    intro e he r hr
    have hg := globalChecks_indep P args r q hr hq
    refine ⟨?_, hg⟩
    rw [← he]
    unfold Map.mkNonContig
    simp only [hg]
    rw [if_pos h1, if_pos h1]
  rcases h2 with h2 | h2
  · exact ⟨_, Or.inl rfl, rfl, ⟨fun _ => h2, fun _ => rfl⟩, hall _ (f2 h2)⟩
  · refine ⟨_, Or.inr rfl, rfl, ⟨fun h => (by cases h), fun h => ?_⟩, hall _ (f3 h2)⟩
    rw [h2] at h
    omega

/-- Witness of C28: rank 0 passes a wrong count, rank 1 a right one. -/
theorem validation_failure_is_collective_witness :
    ∃ e, (e = MapError.sumNotNumGlobal ∨ e = MapError.indexBaseNotSame) ∧
      e.exceptionClass = .invalid_argument ∧
      (e = MapError.sumNotNumGlobal ↔ (Map.globalChecks 2 wrongCountExample 0).2 = 2) ∧
      ∀ r, r < 2 →
        Map.mkNonContig 2 wrongCountExample r = .error e ∧
        Map.globalChecks 2 wrongCountExample r = Map.globalChecks 2 wrongCountExample 0 :=
  validation_failure_is_collective 2 wrongCountExample 0 (by decide)
    (Or.inr ⟨by decide, by decide⟩)

/-! ## isCompatible and isSameAs -/

/-- A reduction of flags (0 or 1) with MIN gives 1 exactly when every rank of
the group contributed 1. -/
theorem reduceAllMin_eq_one_iff (P : Nat) (f : Nat → Nat) (r : Nat) (hr : r < P)
    (h01 : ∀ q, f q ≤ 1) :
    reduceAllMin P f (f r) = 1 ↔ ∀ q, q < P → f q = 1 := by
  constructor
  · intro h q hq
    have := reduceAllMin_le P f (f r) q hq
    have := h01 q
    omega
  · intro h
    exact reduceAllMin_of_forall P f r hr (fun x => x = 1) h

/-- The flag a rank contributes to the reduction of `isSameAs` is 0 or 1. -/
theorem isSame_lcl_le_one (a b : Map) : Map.isSame_lcl a b ≤ 1 := by
  unfold Map.isSame_lcl
  simp only []
  repeat' split
  all_goals omega

theorem isSame_lcl_numLocal (a b : Map) (h : Map.isSame_lcl a b = 1) :
    a.getNodeNumElements = b.getNodeNumElements := by
  unfold Map.isSame_lcl at h
  by_contra hne
  rw [if_pos hne] at h
  omega

theorem isSame_lcl_self (a : Map) : Map.isSame_lcl a a = 1 := by
  unfold Map.isSame_lcl
  simp

theorem isCompatible_iff (P : Nat) (A B : Nat → Map) (r : Nat) (hr : r < P) :
    Map.isCompatible P A B r = true ↔
      ∀ q, q < P → (A q).getGlobalNumElements = (B q).getGlobalNumElements ∧
        (A q).getNodeNumElements = (B q).getNodeNumElements := by
  unfold Map.isCompatible
  simp only [decide_eq_true_eq]
  rw [reduceAllMin_eq_one_iff P _ r hr (fun q => by split_ifs <;> simp)]
  constructor
  · intro h q hq
    have := h q hq
    by_contra hcon
    rw [if_pos (by tauto)] at this
    omega
  · intro h q hq
    rw [if_neg (by have := h q hq; tauto)]

theorem isSameAs_true (P : Nat) (A B : Nat → Map) (q : Nat) (hq : q < P)
    (h : Map.isSameAs P A B false q = true) :
    (A q).getGlobalNumElements = (B q).getGlobalNumElements ∧
    ∀ k, k < P → Map.isSame_lcl (A k) (B k) = 1 := by
  unfold Map.isSameAs at h
  simp only [Bool.false_eq_true, if_false] at h
  split_ifs at h with hc
  simp only [decide_eq_true_eq] at h
  refine ⟨?_, (reduceAllMin_eq_one_iff P _ q hq (fun k => isSame_lcl_le_one _ _)).mp h⟩
  by_contra hne
  exact hc (Or.inr (Or.inr (Or.inl hne)))

/-- C24: `isCompatible` returns true exactly when on every process of the group
the two partitions have equal global counts and equal local counts, and it is
weaker than `isSameAs`: when `isSameAs` returns true (on every process, as the
collective does), `isCompatible` returns true. -/
theorem isCompatible_spec (P : Nat) (A B : Nat → Map) (sameObject : Bool) (r : Nat)
    (hr : r < P) (hsame : sameObject = true → ∀ q, q < P → A q = B q) :
    (Map.isCompatible P A B r = true ↔
      ∀ q, q < P → (A q).getGlobalNumElements = (B q).getGlobalNumElements ∧
        (A q).getNodeNumElements = (B q).getNodeNumElements) ∧
    ((∀ q, q < P → Map.isSameAs P A B sameObject q = true) →
      Map.isCompatible P A B r = true) := by
  refine ⟨isCompatible_iff P A B r hr, fun h => ?_⟩
  rw [isCompatible_iff P A B r hr]
  intro q hq
  cases hso : sameObject with
  | true =>
    rw [hsame hso q hq]
    exact ⟨rfl, rfl⟩
  | false =>
    rw [hso] at h
    obtain ⟨h1, h2⟩ := isSameAs_true P A B q hq (h q hq)
    exact ⟨h1, isSame_lcl_numLocal _ _ (h2 q hq)⟩

/-! ## A contiguous partition against its explicit ID list -/

/-- The element list of a contiguous Map without a local-to-global table: the
global IDs `minMyGID_`, `minMyGID_ + 1`, ... of the local elements. -/
theorem getNodeElementList_contig (m : Map) (hlg : m.lgMap_ = [])
    (hmax : m.maxMyGID_ = m.minMyGID_ + m.numLocalElements_ - 1) :
    m.getNodeElementList =
      (List.range m.numLocalElements_).map (fun (k : Nat) => m.minMyGID_ + (k : Int)) := by
  unfold Map.getNodeElementList
  by_cases hn : m.numLocalElements_ > 0
  · rw [if_pos ⟨hlg, hn⟩, hmax]
    have : (m.minMyGID_ + (m.numLocalElements_ : Int) - 1 - m.minMyGID_ + 1).toNat
        = m.numLocalElements_ := by omega
    rw [this]
  · rw [if_neg (fun h => hn h.2), hlg]
    have : m.numLocalElements_ = 0 := by omega
    rw [this]
    rfl

/-- What the first constructor stores besides the members of `mkUniform_ok`. -/
theorem mkUniform_ok_all (dbg : Bool) (P : Nat) (args : Nat → UniformArgs) (r : Nat) (m : Map)
    (h : Map.mkUniform dbg P args r = .ok m) :
    m.lgMap_ = [] ∧ m.minAllGID_ = (args r).indexBase ∧
    m.maxAllGID_ = (args r).indexBase + (args r).numGlobalElements - 1 ∧
    m.commSize = P ∧ m.commRank = r := by
  unfold Map.mkUniform at h
  simp only [] at h
  split_ifs at h
  all_goals
    split at h
    all_goals
      injection h with h
      subst h
      exact ⟨rfl, rfl, rfl, rfl, rfl⟩

/-- The element list of a Map built by the third constructor is the list the
process passed. -/
theorem getNodeElementList_nonContig (P : Nat) (args : Nat → NonContigArgs) (r : Nat) (m : Map)
    (h : Map.mkNonContig P args r = .ok m) :
    m.getNodeElementList = (args r).entryList := by
  obtain ⟨-, -, -, hnl, -, -, -, -, -, -, -, hlg, -⟩ := mkNonContig_ok P args r m h
  unfold Map.getNodeElementList
  rw [if_neg, hlg]
  rintro ⟨h1, h2⟩
  rw [hlg] at h1
  rw [hnl, h1] at h2
  simp at h2

/-- With no element at all the two constructors store different upper bounds
(`indexBase - 1` against `indexBase`), and `isSameAs` returns false. -/
theorem isSameAs_false_for_empty :
    Map.mkUniform false 1 (uniformArgs 0 0 .GloballyDistributed) 0 = .ok (emptyMaps 0) ∧
    Map.mkNonContig 1 (listArgsOf emptyMaps) 0 = .ok (emptyAsLists 0) ∧
    (emptyMaps 0).getNodeElementList = [] ∧ (emptyAsLists 0).getNodeElementList = [] ∧
    (emptyMaps 0).getMaxAllGlobalIndex = -1 ∧ (emptyAsLists 0).getMaxAllGlobalIndex = 0 ∧
    Map.isSameAs 1 emptyMaps emptyAsLists false 0 = false :=
  ⟨rfl, rfl, by decide⟩

/-- Witness of C24: the three Maps of `gapMaps` against the Maps built from
their element lists, on rank 1. -/
theorem isCompatible_spec_witness :
    (Map.isCompatible 3 gapMaps gapAsLists 1 = true ↔
      ∀ q, q < 3 → (gapMaps q).getGlobalNumElements = (gapAsLists q).getGlobalNumElements ∧
        (gapMaps q).getNodeNumElements = (gapAsLists q).getNodeNumElements) ∧
    Map.isCompatible 3 gapMaps gapAsLists 1 = true :=
  ⟨(isCompatible_spec 3 gapMaps gapAsLists false 1 (by decide) (by simp)).1,
   (isCompatible_spec 3 gapMaps gapAsLists false 1 (by decide) (by simp)).2
    (fun q hq => by interval_cases q <;> decide)⟩

/-- A range of consecutive integers is a chain of successors. -/
theorem chain_range_map (s : Int) (n : Nat) :
    List.Chain' (fun a b : Int => b = a + 1)
      ((List.range n).map (fun (k : Nat) => s + (k : Int))) := by
  cases n with
  | zero => simp
  | succ n =>
    rw [List.chain'_map, List.chain'_range_succ]
    intro m _
    push_cast
    ring

/-- Counterexample to C25: the third constructor, given the unbroken increasing
range 3, 4, 5, builds a Map whose contiguous flag is false. -/
theorem range_list_is_not_contiguous :
    ∃ m, Map.mkNonContig 1 rangeListExample 0 = .ok m ∧
      m.getNodeElementList = [3, 4, 5] ∧
      List.Chain' (fun a b : Int => b = a + 1) m.getNodeElementList ∧
      m.isContiguous = false := by
  refine ⟨_, rfl, by decide, ?_, by decide⟩
  show List.Chain' (fun a b : Int => b = a + 1) [3, 4, 5]
  simp

/-- C25 (amended): the first two constructors set the contiguous flag and the
global IDs of the local process, in local-offset order, form an unbroken
increasing range (each ID is its predecessor plus 1); the third constructor
never sets the flag, whatever the list.  So for every constructed Map a true
flag implies an unbroken increasing range. -/
theorem contiguous_flag_spec (dbg : Bool) (P r : Nat) (m : Map) :
    (∀ args, Map.mkUniform dbg P args r = .ok m →
      m.isContiguous = true ∧ List.Chain' (fun a b : Int => b = a + 1) m.getNodeElementList) ∧
    (∀ args, Map.mkContig dbg P args r = .ok m →
      m.isContiguous = true ∧ List.Chain' (fun a b : Int => b = a + 1) m.getNodeElementList) ∧
    (∀ args, Map.mkNonContig P args r = .ok m → m.isContiguous = false) := by
  refine ⟨?_, ?_, ?_⟩
  · intro args h
    obtain ⟨hc, hmax, -⟩ := mkUniform_ok dbg P args r m h
    obtain ⟨hlg, -⟩ := mkUniform_ok_all dbg P args r m h
    refine ⟨hc, ?_⟩
    rw [getNodeElementList_contig m hlg hmax]
    exact chain_range_map _ _
  · intro args h
    have hrec := mkContig_ok dbg P args r m h
    have hc : m.contiguous_ = true := by rw [hrec]
    have hlg : m.lgMap_ = [] := by rw [hrec]
    have hmax : m.maxMyGID_ = m.minMyGID_ + m.numLocalElements_ - 1 := by rw [hrec]
    refine ⟨hc, ?_⟩
    rw [getNodeElementList_contig m hlg hmax]
    exact chain_range_map _ _
  · intro args h
    exact (mkNonContig_ok P args r m h).2.2.2.2.2.2.2.2.2.1

/-! ## One owner per global ID after createOneToOne -/

/-- A Map built by the third constructor owns exactly the IDs of the list the
process passed. -/
theorem isNodeGlobalElement_nonContig (P : Nat) (args : Nat → NonContigArgs) (r : Nat) (m : Map)
    (h : Map.mkNonContig P args r = .ok m) (g : Int) :
    m.isNodeGlobalElement g = true ↔ g ∈ (args r).entryList := by
  obtain ⟨-, -, -, -, -, -, -, -, -, hc, -, hlg, -⟩ := mkNonContig_ok P args r m h
  obtain ⟨-, hinv⟩ := mkNonContig_lookupInv P args r m h
  have ht := (hinv hc).2
  rw [hlg] at ht
  unfold Map.isNodeGlobalElement Map.isContiguous
  rw [hc]
  simp only [Bool.false_eq_true, if_false, decide_eq_true_eq]
  exact tableFor_get_ne_iff _ _ ht g

/-- The entries paired with owner `c`, when the owners are given by a function
of the ID. -/
theorem retainedByOwner_map (c : Int) (l : List Int) (f : Int → Int) :
    retainedByOwner c l (l.map f) = l.filter (fun g => decide (c = f g)) := by
  unfold retainedByOwner
  induction l with
  | nil => rfl
  | cons e t ih =>
    simp only [List.map_cons, List.zip_cons_cons, List.filter_cons]
    by_cases hc : c = f e
    · have hd : decide (c = f e) = true := by simpa using hc
      simp only [hd, if_true, List.map_cons]
      rw [ih]
    · have hd : decide (c = f e) = false := by simpa using hc
      simp only [hd, Bool.false_eq_true, if_false]
      exact ih

/-- The list `createOneToOne` passes to the constructor on rank `q`, when the
directory reports the owner `owner g` for every ID `g`. -/
theorem createOneToOne_entryList (M : Nat → Map) (dir : Nat → List Int → List Int)
    (owner : Int → Nat) (q : Nat)
    (hlen : (M q).getNodeElementList.length = (M q).getNodeNumElements)
    (hdir : dir q (M q).getNodeElementList =
      (M q).getNodeElementList.map (fun g => (owner g : Int))) :
    (createOneToOne.args M dir q).entryList =
      (M q).getNodeElementList.filter
        (fun g => decide (((M q).commRank : Int) = (owner g : Int))) := by
  simp only [createOneToOne.args]
  rw [myOwned_vec_eq_filterMap, ← hlen, range_filterMap_eq_zip _ _ _ (by rw [hdir]; simp), hdir]
  exact retainedByOwner_map _ _ _

/-- The third constructor succeeds on every rank when all ranks pass the
sentinel as global count, the same index base, and no ID below it. -/
theorem mkNonContig_succeeds (P : Nat) (args : Nat → NonContigArgs) (r : Nat) (hr : r < P)
    (b : Int) (hS : ∀ q, q < P → (args q).numGlobalElements_in = GSTI)
    (hb : ∀ q, q < P → (args q).indexBase_in = b)
    (hge : ∀ q, q < P → ∀ g ∈ (args q).entryList, b ≤ g) :
    ∃ m, Map.mkNonContig P args r = .ok m := by
  have h0 : 0 < P := by omega
  have hpass : Map.globalChecks P args r = (-1, 0) := by
    apply globalChecks_pass P args r hr
    intro q hq
    exact (localChecks_cases P args q).1 ⟨by rw [hb q hq, hb 0 h0], Or.inl (hS q hq)⟩
  apply (mkNonContig_of_pass P args r hpass).2
  rw [not_lt]
  refine reduceAllMin_of_forall P
    (fun q => (Map.fillTables (args q).indexBase_in (args q).entryList).minMyGID_) r hr
    (fun x => (args r).indexBase_in ≤ x) ?_
  intro q hq
  simp only []
  obtain ⟨-, -, -, he, hne⟩ := fillTables_spec (args q).indexBase_in (args q).entryList
  rw [hb r hr]
  by_cases hnil : (args q).entryList = []
  · rw [(he hnil).1, hb q hq]
  · exact hge q hq _ (hne hnil).1

/-- Under the assumptions on the source Maps and the directory,
`createOneToOne` succeeds on rank `q`, and the new Map holds the entries of
the source list whose owner is `q`. -/
theorem createOneToOne_ok (P : Nat) (M : Nat → Map) (dir : Nat → List Int → List Int)
    (owner : Int → Nat) (b : Int) (hM : SourceMaps P M b) (hdir : OwnerDirectory P M dir owner)
    (q : Nat) (hq : q < P) :
    (createOneToOne.args M dir q).entryList =
      (M q).getNodeElementList.filter (fun g => decide (owner g = q)) ∧
    ∃ m, Map.mkNonContig P (createOneToOne.args M dir) q = .ok m ∧
      createOneToOne M dir q = .ok m := by
  have hlist : ∀ k, k < P → (createOneToOne.args M dir k).entryList =
      (M k).getNodeElementList.filter (fun g => decide (owner g = k)) := by
    intro k hk
    obtain ⟨hrank, -, hlen, -, -⟩ := hM k hk
    rw [createOneToOne_entryList M dir owner k hlen (hdir k hk).1, hrank]
    congr 1
    funext g
    rw [decide_eq_decide]
    constructor
    · intro h; exact (Nat.cast_inj.mp h).symm
    · intro h; rw [h]
  refine ⟨hlist q hq, ?_⟩
  obtain ⟨m, hm⟩ := mkNonContig_succeeds P (createOneToOne.args M dir) q hq b
    (fun k _ => asGlobalSize_invalidGO) (fun k hk => (hM k hk).2.2.2.1)
    (fun k hk g hg => by
      rw [hlist k hk] at hg
      exact (hM k hk).2.2.2.2 g (List.mem_filter.mp hg).1)
  refine ⟨m, hm, ?_⟩
  unfold createOneToOne
  rw [(hM q hq).2.1]
  exact hm

/-- C21: for a (possibly overlapping) partition on `P` processes whose
directory reports for each held global ID one owner rank, the same on every
process and a rank that holds the ID, `createOneToOne` succeeds on every rank
and every global ID `g` of the union is owned afterwards by exactly one
process, the designated owner: the new Map of rank `q` owns `g` exactly when
`q` is the owner of `g`, which is a rank of the group. -/
theorem createOneToOne_one_owner (P : Nat) (M : Nat → Map) (dir : Nat → List Int → List Int)
    (owner : Int → Nat) (b : Int) (hM : SourceMaps P M b) (hdir : OwnerDirectory P M dir owner)
    (g : Int) (p : Nat) (hp : p < P) (hg : g ∈ (M p).getNodeElementList) :
    owner g < P ∧
    (∀ q, q < P → ∃ m, createOneToOne M dir q = .ok m ∧
      (m.isNodeGlobalElement g = true ↔ q = owner g) ∧
      (g ∈ m.getNodeElementList ↔ q = owner g)) ∧
    ∃! q, q < P ∧ (builtMaps (createOneToOne M dir) q).isNodeGlobalElement g = true := by
  obtain ⟨hlt, hmem⟩ := (hdir p hp).2 g hg
  have key : ∀ q, q < P → ∃ m, createOneToOne M dir q = .ok m ∧
      (m.isNodeGlobalElement g = true ↔ q = owner g) ∧
      (g ∈ m.getNodeElementList ↔ q = owner g) := by
    intro q hq
    obtain ⟨hlist, m, hm, hc⟩ := createOneToOne_ok P M dir owner b hM hdir q hq
    have hiff : g ∈ (createOneToOne.args M dir q).entryList ↔ q = owner g := by
      rw [hlist, List.mem_filter, decide_eq_true_eq]
      constructor
      · exact fun h => h.2.symm
      · intro h
        rw [h]
        exact ⟨hmem, rfl⟩
    refine ⟨m, hc, ?_, ?_⟩
    · rw [isNodeGlobalElement_nonContig P _ q m hm g]
      exact hiff
    · rw [getNodeElementList_nonContig P _ q m hm]
      exact hiff
  have hbuilt : ∀ q, q < P →
      ((builtMaps (createOneToOne M dir) q).isNodeGlobalElement g = true ↔ q = owner g) := by
    intro q hq
    obtain ⟨m, hm, h1, -⟩ := key q hq
    unfold builtMaps
    rw [hm]
    exact h1
  refine ⟨hlt, key, owner g, ⟨hlt, (hbuilt _ hlt).mpr rfl⟩, ?_⟩
  rintro q ⟨hq, hown⟩
  exact (hbuilt q hq).mp hown

theorem overlapMaps_source : SourceMaps 2 overlapMaps 0 := by
  intro q hq
  interval_cases q <;> decide

theorem overlapOwners_directory : OwnerDirectory 2 overlapMaps overlapOwners overlapOwner := by
  intro q hq
  interval_cases q <;> decide

/-- Witness of C21: both ranks of `overlapMaps` list the ID 5, whose owner is
rank 1. -/
theorem createOneToOne_one_owner_witness :
    ((5 : Int) ∈ (overlapMaps 0).getNodeElementList ∧
      (5 : Int) ∈ (overlapMaps 1).getNodeElementList) ∧
    (overlapOwner 5 < 2 ∧
    (∀ q, q < 2 → ∃ m, createOneToOne overlapMaps overlapOwners q = .ok m ∧
      (m.isNodeGlobalElement 5 = true ↔ q = overlapOwner 5) ∧
      ((5 : Int) ∈ m.getNodeElementList ↔ q = overlapOwner 5)) ∧
    ∃! q, q < 2 ∧
      (builtMaps (createOneToOne overlapMaps overlapOwners) q).isNodeGlobalElement 5 = true) :=
  ⟨by decide,
   createOneToOne_one_owner 2 overlapMaps overlapOwners overlapOwner 0 overlapMaps_source
    overlapOwners_directory 5 0 (by decide) (by decide)⟩

/-! ## The global count after createOneToOne -/

theorem repeatOwners_directory : OwnerDirectory 2 overlapMaps repeatOwners repeatOwner := by
  intro q hq
  interval_cases q <;> decide

/-- Counterexample to C22: rank 0 lists `[5, 5, 7]`, rank 1 lists `[5, 2]`, and
the directory names rank 0 as owner of 5 and 7 and rank 1 as owner of 2.  The
union holds three distinct IDs; rank 0 retains both occurrences of 5 and the
new partition counts four elements. -/
theorem createOneToOne_counts_repeated_ids :
    OwnerDirectory 2 overlapMaps repeatOwners repeatOwner ∧
    (distinctIDs 2 overlapMaps).card = 3 ∧
    (∃ m, createOneToOne overlapMaps repeatOwners 0 = .ok m ∧
      m.getNodeElementList = [5, 5, 7] ∧ m.getGlobalNumElements = 4) ∧
    (∃ m, createOneToOne overlapMaps repeatOwners 1 = .ok m ∧
      m.getNodeElementList = [2] ∧ m.getGlobalNumElements = 4) :=
  ⟨repeatOwners_directory, by decide, ⟨_, rfl, by decide, by decide⟩,
    ⟨_, rfl, by decide, by decide⟩⟩

/-- A list without repetition has as many entries as its set has elements,
also after a filter. -/
theorem length_filter_nodup (l : List Int) (p : Int → Prop) [DecidablePred p] (h : l.Nodup) :
    (l.filter (fun g => decide (p g))).length = (l.toFinset.filter p).card := by
  rw [← List.toFinset_card_of_nodup (h.filter _)]
  congr 1
  ext g
  simp

/-- C22 (amended): when no process lists a global ID twice (and the directory
reports for each held ID one owner rank that holds it), `createOneToOne`
succeeds on every rank and the global count of the new partition is the number
of distinct global IDs in the union of all processes' ID lists. -/
theorem createOneToOne_global_count (P : Nat) (M : Nat → Map)
    (dir : Nat → List Int → List Int) (owner : Int → Nat) (b : Int)
    (hM : SourceMaps P M b) (hdir : OwnerDirectory P M dir owner)
    (hnodup : ∀ q, q < P → (M q).getNodeElementList.Nodup) (r : Nat) (hr : r < P) :
    ∃ m, createOneToOne M dir r = .ok m ∧
      m.getGlobalNumElements = (distinctIDs P M).card := by
  obtain ⟨-, m, hm, hc⟩ := createOneToOne_ok P M dir owner b hM hdir r hr
  refine ⟨m, hc, ?_⟩
  unfold Map.getGlobalNumElements
  rw [mkNonContig_stores_sum P _ r m hm]
  have hmaps : ∀ g ∈ distinctIDs P M, owner g ∈ Finset.range P := by
    intro g hg
    unfold distinctIDs at hg
    rw [Finset.mem_biUnion] at hg
    obtain ⟨q, hq, hgq⟩ := hg
    rw [Finset.mem_range] at hq ⊢
    exact ((hdir q hq).2 g (List.mem_toFinset.mp hgq)).1
  rw [Finset.card_eq_sum_card_fiberwise hmaps]
  apply Finset.sum_congr rfl
  intro q hq
  rw [Finset.mem_range] at hq
  rw [(createOneToOne_ok P M dir owner b hM hdir q hq).1,
    length_filter_nodup _ (fun g => owner g = q) (hnodup q hq)]
  congr 1
  ext g
  simp only [Finset.mem_filter, List.mem_toFinset]
  constructor
  · rintro ⟨h1, h2⟩
    refine ⟨?_, h2⟩
    unfold distinctIDs
    rw [Finset.mem_biUnion]
    exact ⟨q, Finset.mem_range.mpr hq, List.mem_toFinset.mpr h1⟩
  · rintro ⟨h1, h2⟩
    refine ⟨?_, h2⟩
    unfold distinctIDs at h1
    rw [Finset.mem_biUnion] at h1
    obtain ⟨k, hk, hgk⟩ := h1
    have := ((hdir k (Finset.mem_range.mp hk)).2 g (List.mem_toFinset.mp hgk)).2
    rw [h2] at this
    exact this

theorem sharedMaps_source : SourceMaps 2 sharedMaps 0 := by
  intro q hq
  interval_cases q <;> decide

theorem sharedOwners_directory : OwnerDirectory 2 sharedMaps sharedOwners sharedOwner := by
  intro q hq
  interval_cases q <;> decide

/-- Witness of the amended C22: the lists `[5, 7]` and `[7, 2]` hold three
distinct IDs. -/
theorem createOneToOne_global_count_witness :
    ((sharedMaps 0).getNodeElementList = [5, 7] ∧ (sharedMaps 1).getNodeElementList = [7, 2] ∧
      (distinctIDs 2 sharedMaps).card = 3) ∧
    ∃ m, createOneToOne sharedMaps sharedOwners 0 = .ok m ∧
      m.getGlobalNumElements = (distinctIDs 2 sharedMaps).card :=
  ⟨by decide,
   createOneToOne_global_count 2 sharedMaps sharedOwners sharedOwner 0 sharedMaps_source
    sharedOwners_directory (fun q hq => by interval_cases q <;> decide) 0 (by decide)⟩

/-! ## Collective calls before a count is rejected -/

/-- Counterexample to C29: in a debug build the first constructor, given the
sentinel as global count, throws the invalid-count error after two broadcasts
and four reductions; the third constructor, given a wrong global count, throws
after a reduction, a broadcast and a reduction. -/
theorem invalid_count_rejected_after_collectives :
    (Map.mkUniform true 2 (uniformArgs GSTI 0 .GloballyDistributed) 0 = .error .invalidNumGlobal ∧
      Map.mkUniform.collectives true 2 (uniformArgs GSTI 0 .GloballyDistributed) 0 =
        [.broadcast, .reduceAll, .reduceAll, .broadcast, .reduceAll, .reduceAll]) ∧
    (Map.mkNonContig 2 wrongCountExample 0 = .error .sumNotNumGlobal ∧
      Map.mkNonContig.collectives 2 wrongCountExample 0 =
        [.reduceAll, .broadcast, .reduceAll]) :=
  ⟨⟨rfl, by decide⟩, ⟨rfl, by decide⟩⟩

/-- C29 (amended): only the first constructor in a build without
`HAVE_TPETRA_DEBUG` rejects an invalid element count before any collective
call: there every failure is the invalid-count error and no collective
precedes it.  In a debug build two broadcasts and four reductions precede that
error.  The third constructor throws its count errors after a reduction, a
broadcast and a reduction, and the second constructor checks the count in a
debug build only, after two broadcasts and five reductions. -/
theorem invalid_count_rejection_trace (P r : Nat) :
    (∀ args e, Map.mkUniform false P args r = .error e →
      e = .invalidNumGlobal ∧ Map.mkUniform.collectives false P args r = []) ∧
    (∀ args, Map.mkUniform true P args r = .error .invalidNumGlobal →
      Map.mkUniform.collectives true P args r =
        [.broadcast, .reduceAll, .reduceAll, .broadcast, .reduceAll, .reduceAll]) ∧
    (∀ args e, Map.mkNonContig P args r = .error e →
      e = .sumNotNumGlobal ∨ e = .negativeNumGlobal →
      Map.mkNonContig.collectives P args r = [.reduceAll, .broadcast, .reduceAll]) ∧
    (∀ dbg args, Map.mkContig dbg P args r = .error .sumNotNumGlobal →
      dbg = true ∧
      Map.mkContig.collectives dbg P args r =
        [.reduceAll, .broadcast, .reduceAll, .reduceAll, .broadcast, .reduceAll,
          .reduceAll]) := by
  refine ⟨?_, ?_, ?_, ?_⟩
  · intro args e h
    refine ⟨?_, rfl⟩
    unfold Map.mkUniform at h
    simp only [Bool.false_eq_true, false_and, if_false] at h
    split_ifs at h
    all_goals first
      | (exfalso; omega)
      | (injection h with h; exact h.symm)
      | (split at h <;> cases h)
  · intro args h
    unfold Map.mkUniform at h
    unfold Map.mkUniform.collectives
    simp only [true_and, if_true] at h ⊢
    split_ifs at h
    all_goals first
      | (simp at h; done)
      | (rw [if_neg (by assumption)]; rfl)
  · intro args e h he
    unfold Map.mkNonContig at h
    unfold Map.mkNonContig.collectives
    simp only [] at h ⊢
    split_ifs at h
    all_goals first
      | rw [if_pos (by assumption)]
      | (injection h with h; subst h; rcases he with he | he <;> cases he)
  · intro dbg args h
    unfold Map.mkContig at h
    unfold Map.mkContig.collectives
    simp only [] at h ⊢
    split_ifs at h with h1 h2 h3 h4
    all_goals first
      | (simp at h; done)
      | (obtain ⟨hd, h3⟩ := h3
         subst hd
         refine ⟨rfl, ?_⟩
         rw [if_neg h1, if_neg h2, if_pos ⟨rfl, h3⟩]
         rfl)

/-! ## Arithmetic in a fixed-width GlobalOrdinal -/

theorem fitsGO_iff (bits : Nat) (x : Int) :
    fitsGO bits x = true ↔ -(2 ^ bits / 2) ≤ x ∧ x < 2 ^ bits / 2 := by
  unfold fitsGO
  simp only [Bool.and_eq_true, decide_eq_true_eq]

/-- A value of `GlobalOrdinal` is stored as it is. -/
theorem wrapGO_of_fits (bits : Nat) (x : Int) (h : fitsGO bits x = true) : wrapGO bits x = x := by
  rw [fitsGO_iff] at h
  unfold wrapGO
  have hM : (0 : Int) < 2 ^ bits := by positivity
  have h2 : 2 * ((2 : Int) ^ bits / 2) ≤ 2 ^ bits := Int.mul_ediv_self_le (by norm_num)
  rw [Int.emod_eq_of_lt (by omega) (by omega)]
  omega

/-- The stored value differs from the exact one by a multiple of `2 ^ bits`. -/
theorem wrapGO_modEq (bits : Nat) (x : Int) : wrapGO bits x ≡ x [ZMOD 2 ^ bits] := by
  unfold wrapGO
  have h := Int.mod_modEq (x + 2 ^ bits / 2) (2 ^ bits)
  have := h.sub_right (2 ^ bits / 2)
  simpa using this

theorem wrapGO_congr (bits : Nat) (a b : Int) (h : a ≡ b [ZMOD 2 ^ bits]) :
    wrapGO bits a = wrapGO bits b := by
  unfold wrapGO
  have := h.add_right (2 ^ bits / 2)
  rw [Int.ModEq] at this
  rw [this]

/-- A computation in `GlobalOrdinal` whose exact result `x` is a value of
`GlobalOrdinal` gives `x`, whatever wrapped on the way. -/
theorem wrapGO_eq_of_modEq (bits : Nat) (a x : Int) (h : a ≡ x [ZMOD 2 ^ bits])
    (hx : fitsGO bits x = true) : wrapGO bits a = x := by
  rw [wrapGO_congr bits a x h, wrapGO_of_fits bits x hx]

theorem fitsGO_of_between (bits : Nat) (lo hi x : Int) (hlo : fitsGO bits lo = true)
    (hhi : fitsGO bits hi = true) (h1 : lo ≤ x) (h2 : x ≤ hi) : fitsGO bits x = true := by
  rw [fitsGO_iff] at hlo hhi ⊢
  omega

/-! ## The even split for a fixed-width GlobalOrdinal -/

/-- The start index of rank `r` computed in `GlobalOrdinal` is the exact start
index up to a multiple of `2 ^ bits`. -/
theorem startIndexGO_modEq (bits N P r : Nat) :
    (if r < N % P then
        wrapGO bits (wrapGO bits (r : Int) *
          wrapGO bits ((if r < N % P then 1 + N / P else N / P : Nat) : Int))
      else
        wrapGO bits
          (wrapGO bits (wrapGO bits (r : Int) *
              wrapGO bits ((if r < N % P then 1 + N / P else N / P : Nat) : Int)) +
            wrapGO bits ((N % P : Nat) : Int))) ≡ (evenStart N P r : Int) [ZMOD 2 ^ bits] := by
  unfold evenStart
  split
  · rename_i h
    rw [min_eq_left (le_of_lt h)]
    refine (wrapGO_modEq bits _).trans ?_
    refine ((wrapGO_modEq bits _).mul (wrapGO_modEq bits _)).trans ?_
    have : (r : Int) * ((1 + N / P : Nat) : Int) = ((r * (N / P) + r : Nat) : Int) := by
      push_cast
      ring
    rw [this]
  · rename_i h
    rw [min_eq_right (not_lt.mp h)]
    refine (wrapGO_modEq bits _).trans ?_
    refine ((wrapGO_modEq bits _).add (wrapGO_modEq bits _)).trans ?_
    refine (((wrapGO_modEq bits _).mul (wrapGO_modEq bits _)).add_right _).trans ?_
    push_cast
    rfl

/-- The outcome of the even-split constructor for a `GlobalOrdinal` of `bits`
bits on rank `r` of the group, when every process passes the count `N` (not
the sentinel) and the index base `b`, and `b - 1` and `b + N` are values of
`GlobalOrdinal`. -/
theorem mkUniformGO_dist_spec (bits : Nat) (dbg : Bool) (P N : Nat) (b : Int) (r : Nat)
    (hN : N ≠ GSTI) (hr : r < P) (hlo : fitsGO bits (b - 1) = true)
    (hhi : fitsGO bits (b + N) = true) :
    ∃ m, Map.mkUniformGO bits dbg P (uniformArgs N b .GloballyDistributed) r = .ok m ∧
      m.numLocalElements_ = (if r < N % P then N / P + 1 else N / P) ∧
      m.minMyGID_ = b + (evenStart N P r : Int) ∧
      m.maxMyGID_ = m.minMyGID_ + m.numLocalElements_ - 1 ∧
      m.contiguous_ = true ∧ m.numGlobalElements_ = N ∧ m.indexBase_ = b ∧
      m.distributed_ = decide (P > 1) ∧
      m.minAllGID_ = b ∧ m.maxAllGID_ = b + N - 1 ∧ m.lgMap_ = [] := by
  have h1 : ¬ (N < 1 ∧ N ≠ 0) := by omega
  have hfit : ∀ x : Int, b - 1 ≤ x → x ≤ b + N → fitsGO bits x = true :=
    fun x h1 h2 => fitsGO_of_between bits _ _ x hlo hhi h1 h2
  have hle : evenStart N P (r + 1) ≤ N := by
    have := evenStart_mono N P (show r + 1 ≤ P by omega)
    rw [evenStart_numProcs N P (by omega)] at this
    exact this
  have hsucc := evenStart_succ N P r
  have hmono : evenStart N P r ≤ evenStart N P (r + 1) := evenStart_mono N P (by omega)
  have hS := startIndexGO_modEq bits N P r
  have hn : (if r < N % P then 1 + N / P else N / P) = (if r < N % P then N / P + 1 else N / P) := by
    split <;> omega
  have hmaxAll : wrapGO bits (b + (N : Int) - 1) = b + N - 1 :=
    wrapGO_of_fits bits _ (hfit _ (by omega) (by omega))
  simp only [Map.mkUniformGO, uniformArgs, reduceAllMin_const, reduceAllMax_const, ne_eq,
    not_true_eq_false, or_self, and_false, if_false, h1, hN, sub_div_mul_eq_mod]
  generalize (if r < N % P then
        wrapGO bits (wrapGO bits (r : Int) *
          wrapGO bits ((if r < N % P then 1 + N / P else N / P : Nat) : Int))
      else
        wrapGO bits
          (wrapGO bits (wrapGO bits (r : Int) *
              wrapGO bits ((if r < N % P then 1 + N / P else N / P : Nat) : Int)) +
            wrapGO bits ((N % P : Nat) : Int))) = S at hS
  rw [hn]
  rw [hsucc] at hle hmono
  generalize (if r < N % P then N / P + 1 else N / P) = n at hle hmono
  have hmin : wrapGO bits (b + S) = b + (evenStart N P r : Int) :=
    wrapGO_eq_of_modEq bits _ _ (hS.add_left b) (hfit _ (by omega) (by omega))
  have hmax : wrapGO bits (b + S + (n : Int) - 1) = b + (evenStart N P r : Int) + n - 1 :=
    wrapGO_eq_of_modEq bits _ _ (((hS.add_left b).add_right _).sub_right 1)
      (hfit _ (by omega) (by omega))
  exact ⟨_, rfl, rfl, hmin, by rw [hmax, hmin], rfl, rfl, rfl, rfl, rfl, hmaxAll, rfl⟩

/-- Counterexample to C2: for a 32-bit `GlobalOrdinal`, one process, index base
0 and 2147483649 elements, the stored maximum global ID is -2147483648, not the
minimum plus the local count minus one. -/
theorem evenSplit_formulas_fail_on_wrap :
    ∃ m, Map.mkUniformGO 32 false 1 (uniformArgs 2147483649 0 .GloballyDistributed) 0 = .ok m ∧
      m.numLocalElements_ = 2147483649 ∧ m.minMyGID_ = 0 ∧ m.maxMyGID_ = -2147483648 ∧
      m.maxMyGID_ ≠ m.minMyGID_ + m.numLocalElements_ - 1 :=
  ⟨_, rfl, by decide, by decide, by decide, by decide⟩

/-- C2 (amended): in the even split with quotient `N / P` and remainder
`N % P`, when `indexBase - 1` and `indexBase + N` are values of the
`GlobalOrdinal` type, a rank of the group below the remainder gets
`quotient + 1` elements starting at `indexBase + r * (quotient + 1)`, every
other rank gets `quotient` elements starting at
`indexBase + r * quotient + remainder`, and the maximum global ID is the
minimum plus the local count minus one; for `N = 10`, `P = 3`, `indexBase = 0`
(32-bit `GlobalOrdinal`) the local counts are 4, 3, 3 and the ranges `[0,3]`,
`[4,6]`, `[7,9]`. -/
theorem evenSplit_formulas (bits : Nat) (dbg : Bool) (P N : Nat) (b : Int) (r : Nat)
    (hN : N ≠ GSTI) (hr : r < P) (hlo : fitsGO bits (b - 1) = true)
    (hhi : fitsGO bits (b + N) = true) :
    (∃ m, Map.mkUniformGO bits dbg P (uniformArgs N b .GloballyDistributed) r = .ok m ∧
      (r < N % P →
        m.numLocalElements_ = N / P + 1 ∧ m.minMyGID_ = b + r * ((N / P : Nat) + 1)) ∧
      (N % P ≤ r →
        m.numLocalElements_ = N / P ∧ m.minMyGID_ = b + r * (N / P : Nat) + (N % P : Nat)) ∧
      m.maxMyGID_ = m.minMyGID_ + m.numLocalElements_ - 1) ∧
    (List.range 3).map (fun k =>
        (Map.mkUniformGO 32 dbg 3 (uniformArgs 10 0 .GloballyDistributed) k).toOption.map
          (fun m => (m.numLocalElements_, m.minMyGID_, m.maxMyGID_))) =
      [some (4, 0, 3), some (3, 4, 6), some (3, 7, 9)] := by
  constructor
  · obtain ⟨m, hok, hcnt, hmin, hmax, -⟩ := mkUniformGO_dist_spec bits dbg P N b r hN hr hlo hhi
    refine ⟨m, hok, ?_, ?_, hmax⟩
    · intro h
      rw [hcnt, hmin, if_pos h, evenStart, min_eq_left (le_of_lt h)]
      refine ⟨rfl, ?_⟩
      push_cast
      ring
    · intro h
      rw [hcnt, hmin, if_neg (not_lt.mpr h), evenStart, min_eq_right h]
      refine ⟨rfl, ?_⟩
      push_cast
      ring
  · cases dbg <;> decide

/-- Witness of the amended C2 at `N = 7`, `P = 2`, index base `1`, rank `1`,
for a 32-bit `GlobalOrdinal`. -/
theorem evenSplit_formulas_witness :
    (7 ≠ GSTI ∧ fitsGO 32 (1 - 1) = true ∧ fitsGO 32 (1 + (7 : Nat)) = true) ∧
    ((∃ m, Map.mkUniformGO 32 true 2 (uniformArgs 7 1 .GloballyDistributed) 1 = .ok m ∧
      (1 < 7 % 2 →
        m.numLocalElements_ = 7 / 2 + 1 ∧
          m.minMyGID_ = 1 + (1 : Nat) * ((7 / 2 : Nat) + 1)) ∧
      (7 % 2 ≤ 1 →
        m.numLocalElements_ = 7 / 2 ∧
          m.minMyGID_ = 1 + (1 : Nat) * (7 / 2 : Nat) + (7 % 2 : Nat)) ∧
      m.maxMyGID_ = m.minMyGID_ + m.numLocalElements_ - 1) ∧
    (List.range 3).map (fun k =>
        (Map.mkUniformGO 32 true 3 (uniformArgs 10 0 .GloballyDistributed) k).toOption.map
          (fun m => (m.numLocalElements_, m.minMyGID_, m.maxMyGID_))) =
      [some (4, 0, 3), some (3, 4, 6), some (3, 7, 9)]) :=
  ⟨by decide, evenSplit_formulas 32 true 2 7 1 1 (by decide) (by decide) (by decide) (by decide)⟩

/-- Counterexample to C3: for a 32-bit `GlobalOrdinal`, one process, index base
0 and 2147483649 elements, the ID 5 lies in `[b, b+N-1]` and is owned on no
rank, because the stored maximum has wrapped below the minimum. -/
theorem evenSplit_tiles_fail_on_wrap :
    ∃ m, Map.mkUniformGO 32 false 1 (uniformArgs 2147483649 0 .GloballyDistributed) 0 = .ok m ∧
      ((0 : Int) ≤ 5 ∧ (5 : Int) ≤ 0 + (2147483649 : Nat) - 1) ∧
      m.getMinGlobalIndex = 0 ∧ m.getMaxGlobalIndex = -2147483648 ∧
      m.isNodeGlobalElement 5 = false :=
  ⟨_, rfl, by decide, by decide, by decide, by decide⟩

/-- C3 (amended): when `b - 1` and `b + N` are values of the `GlobalOrdinal`
type, the per-rank ranges of the even split tile `[b, b+N-1]`: every global ID
of that interval is owned (`isNodeGlobalElement`) on exactly one rank, no ID
outside it is owned on any rank, and the ranges follow each other in rank
order: rank 0 starts at `b`, each next rank starts right after the maximum of
the rank before, and the last rank ends at `b+N-1`. -/
theorem evenSplit_tiles (bits : Nat) (dbg : Bool) (P N : Nat) (b : Int) (hP : 1 ≤ P)
    (hN : N ≠ GSTI) (hlo : fitsGO bits (b - 1) = true) (hhi : fitsGO bits (b + N) = true) :
    ∃ maps : Nat → Map,
      (∀ r, r < P →
        Map.mkUniformGO bits dbg P (uniformArgs N b .GloballyDistributed) r = .ok (maps r)) ∧
      (∀ g : Int, b ≤ g → g ≤ b + N - 1 →
        ∃! r, r < P ∧ (maps r).isNodeGlobalElement g = true) ∧
      (∀ (g : Int) (r : Nat), r < P → (maps r).isNodeGlobalElement g = true →
        b ≤ g ∧ g ≤ b + N - 1) ∧
      (maps 0).minMyGID_ = b ∧
      (∀ r, r + 1 < P → (maps (r + 1)).minMyGID_ = (maps r).maxMyGID_ + 1) ∧
      (maps (P - 1)).maxMyGID_ = b + N - 1 := by
  have hspec : ∀ r, r < P → ∃ m,
      Map.mkUniformGO bits dbg P (uniformArgs N b .GloballyDistributed) r = .ok m ∧
      builtMaps (Map.mkUniformGO bits dbg P (uniformArgs N b .GloballyDistributed)) r = m ∧
      m.numLocalElements_ = (if r < N % P then N / P + 1 else N / P) ∧
      m.minMyGID_ = b + (evenStart N P r : Int) ∧
      m.maxMyGID_ = m.minMyGID_ + m.numLocalElements_ - 1 ∧ m.contiguous_ = true := by
    intro r hr
    obtain ⟨m, hok, h1, h2, h3, h4, -⟩ := mkUniformGO_dist_spec bits dbg P N b r hN hr hlo hhi
    refine ⟨m, hok, ?_, h1, h2, h3, h4⟩
    unfold builtMaps
    rw [hok]
  refine ⟨builtMaps (Map.mkUniformGO bits dbg P (uniformArgs N b .GloballyDistributed)), ?_⟩
  generalize builtMaps (Map.mkUniformGO bits dbg P (uniformArgs N b .GloballyDistributed))
    = maps at hspec
  have hok : ∀ r, r < P →
      Map.mkUniformGO bits dbg P (uniformArgs N b .GloballyDistributed) r = .ok (maps r) := by
    intro r hr
    obtain ⟨m, h0, h1, -⟩ := hspec r hr
    rw [h1]
    exact h0
  have hcnt : ∀ r, r < P →
      (maps r).numLocalElements_ = (if r < N % P then N / P + 1 else N / P) := by
    intro r hr
    obtain ⟨m, -, h1, h2, -⟩ := hspec r hr
    rw [h1]
    exact h2
  have hmin : ∀ r, r < P → (maps r).minMyGID_ = b + (evenStart N P r : Int) := by
    intro r hr
    obtain ⟨m, -, h1, -, h2, -⟩ := hspec r hr
    rw [h1]
    exact h2
  have hmax : ∀ r, r < P →
      (maps r).maxMyGID_ = (maps r).minMyGID_ + (maps r).numLocalElements_ - 1 := by
    intro r hr
    obtain ⟨m, -, h1, -, -, h2, -⟩ := hspec r hr
    rw [h1]
    exact h2
  have hcont : ∀ r, r < P → (maps r).contiguous_ = true := by
    intro r hr
    obtain ⟨m, -, h1, -, -, -, h2⟩ := hspec r hr
    rw [h1]
    exact h2
  have hmax2 : ∀ r, r < P → (maps r).maxMyGID_ = b + (evenStart N P (r + 1) : Int) - 1 := by
    intro r hr
    rw [hmax r hr, hmin r hr, hcnt r hr, evenStart_succ]
    push_cast
    ring
  have hown : ∀ r, r < P → ∀ g : Int, ((maps r).isNodeGlobalElement g = true ↔
      (b + (evenStart N P r : Int) ≤ g ∧ g < b + (evenStart N P (r + 1) : Int))) := by
    intro r hr g
    rw [isNodeGlobalElement_contiguous _ (hcont r hr), hmin r hr, hmax2 r hr]
    omega
  refine ⟨hok, ?_, ?_, ?_, ?_, ?_⟩
  · intro g hg1 hg2
    have hx : (g - b).toNat < evenStart N P P := by
      rw [evenStart_numProcs N P hP]; omega
    obtain ⟨r, hr, h1, h2⟩ := evenStart_locate N P (g - b).toNat P hx
    refine ⟨r, ⟨hr, (hown r hr g).mpr (by omega)⟩, ?_⟩
    rintro s ⟨hsP, hs⟩
    have hs2 := (hown s hsP g).mp hs
    exact evenStart_unique N P (g - b).toNat s r (by omega) (by omega) h1 h2
  · intro g r hr hg
    have h := (hown r hr g).mp hg
    have h1 := evenStart_mono N P (show r + 1 ≤ P by omega)
    rw [evenStart_numProcs N P hP] at h1
    omega
  · rw [hmin 0 (by omega), evenStart_zero]; simp
  · intro r hr
    rw [hmin (r + 1) hr, hmax2 r (by omega)]; ring
  · rw [hmax2 (P - 1) (by omega), show P - 1 + 1 = P by omega, evenStart_numProcs N P hP]

/-- Witness of the amended C3 at `N = 10`, `P = 3`, index base `0`, for a
32-bit `GlobalOrdinal`. -/
theorem evenSplit_tiles_witness :
    (1 ≤ 3 ∧ 10 ≠ GSTI ∧ fitsGO 32 (0 - 1) = true ∧ fitsGO 32 (0 + (10 : Nat)) = true) ∧
    ∃ maps : Nat → Map,
      (∀ r, r < 3 →
        Map.mkUniformGO 32 false 3 (uniformArgs 10 0 .GloballyDistributed) r = .ok (maps r)) ∧
      (∀ g : Int, (0 : Int) ≤ g → g ≤ (0 : Int) + (10 : Nat) - 1 →
        ∃! r, r < 3 ∧ (maps r).isNodeGlobalElement g = true) ∧
      (∀ (g : Int) (r : Nat), r < 3 → (maps r).isNodeGlobalElement g = true →
        (0 : Int) ≤ g ∧ g ≤ (0 : Int) + (10 : Nat) - 1) ∧
      (maps 0).minMyGID_ = 0 ∧
      (∀ r, r + 1 < 3 → (maps (r + 1)).minMyGID_ = (maps r).maxMyGID_ + 1) ∧
      (maps (3 - 1)).maxMyGID_ = (0 : Int) + (10 : Nat) - 1 :=
  ⟨by decide, evenSplit_tiles 32 false 3 10 0 (by decide) (by decide) (by decide) (by decide)⟩

/-! ## The local-count construction for a fixed-width GlobalOrdinal -/

theorem list_sum_wrapGO_modEq (bits : Nat) (f : Nat → Int) (l : List Nat) :
    (l.map (fun q => wrapGO bits (f q))).sum ≡ (l.map f).sum [ZMOD 2 ^ bits] := by
  induction l with
  | nil => exact Int.ModEq.refl _
  | cons a t ih =>
    simp only [List.map_cons, List.sum_cons]
    exact (wrapGO_modEq bits (f a)).add ih

/-- The scan in `GlobalOrdinal` is the inclusive prefix sum up to a multiple of
`2 ^ bits`. -/
theorem scanGO_modEq (bits : Nat) (f : Nat → Int) (r : Nat) :
    scanGO bits f r ≡ ∑ q in Finset.range (r + 1), f q [ZMOD 2 ^ bits] := by
  unfold scanGO
  refine (wrapGO_modEq bits _).trans ?_
  rw [← list_range_sum_eq f (r + 1)]
  exact list_sum_wrapGO_modEq bits f _

theorem contigMyOffsetGO_modEq (bits : Nat) (args : Nat → ContigArgs) (r : Nat) :
    Map.contigMyOffsetGO bits args r ≡
      ∑ q in Finset.range r, ((args q).numLocalElements : Int) [ZMOD 2 ^ bits] := by
  unfold Map.contigMyOffsetGO
  refine (wrapGO_modEq bits _).trans ?_
  have h := (scanGO_modEq bits (fun q => ((args q).numLocalElements : Int)) r).sub_right
    ((args r).numLocalElements : Int)
  rw [Finset.sum_range_succ] at h
  simpa using h

/-- What a returning, successful call of the second constructor stores, for a
`GlobalOrdinal` of `bits` bits. -/
theorem mkContigGO_ok (bits : Nat) (dbg : Bool) (P : Nat) (args : Nat → ContigArgs) (r : Nat)
    (m : Map) (h : Map.mkContigGO bits dbg P args r = some (.ok m)) :
    m = { commSize := P
          commRank := r
          numGlobalElements_ := Map.contigNumGlobalGO bits P args r
          numLocalElements_ := (args r).numLocalElements
          indexBase_ := (args r).indexBase
          minAllGID_ := (args r).indexBase
          maxAllGID_ := wrapGO bits ((args r).indexBase + Map.contigNumGlobalGO bits P args r - 1)
          minMyGID_ := wrapGO bits ((args r).indexBase + Map.contigMyOffsetGO bits args r)
          maxMyGID_ := wrapGO bits ((args r).indexBase + Map.contigMyOffsetGO bits args r +
            (args r).numLocalElements - 1)
          contiguous_ := true
          distributed_ :=
            checkIsDist P (Map.contigNumGlobalGO bits P args)
              (fun q => (args q).numLocalElements) r
          lgMap_ := []
          glMap_ := HashTable.new 0 } := by
  unfold Map.mkContigGO at h
  simp only [] at h
  split_ifs at h
  all_goals first
    | (simp at h; done)
    | (injection h with h; injection h with h; exact h.symm)

/-- With the sentinel as global count, the count taken from the scan in
`GlobalOrdinal` is the sum of the local counts when that sum is a value of
`GlobalOrdinal` (of at most 64 bits). -/
theorem contigNumGlobalGO_sentinel (bits : Nat) (P : Nat) (args : Nat → ContigArgs) (r : Nat)
    (hr : r < P) (hbits : bits ≤ 64) (h : (args r).numGlobalElements = GSTI)
    (hfit : fitsGO bits ((∑ q in Finset.range P, (args q).numLocalElements : Nat) : Int) = true) :
    Map.contigNumGlobalGO bits P args r = ∑ q in Finset.range P, (args q).numLocalElements := by
  have hscan : scanGO bits (fun q => ((args q).numLocalElements : Int)) (P - 1) =
      ((∑ q in Finset.range P, (args q).numLocalElements : Nat) : Int) := by
    unfold scanGO
    refine wrapGO_eq_of_modEq bits _ _ ?_ hfit
    refine (list_sum_wrapGO_modEq bits _ _).trans ?_
    rw [list_range_sum_eq, show P - 1 + 1 = P by omega]
    push_cast
    exact Int.ModEq.refl _
  have hsize : asGlobalSize ((∑ q in Finset.range P, (args q).numLocalElements : Nat) : Int) =
      ∑ q in Finset.range P, (args q).numLocalElements := by
    rw [fitsGO_iff] at hfit
    have hpow : (2 : Int) ^ bits ≤ 2 ^ 64 := pow_le_pow_right₀ (by norm_num) hbits
    have hh : (2 : Int) ^ bits / 2 ≤ 2 ^ bits := Int.ediv_le_self _ (by positivity)
    unfold asGlobalSize
    rw [Int.emod_eq_of_lt (by positivity) (by omega)]
    exact Int.toNat_natCast _
  simp only [Map.contigNumGlobalGO, h, ne_eq, not_true_eq_false, if_false, broadcast]
  split
  · rw [hscan, hsize]
  · have hP : P = 1 := by omega
    have hr0 : r = 0 := by omega
    subst hP; subst hr0
    rw [hscan, hsize]

/-- Counterexample to C4: for a 32-bit `GlobalOrdinal` and the local counts
2147483648 and 1, the offset computed on rank 1 is -2147483648 and so is its
minimum global ID, while the local count of rank 0 is 2147483648. -/
theorem contig_offset_fail_on_wrap :
    ∃ m, Map.mkContigGO 32 false 2 wrapOffsetExample 1 = some (.ok m) ∧
      ∑ q in Finset.range 1, ((wrapOffsetExample q).numLocalElements : Int) = 2147483648 ∧
      Map.contigMyOffsetGO 32 wrapOffsetExample 1 = -2147483648 ∧
      m.minMyGID_ = -2147483648 :=
  ⟨_, rfl, by decide, by decide, by decide⟩

/-- C4 (amended): on a rank `r` of a user-specified-local-count construction
that returns a Map, when the sum of the local counts of the ranks below `r`,
the index base plus that sum, and this plus the local count of the rank minus
one are values of the `GlobalOrdinal` type, the computed local offset is that
sum (the exclusive prefix sum), `minMyGID_` is the index base plus the sum, and
`maxMyGID_` is `minMyGID_` plus the local count of the rank minus one. -/
theorem contig_offset_is_exclusive_prefix_sum (bits : Nat) (dbg : Bool) (P : Nat)
    (args : Nat → ContigArgs) (r : Nat) (m : Map)
    (h : Map.mkContigGO bits dbg P args r = some (.ok m))
    (hoff : fitsGO bits (∑ q in Finset.range r, ((args q).numLocalElements : Int)) = true)
    (hmin : fitsGO bits
      ((args r).indexBase + ∑ q in Finset.range r, ((args q).numLocalElements : Int)) = true)
    (hmax : fitsGO bits
      ((args r).indexBase + ∑ q in Finset.range r, ((args q).numLocalElements : Int) +
        (args r).numLocalElements - 1) = true) :
    Map.contigMyOffsetGO bits args r = ∑ q in Finset.range r, ((args q).numLocalElements : Int) ∧
    m.minMyGID_ =
      (args r).indexBase + ∑ q in Finset.range r, ((args q).numLocalElements : Int) ∧
    m.maxMyGID_ = m.minMyGID_ + (args r).numLocalElements - 1 ∧
    m.numLocalElements_ = (args r).numLocalElements ∧
    m.indexBase_ = (args r).indexBase := by
  have hmod := contigMyOffsetGO_modEq bits args r
  have h1 : Map.contigMyOffsetGO bits args r =
      ∑ q in Finset.range r, ((args q).numLocalElements : Int) := by
    have hw : wrapGO bits (Map.contigMyOffsetGO bits args r) = Map.contigMyOffsetGO bits args r := by
      unfold Map.contigMyOffsetGO
      exact wrapGO_congr bits _ _ (wrapGO_modEq bits _)
    rw [← hw]
    exact wrapGO_eq_of_modEq bits _ _ hmod hoff
  have h2 : wrapGO bits ((args r).indexBase + Map.contigMyOffsetGO bits args r) =
      (args r).indexBase + ∑ q in Finset.range r, ((args q).numLocalElements : Int) :=
    wrapGO_eq_of_modEq bits _ _ (hmod.add_left _) hmin
  have h3 : wrapGO bits ((args r).indexBase + Map.contigMyOffsetGO bits args r +
      (args r).numLocalElements - 1) =
      (args r).indexBase + ∑ q in Finset.range r, ((args q).numLocalElements : Int) +
        (args r).numLocalElements - 1 :=
    wrapGO_eq_of_modEq bits _ _ (((hmod.add_left _).add_right _).sub_right 1) hmax
  rw [mkContigGO_ok bits dbg P args r m h]
  exact ⟨h1, h2, by rw [h3, h2], rfl, rfl⟩

/-- Witness of the amended C4: rank 2 of three processes with local counts 2,
3, 4 and index base 1, for a 32-bit `GlobalOrdinal`. -/
theorem contig_offset_is_exclusive_prefix_sum_witness :
    ∃ m, Map.mkContigGO 32 true 3 localCountExample 2 = some (.ok m) ∧
      Map.contigMyOffsetGO 32 localCountExample 2 =
        ∑ q in Finset.range 2, ((localCountExample q).numLocalElements : Int) ∧
      m.minMyGID_ = (localCountExample 2).indexBase +
        ∑ q in Finset.range 2, ((localCountExample q).numLocalElements : Int) ∧
      m.maxMyGID_ = m.minMyGID_ + (localCountExample 2).numLocalElements - 1 ∧
      m.numLocalElements_ = (localCountExample 2).numLocalElements ∧
      m.indexBase_ = (localCountExample 2).indexBase :=
  ⟨_, rfl, contig_offset_is_exclusive_prefix_sum 32 true 3 localCountExample 2 _ rfl
    (by decide) (by decide) (by decide)⟩

/-- Counterexample to C14: without the debug validation, two processes that
pass the global count 5 and the local count 1 each get a partition whose
stored global count is 5, while the local counts sum to 2. -/
theorem contig_wrong_count_accepted_without_debug :
    ∃ m, Map.mkContigGO 32 false 2 wrongSumExample 0 = some (.ok m) ∧
      (wrongSumExample 0).numGlobalElements ≠ GSTI ∧
      m.numGlobalElements_ = 5 ∧
      ∑ q in Finset.range 2, (wrongSumExample q).numLocalElements = 2 :=
  ⟨_, rfl, by decide, by decide, by decide⟩

/-- A debug run of the second constructor in which some process passed a
global count that is neither the sentinel nor the sum throws on every rank. -/
theorem mkContigGO_debug_wrong_count (bits : Nat) (P : Nat) (args : Nat → ContigArgs) (q : Nat)
    (hq : q < P) (hgiven : (args q).numGlobalElements ≠ GSTI)
    (hwrong : (args q).numGlobalElements ≠ ∑ k in Finset.range P, (args k).numLocalElements)
    (r : Nat) :
    ∃ e, Map.mkContigGO bits true P args r = some (.error e) ∧
      e.exceptionClass = .invalid_argument := by
  unfold Map.mkContigGO
  simp only [true_and, ne_eq, reduceAllSum_eq]
  by_cases c1 : reduceAllMin P (fun r => (args r).numGlobalElements) (args r).numGlobalElements ≠
        reduceAllMax P (fun r => (args r).numGlobalElements) (args r).numGlobalElements ∨
      (args r).numGlobalElements ≠
        reduceAllMin P (fun r => (args r).numGlobalElements) (args r).numGlobalElements
  · rw [if_pos c1]
    exact ⟨_, rfl, rfl⟩
  rw [if_neg c1]
  split_ifs with c2 c3
  · exact ⟨_, rfl, rfl⟩
  · exact ⟨_, rfl, rfl⟩
  all_goals
    exfalso
    rw [not_or, not_not, not_not] at c1
    have hqr : (args q).numGlobalElements = (args r).numGlobalElements := by
      rw [c1.2]
      exact reduceAll_eq_of_min_eq_max P (fun k => (args k).numGlobalElements) _ c1.1 q hq
    rw [hqr] at hgiven hwrong
    exact c3 ⟨hgiven, fun h => hwrong h.symm⟩

/-- The global count stored by a successful debug run of the second
constructor is the sum of the local counts, also when the scan wrapped. -/
theorem mkContigGO_debug_stores_sum (bits : Nat) (P : Nat) (args : Nat → ContigArgs) (r : Nat)
    (m : Map) (h : Map.mkContigGO bits true P args r = some (.ok m)) :
    m.numGlobalElements_ = ∑ k in Finset.range P, (args k).numLocalElements := by
  have hrec := mkContigGO_ok bits true P args r m h
  unfold Map.mkContigGO at h
  simp only [true_and, ne_eq, reduceAllSum_eq] at h
  split_ifs at h
  all_goals first
    | (simp at h; done)
    | (rename_i c1 c2 c3 c4 c5
       rw [hrec]
       show Map.contigNumGlobalGO bits P args r = _
       by_cases hs : (args r).numGlobalElements = GSTI
       · by_contra hne
         exact c5 ⟨hs, hne⟩
       · simp only [Map.contigNumGlobalGO, ne_eq, hs, not_false_eq_true, if_true]
         by_contra hne
         exact c3 ⟨hs, fun h => hne h.symm⟩)

/-- Without the debug checks the second constructor returns a Map on a group
whose ranks all pass a count (none the sentinel), and stores the count of the
rank. -/
theorem mkContigGO_nodebug_given (bits : Nat) (P : Nat) (args : Nat → ContigArgs) (r : Nat)
    (hr : r < P) (hall : ∀ q, q < P → (args q).numGlobalElements ≠ GSTI) :
    ∃ m, Map.mkContigGO bits false P args r = some (.ok m) ∧
      m.numGlobalElements_ = (args r).numGlobalElements := by
  have hs := hall r hr
  have hmix : ¬ (P > 1 ∧ ∃ q, q < P ∧
      ¬ ((args q).numGlobalElements = GSTI ↔ (args r).numGlobalElements = GSTI)) := by
    rintro ⟨-, q, hq, hne⟩
    exact hne ⟨fun h => absurd h (hall q hq), fun h => absurd h hs⟩
  unfold Map.mkContigGO
  simp only [Bool.false_eq_true, false_and, if_false]
  rw [if_neg hmix]
  refine ⟨_, rfl, ?_⟩
  simp only [Map.contigNumGlobalGO, ne_eq, hs, not_false_eq_true, if_true]

/-- C14 (amended): with the debug validation enabled, a local-count
construction in which some process passes a (non-sentinel) global count that is
not the sum of the local counts fails on every rank with an invalid-argument
error, and a successful construction stores the sum of the local counts as
global count; without the debug validation the constructor makes no such
check: when every process passes a count (none the sentinel) it returns a Map
that stores the given count as it is. -/
theorem contig_global_count_checked_in_debug (bits : Nat) (P : Nat) (args : Nat → ContigArgs)
    (r : Nat) (hr : r < P) :
    ((∃ q, q < P ∧ (args q).numGlobalElements ≠ GSTI ∧
        (args q).numGlobalElements ≠ ∑ k in Finset.range P, (args k).numLocalElements) →
      ∃ e, Map.mkContigGO bits true P args r = some (.error e) ∧
        e.exceptionClass = .invalid_argument) ∧
    (∀ m, Map.mkContigGO bits true P args r = some (.ok m) →
      m.numGlobalElements_ = ∑ k in Finset.range P, (args k).numLocalElements) ∧
    ((∀ q, q < P → (args q).numGlobalElements ≠ GSTI) →
      ∃ m, Map.mkContigGO bits false P args r = some (.ok m) ∧
        m.numGlobalElements_ = (args r).numGlobalElements) := by
  refine ⟨?_, fun m h => mkContigGO_debug_stores_sum bits P args r m h,
    mkContigGO_nodebug_given bits P args r hr⟩
  rintro ⟨q, hq, h1, h2⟩
  exact mkContigGO_debug_wrong_count bits P args q hq h1 h2 r

/-- Witness of the amended C14: a rejected wrong count and an accepted
construction in a debug run, and the unchecked count without debug. -/
theorem contig_global_count_checked_in_debug_witness :
    (∃ e, Map.mkContigGO 32 true 2 wrongSumExample 1 = some (.error e) ∧
      e.exceptionClass = .invalid_argument) ∧
    (∃ m, Map.mkContigGO 32 true 3 localCountExample 1 = some (.ok m) ∧
      m.numGlobalElements_ = ∑ k in Finset.range 3, (localCountExample k).numLocalElements) ∧
    (∃ m, Map.mkContigGO 32 false 2 wrongSumExample 1 = some (.ok m) ∧
      m.numGlobalElements_ = (wrongSumExample 1).numGlobalElements) :=
  ⟨(contig_global_count_checked_in_debug 32 2 wrongSumExample 1 (by decide)).1
      ⟨0, by decide, by decide, by decide⟩,
   ⟨_, rfl, (contig_global_count_checked_in_debug 32 3 localCountExample 1 (by decide)).2.1 _ rfl⟩,
   (contig_global_count_checked_in_debug 32 2 wrongSumExample 1 (by decide)).2.2
    (fun q hq => by interval_cases q <;> decide)⟩

/-- Without the debug checks, ranks that do not agree on the sentinel make
different collective calls, and the constructor returns on none of them. -/
theorem mkContigGO_mixed_sentinel :
    Map.mkContigGO 32 false 2 mixedSentinelExample 0 = none ∧
    Map.mkContigGO 32 false 2 mixedSentinelExample 1 = none ∧
    Map.mkContig.collectives false 2 mixedSentinelExample 0 =
      [.scan, .broadcast, .reduceAll] ∧
    Map.mkContig.collectives false 2 mixedSentinelExample 1 = [.scan, .reduceAll] ∧
    Map.mkContigGO 32 true 2 mixedSentinelExample 0 = some (.error .numGlobalNotSame) ∧
    Map.mkContigGO 32 true 2 mixedSentinelExample 1 = some (.error .numGlobalNotSame) :=
  ⟨rfl, rfl, by decide, by decide, rfl, rfl⟩

/-! ## Weighted contiguous Maps -/

theorem reduceAllSumInt_eq (P : Nat) (f : Nat → Int) :
    reduceAllSumInt P f = ∑ q in Finset.range P, f q :=
  list_range_sum_eq f P

theorem sum_range_ite_lt (P k : Nat) :
    ∑ q in Finset.range P, (if q < k then (1 : Int) else 0) = ((min k P : Nat) : Int) := by
  induction P with
  | zero => simp
  | succ P ih =>
    rw [Finset.sum_range_succ, ih]
    split_ifs with h
    · rw [Nat.min_eq_right (by omega), Nat.min_eq_right (by omega)]
      push_cast
      ring
    · rw [Nat.min_eq_left (by omega), Nat.min_eq_left (by omega)]
      simp

/-- The floors of the shares miss the total by less than the number of
processes. -/
theorem sum_floor_bounds (P : Nat) (w : Nat → Int) (N : Nat)
    (hW : 0 < ∑ k in Finset.range P, w k) :
    0 ≤ (N : Int) - ∑ q in Finset.range P, (w q * N) / (∑ k in Finset.range P, w k) ∧
    (N : Int) - ∑ q in Finset.range P, (w q * N) / (∑ k in Finset.range P, w k) < P := by
  have hP : 0 < P := by
    by_contra h
    have : P = 0 := by omega
    subst this
    simp at hW
  set W := ∑ k in Finset.range P, w k with hWdef
  have hdecomp : ∀ q, w q * N = W * ((w q * N) / W) + (w q * N) % W := by
    intro q
    have := Int.emod_add_ediv (w q * N) W
    omega
  have hsum : W * (N : Int) = W * (∑ q in Finset.range P, (w q * N) / W) +
      ∑ q in Finset.range P, (w q * N) % W := by
    rw [Finset.mul_sum, ← Finset.sum_add_distrib, hWdef, Finset.sum_mul]
    exact Finset.sum_congr rfl (fun q _ => hdecomp q)
  have hR0 : 0 ≤ ∑ q in Finset.range P, (w q * N) % W :=
    Finset.sum_nonneg (fun q _ => Int.emod_nonneg _ (ne_of_gt hW))
  have hR1 : ∑ q in Finset.range P, (w q * N) % W ≤ ∑ _q in Finset.range P, (W - 1) :=
    Finset.sum_le_sum (fun q _ => by have := Int.emod_lt_of_pos (w q * N) hW; omega)
  rw [Finset.sum_const, Finset.card_range, nsmul_eq_mul] at hR1
  set S := ∑ q in Finset.range P, (w q * N) / W
  set R := ∑ q in Finset.range P, (w q * N) % W
  have hkey : W * ((N : Int) - S) = R := by rw [mul_sub, hsum]; ring
  constructor
  · by_contra hneg
    have : W * ((N : Int) - S) < 0 := mul_neg_of_pos_of_neg hW (by omega)
    omega
  · by_contra hge
    have h1 : W * (P : Int) ≤ W * ((N : Int) - S) :=
      mul_le_mul_of_nonneg_left (by omega) (le_of_lt hW)
    have h2 : (P : Int) * (W - 1) = W * P - P := by ring
    have h3 : (0 : Int) < P := by exact_mod_cast hP
    omega

/-- The second constructor returns a Map, in both builds, when all ranks pass
the same count (not the sentinel) and index base and the local counts sum to
the count. -/
theorem mkContigGO_succeeds (bits : Nat) (dbg : Bool) (P : Nat) (args : Nat → ContigArgs)
    (r : Nat) (hr : r < P) (N : Nat) (b : Int)
    (hN : ∀ q, q < P → (args q).numGlobalElements = N)
    (hb : ∀ q, q < P → (args q).indexBase = b) (hS : N ≠ GSTI)
    (hsum : ∑ q in Finset.range P, (args q).numLocalElements = N) :
    ∃ m, Map.mkContigGO bits dbg P args r = some (.ok m) ∧ m.numGlobalElements_ = N ∧
      m.numLocalElements_ = (args r).numLocalElements := by
  have h1 : reduceAllMin P (fun q => (args q).numGlobalElements) (args r).numGlobalElements = N :=
    reduceAllMin_of_forall P (fun q => (args q).numGlobalElements) r hr (fun x => x = N) hN
  have h2 : reduceAllMax P (fun q => (args q).numGlobalElements) (args r).numGlobalElements = N :=
    reduceAllMax_of_forall P (fun q => (args q).numGlobalElements) r hr (fun x => x = N) hN
  have h3 : reduceAllMin P (fun q => (args q).indexBase) (args r).indexBase = b :=
    reduceAllMin_of_forall P (fun q => (args q).indexBase) r hr (fun x => x = b) hb
  have h4 : reduceAllMax P (fun q => (args q).indexBase) (args r).indexBase = b :=
    reduceAllMax_of_forall P (fun q => (args q).indexBase) r hr (fun x => x = b) hb
  have hG : Map.contigNumGlobalGO bits P args r = N := by
    unfold Map.contigNumGlobalGO
    simp only []
    rw [if_pos (by rw [hN r hr]; exact hS), hN r hr]
  have hmix : ¬ (P > 1 ∧ ∃ q, q < P ∧
      ¬ ((args q).numGlobalElements = GSTI ↔ (args r).numGlobalElements = GSTI)) := by
    rintro ⟨-, q, hq, hne⟩
    rw [hN q hq, hN r hr] at hne
    exact hne Iff.rfl
  unfold Map.mkContigGO
  simp only []
  rw [h1, h2, h3, h4, if_neg (by rw [hN r hr]; simp), if_neg (by rw [hb r hr]; simp),
    if_neg (by rw [reduceAllSum_eq, hsum, hN r hr]; simp), if_neg hmix,
    if_neg (by rw [hN r hr]; exact fun h => hS h.2.1), hG]
  exact ⟨_, rfl, rfl, rfl⟩

/-- A value in the range of `int` is stored as it is. -/
theorem wrapInt_of_range (x : Int) (h1 : -2147483648 ≤ x) (h2 : x < 2147483648) :
    wrapInt x = x := by
  unfold wrapInt
  apply wrapGO_of_fits
  rw [fitsGO_iff]
  norm_num
  omega

/-- C30 (amended): for non-negative integer weights with a positive sum and
the same count `numElements` on every rank, at most 2147483647 (a value of
`int`), when on every rank the
share `(int) floor (myShare * numElements)` computed in `double` is the exact
floor of `myWeight * numElements / sumOfWeights`, the call never trips its
range assertion: `elemsLeft` is at least 0 and less than the number of
processes.  The local count of a rank is its share plus one if the rank is
below `elemsLeft`; the local counts handed to the contiguous constructor sum
over all ranks to `numElements`, and the function returns a Map with this
local count and the global count `numElements`. -/
theorem weighted_counts_sum_to_numElements (bits : Nat) (dbg : Bool) (P : Nat) (w : Nat → Int)
    (N : Nat) (r : Nat) (hr : r < P) (hw : ∀ q, q < P → 0 ≤ w q)
    (hW : 0 < ∑ k in Finset.range P, w k) (hN : N < 2147483648)
    (hexact : ∀ q, q < P →
      createWeightedContigMapWithNode.share P (weightedArgs w N) q =
        some ((w q * N) / ∑ k in Finset.range P, w k)) :
    (createWeightedContigMapWithNode.elemsLeft P (weightedArgs w N) r =
        some ((N : Int) - ∑ q in Finset.range P, (w q * N) / ∑ k in Finset.range P, w k) ∧
      0 ≤ (N : Int) - ∑ q in Finset.range P, (w q * N) / ∑ k in Finset.range P, w k ∧
      (N : Int) - ∑ q in Finset.range P, (w q * N) / ∑ k in Finset.range P, w k < P) ∧
    (∀ q, q < P →
      createWeightedContigMapWithNode.localNumElements P (weightedArgs w N) q =
        some ((w q * N) / (∑ k in Finset.range P, w k) +
          (if (q : Int) <
              (N : Int) - ∑ q in Finset.range P, (w q * N) / ∑ k in Finset.range P, w k
            then 1 else 0))) ∧
    (∑ q in Finset.range P,
      (createWeightedContigMapWithNode.args P (weightedArgs w N) q).numLocalElements = N) ∧
    ∃ m, createWeightedContigMapWithNode bits dbg P (weightedArgs w N) r = some (.ok m) ∧
      m.numGlobalElements_ = N ∧
      (m.numLocalElements_ : Int) =
        (w r * N) / (∑ k in Finset.range P, w k) +
          (if (r : Int) <
              (N : Int) - ∑ q in Finset.range P, (w q * N) / ∑ k in Finset.range P, w k
            then 1 else 0) := by
  obtain ⟨he0, he1⟩ := sum_floor_bounds P w N hW
  set W := ∑ k in Finset.range P, w k with hWdef
  set S := ∑ q in Finset.range P, (w q * N) / W with hSdef
  have hf0 : ∀ q, q < P → 0 ≤ (w q * N) / W := fun q hq =>
    Int.ediv_nonneg (mul_nonneg (hw q hq) (by positivity)) (le_of_lt hW)
  have hS0 : 0 ≤ S := Finset.sum_nonneg (fun q hq => hf0 q (Finset.mem_range.mp hq))
  have hfS : ∀ q, q < P → (w q * N) / W ≤ S := fun q hq =>
    Finset.single_le_sum (fun k hk => hf0 k (Finset.mem_range.mp hk)) (Finset.mem_range.mpr hq)
  have hall : (List.range P).all
      (fun q => (createWeightedContigMapWithNode.share P (weightedArgs w N) q).isSome) = true := by
    rw [List.all_eq_true]
    intro q hq
    rw [hexact q (List.mem_range.mp hq)]
    rfl
  have hsum : reduceAllSumInt P
      (fun q => (createWeightedContigMapWithNode.share P (weightedArgs w N) q).getD 0) = S := by
    rw [reduceAllSumInt_eq]
    refine Finset.sum_congr rfl (fun q hq => ?_)
    rw [hexact q (Finset.mem_range.mp hq)]
    rfl
  have helems : ∀ q, createWeightedContigMapWithNode.elemsLeft P (weightedArgs w N) q =
      some ((N : Int) - S) := by
    intro q
    unfold createWeightedContigMapWithNode.elemsLeft
    rw [if_pos hall]
    simp only [hsum, weightedArgs]
    rw [wrapInt_of_range S (by omega) (by omega),
      wrapInt_of_range ((N : Int) - S) (by omega) (by omega)]
  have hloc : ∀ q, q < P →
      createWeightedContigMapWithNode.localNumElements P (weightedArgs w N) q =
        some ((w q * N) / W + (if (q : Int) < (N : Int) - S then 1 else 0)) := by
    intro q hq
    have hfq := hfS q hq
    have hf0q := hf0 q hq
    unfold createWeightedContigMapWithNode.localNumElements
    rw [hexact q hq, helems q]
    simp only []
    rw [if_neg (by omega)]
    by_cases hpos : (N : Int) - S > 0
    · rw [if_pos hpos]
      by_cases hlt : (q : Int) < (N : Int) - S
      · rw [if_pos hlt, if_pos hlt, wrapInt_of_range _ (by omega) (by omega)]
      · rw [if_neg hlt, if_neg hlt, add_zero]
    · rw [if_neg hpos, if_neg (by omega), add_zero]
  have hite : ∑ q in Finset.range P, (if (q : Int) < (N : Int) - S then (1 : Int) else 0)
      = (N : Int) - S := by
    have hk := Int.toNat_of_nonneg he0
    have := sum_range_ite_lt P ((N : Int) - S).toNat
    rw [Nat.min_eq_left (by omega)] at this
    rw [← hk, ← this]
    exact Finset.sum_congr rfl (fun q _ => by split_ifs <;> omega)
  have hsize : ∀ q, q < P →
      ((createWeightedContigMapWithNode.args P (weightedArgs w N) q).numLocalElements : Int) =
        (w q * N) / W + (if (q : Int) < (N : Int) - S then 1 else 0) := by
    intro q hq
    have hfq := hfS q hq
    have hf0q := hf0 q hq
    simp only [createWeightedContigMapWithNode.args, hloc q hq, Option.getD_some, asSize]
    have h0 : 0 ≤ (w q * N) / W + (if (q : Int) < (N : Int) - S then 1 else 0) := by
      split_ifs <;> omega
    have h1 : (w q * N) / W + (if (q : Int) < (N : Int) - S then 1 else 0) < 2 ^ 64 := by
      split_ifs <;> omega
    rw [Int.emod_eq_of_lt h0 h1, Int.toNat_of_nonneg h0]
  have hsumNat : ∑ q in Finset.range P,
      (createWeightedContigMapWithNode.args P (weightedArgs w N) q).numLocalElements = N := by
    have : ((∑ q in Finset.range P,
        (createWeightedContigMapWithNode.args P (weightedArgs w N) q).numLocalElements : Nat)
          : Int) = (N : Int) := by
      push_cast
      rw [Finset.sum_congr rfl (fun q hq => hsize q (Finset.mem_range.mp hq)),
        Finset.sum_add_distrib, hite]
      ring
    exact_mod_cast this
  refine ⟨⟨helems r, he0, he1⟩, hloc, hsumNat, ?_⟩
  obtain ⟨m, hm, hg, hl⟩ := mkContigGO_succeeds bits dbg P
    (createWeightedContigMapWithNode.args P (weightedArgs w N)) r hr N 0
    (fun q _ => rfl) (fun q _ => rfl) (by unfold GSTI; omega) hsumNat
  refine ⟨m, ?_, hg, ?_⟩
  · have hany : (List.range P).any
        (fun q => createWeightedContigMapWithNode.outOfRange P (weightedArgs w N) q) = false := by
      rw [List.any_eq_false]
      intro q _
      unfold createWeightedContigMapWithNode.outOfRange
      rw [helems q]
      simp only [decide_eq_true_eq]
      omega
    unfold createWeightedContigMapWithNode
    rw [helems r]
    simp only []
    rw [if_neg (by omega), hany, hm]
    simp
  · rw [hl, hsize r hr]

set_option maxRecDepth 8192 in
/-- The scenario with the weights 1 and 2 and ten elements: the shares computed
in `double` are the exact floors 3 and 6, one element is left, and rank 0 gains
it. -/
theorem weightExample_values :
    (createWeightedContigMapWithNode.share 2 (weightedArgs weightExample 10) 0 = some 3 ∧
      createWeightedContigMapWithNode.share 2 (weightedArgs weightExample 10) 1 = some 6) ∧
    createWeightedContigMapWithNode.elemsLeft 2 (weightedArgs weightExample 10) 0 = some 1 ∧
    createWeightedContigMapWithNode.localNumElements 2 (weightedArgs weightExample 10) 0 = some 4 ∧
    createWeightedContigMapWithNode.localNumElements 2 (weightedArgs weightExample 10) 1 = some 6 := by
  decide

set_option maxRecDepth 8192 in
/-- Witness of the amended C30: the weights 1 and 2 and ten elements on two processes, for
a 32-bit `GlobalOrdinal`. -/
theorem weighted_counts_sum_to_numElements_witness :
    (createWeightedContigMapWithNode.elemsLeft 2 (weightedArgs weightExample 10) 0 = some 1 ∧
      createWeightedContigMapWithNode.localNumElements 2 (weightedArgs weightExample 10) 0
        = some 4 ∧
      createWeightedContigMapWithNode.localNumElements 2 (weightedArgs weightExample 10) 1
        = some 6) ∧
    (∑ q in Finset.range 2,
      (createWeightedContigMapWithNode.args 2 (weightedArgs weightExample 10) q).numLocalElements
        = 10) ∧
    ∃ m, createWeightedContigMapWithNode 32 false 2 (weightedArgs weightExample 10) 0
        = some (.ok m) ∧
      m.numGlobalElements_ = 10 ∧
      (m.numLocalElements_ : Int) =
        (weightExample 0 * (10 : Nat)) / (∑ k in Finset.range 2, weightExample k) +
          (if ((0 : Nat) : Int) < ((10 : Nat) : Int) -
              ∑ q in Finset.range 2,
                (weightExample q * (10 : Nat)) / ∑ k in Finset.range 2, weightExample k
            then 1 else 0) :=
  ⟨weightExample_values.2,
   (weighted_counts_sum_to_numElements 32 false 2 weightExample 10 0 (by decide)
    (fun q hq => by interval_cases q <;> decide) (by decide) (by decide)
    (fun q hq => by interval_cases q <;> decide)).2.2.1,
   (weighted_counts_sum_to_numElements 32 false 2 weightExample 10 0 (by decide)
    (fun q hq => by interval_cases q <;> decide) (by decide) (by decide)
    (fun q hq => by interval_cases q <;> decide)).2.2.2⟩

set_option maxRecDepth 8192 in
/-- When the shares are not computed exactly the counts differ from the exact
floors: with the weights 7 and 15 and 22 elements the exact floors are 7 and
15, the `double` computation gives 7 and 14, one element is left and the local
counts are 8 and 14. -/
theorem roundedWeightExample_values :
    ((roundedWeightExample 0 * 22) / 22 = 7 ∧ (roundedWeightExample 1 * 22) / 22 = 15) ∧
    (createWeightedContigMapWithNode.share 2 (weightedArgs roundedWeightExample 22) 0 = some 7 ∧
      createWeightedContigMapWithNode.share 2 (weightedArgs roundedWeightExample 22) 1 = some 14) ∧
    createWeightedContigMapWithNode.elemsLeft 2 (weightedArgs roundedWeightExample 22) 0 = some 1 ∧
    createWeightedContigMapWithNode.localNumElements 2 (weightedArgs roundedWeightExample 22) 0
      = some 8 ∧
    createWeightedContigMapWithNode.localNumElements 2 (weightedArgs roundedWeightExample 22) 1
      = some 14 := by
  decide

set_option maxRecDepth 8192 in
/-- With 49 equal weights and 49 elements every share computed in `double` is
0, and `elemsLeft` is the number of processes. -/
theorem equalWeightExample_values :
    createWeightedContigMapWithNode.share 49 (weightedArgs equalWeightExample 49) 0 = some 0 ∧
    createWeightedContigMapWithNode.elemsLeft 49 (weightedArgs equalWeightExample 49) 0 = some 49 ∧
    createWeightedContigMapWithNode.localNumElements 49 (weightedArgs equalWeightExample 49) 48
      = some 1 := by
  decide

set_option maxRecDepth 16384 in
/-- Counterexample to C30: two processes with the weight 1 and
`numElements = 4294967295`.  Both shares are computed exactly (the `double`
product is 2147483647.5, the stored `int` is 2147483647, the floor of
`1 * 4294967295 / 2`), and `elemsLeft` is 1, inside `[-2, 2]`.  Rank 0 then
increments the largest `int`: its count becomes -2147483648 and is handed to
the contiguous constructor as the `size_t` value 18446744071562067968, so that
the counts handed over sum to 18446744073709551615 and not to `numElements`.
Without the debug checks the constructor returns a Map with this local count;
with them it throws.  On one process with the weight 1 and
`numElements = 2147483648` the floor computed in `double` is the exact value
2147483648, which is not a value of `int`: the conversion is undefined and so
is the result of the call. -/
theorem weighted_counts_fail_beyond_int :
    (0 ≤ equalWeightExample 0 ∧ 0 ≤ equalWeightExample 1 ∧
      0 < ∑ k in Finset.range 2, equalWeightExample k) ∧
    createWeightedContigMapWithNode.share 2 (weightedArgs equalWeightExample 4294967295) 0 =
      some ((equalWeightExample 0 * (4294967295 : Nat)) /
        ∑ k in Finset.range 2, equalWeightExample k) ∧
    createWeightedContigMapWithNode.share 2 (weightedArgs equalWeightExample 4294967295) 1 =
      some ((equalWeightExample 1 * (4294967295 : Nat)) /
        ∑ k in Finset.range 2, equalWeightExample k) ∧
    createWeightedContigMapWithNode.elemsLeft 2 (weightedArgs equalWeightExample 4294967295) 0 =
      some 1 ∧
    createWeightedContigMapWithNode.localNumElements 2
      (weightedArgs equalWeightExample 4294967295) 0 = some (-2147483648) ∧
    (createWeightedContigMapWithNode.args 2
      (weightedArgs equalWeightExample 4294967295) 0).numLocalElements = 18446744071562067968 ∧
    (createWeightedContigMapWithNode.args 2
      (weightedArgs equalWeightExample 4294967295) 1).numLocalElements = 2147483647 ∧
    ∑ q in Finset.range 2, (createWeightedContigMapWithNode.args 2
      (weightedArgs equalWeightExample 4294967295) q).numLocalElements ≠ 4294967295 ∧
    (∃ m, createWeightedContigMapWithNode 32 false 2
        (weightedArgs equalWeightExample 4294967295) 0 = some (.ok m) ∧
      m.numGlobalElements_ = 4294967295 ∧ m.numLocalElements_ = 18446744071562067968) ∧
    createWeightedContigMapWithNode 32 true 2 (weightedArgs equalWeightExample 4294967295) 0 =
      some (.error (.constructor .sumNotNumGlobal)) ∧
    (Double.div (Double.ofInt (equalWeightExample 0))
        (Double.ofInt (createWeightedContigMapWithNode.sumOfWeights 1
          (weightedArgs equalWeightExample 2147483648)))).map
      (fun myShare => Double.floor (Double.mul myShare (Double.ofInt ((2147483648 : Nat) : Int)))) =
        some ((equalWeightExample 0 * (2147483648 : Nat)) /
          ∑ k in Finset.range 1, equalWeightExample k) ∧
    createWeightedContigMapWithNode.share 1 (weightedArgs equalWeightExample 2147483648) 0 =
      none ∧
    createWeightedContigMapWithNode 32 false 1 (weightedArgs equalWeightExample 2147483648) 0 =
      none := by
  refine ⟨by decide, by decide, by decide, by decide, by decide, by decide, by decide, by decide,
    ⟨_, rfl, by decide, by decide⟩, rfl, by decide, by decide, rfl⟩

/-! ## The even split without wrap-around -/

/-- On a rank of the group the even-split constructor for a fixed-width
`GlobalOrdinal` builds the Map of `Map.mkUniform` when `b - 1` and `b + N` are
values of `GlobalOrdinal`: the embedding without wrap-around describes the
constructor on the partitions whose IDs are representable. -/
theorem mkUniformGO_eq_mkUniform (bits : Nat) (dbg : Bool) (P N : Nat) (b : Int) (r : Nat)
    (hr : r < P) (hlo : fitsGO bits (b - 1) = true) (hhi : fitsGO bits (b + N) = true) :
    Map.mkUniformGO bits dbg P (uniformArgs N b .GloballyDistributed) r =
      Map.mkUniform dbg P (uniformArgs N b .GloballyDistributed) r := by
  by_cases hN : N = GSTI
  · subst hN
    simp only [Map.mkUniformGO, Map.mkUniform, uniformArgs, reduceAllMin_const,
      reduceAllMax_const, ne_eq, not_true_eq_false, or_self, and_false, if_false, if_true]
  · obtain ⟨m, h1, a1, a2, a3, -, -, -, -, a8, a9, -⟩ :=
      mkUniformGO_dist_spec bits dbg P N b r hN hr hlo hhi
    obtain ⟨m', h2, b1, b2, b3, -⟩ := mkUniform_dist_spec dbg P N b r hN
    rw [h1, h2]
    congr 1
    have h1' := h1
    have h2' := h2
    have hn : ¬ (N < 1 ∧ N ≠ 0) := by omega
    simp only [Map.mkUniformGO, uniformArgs, reduceAllMin_const, reduceAllMax_const, ne_eq,
      not_true_eq_false, or_self, and_false, if_false, hn, hN] at h1'
    simp only [Map.mkUniform, uniformArgs, reduceAllMin_const, reduceAllMax_const, ne_eq,
      not_true_eq_false, or_self, and_false, if_false, hn, hN] at h2'
    injection h1' with h1'
    injection h2' with h2'
    have e1 : m.minMyGID_ = m'.minMyGID_ := by rw [a2, b2]
    have e2 : m.maxMyGID_ = m'.maxMyGID_ := by rw [a3, b3, a2, b2, a1, b1]
    have e3 : m.maxAllGID_ = m'.maxAllGID_ := by
      rw [a9, ← h2']
    subst h1'
    subst h2'
    simp only [Map.mk.injEq, true_and, and_true]
    exact ⟨e1, e2, e3⟩

/-! ## The local-count construction without wrap-around -/

/-- The global count of the local-count construction for a fixed-width
`GlobalOrdinal` is the one of `Map.contigNumGlobal` on a rank of the group: a
given count always, and the computed one when the sum of the local counts is a
value of `GlobalOrdinal`. -/
theorem contigNumGlobalGO_eq (bits : Nat) (P : Nat) (args : Nat → ContigArgs) (q : Nat)
    (hq : q < P) (hbits : bits ≤ 64)
    (htot : (args q).numGlobalElements = GSTI →
      fitsGO bits ((∑ k in Finset.range P, (args k).numLocalElements : Nat) : Int) = true) :
    Map.contigNumGlobalGO bits P args q = Map.contigNumGlobal P args q := by
  by_cases hs : (args q).numGlobalElements = GSTI
  · rw [contigNumGlobalGO_sentinel bits P args q hq hbits hs (htot hs),
      contigNumGlobal_sentinel P args q hq hs]
  · simp only [Map.contigNumGlobalGO, Map.contigNumGlobal, ne_eq, hs, not_false_eq_true, if_true]

/-- On a rank of a group whose ranks agree on passing the sentinel, the
local-count constructor for a fixed-width `GlobalOrdinal` returns, and its
outcome is the one of `Map.mkContig`, when the offset of the rank, its two ID
bounds, the largest ID of the Map and (with the sentinel) the sum of the local
counts are values of `GlobalOrdinal`: the embedding without wrap-around
describes the constructor on the partitions whose IDs are representable. -/
theorem mkContigGO_eq_mkContig (bits : Nat) (dbg : Bool) (P : Nat) (args : Nat → ContigArgs)
    (r : Nat) (hr : r < P) (hbits : bits ≤ 64)
    (hsame : ∀ q, q < P →
      ((args q).numGlobalElements = GSTI ↔ (args r).numGlobalElements = GSTI))
    (hmin : fitsGO bits
      ((args r).indexBase + ∑ q in Finset.range r, ((args q).numLocalElements : Int)) = true)
    (hmax : fitsGO bits
      ((args r).indexBase + ∑ q in Finset.range r, ((args q).numLocalElements : Int) +
        (args r).numLocalElements - 1) = true)
    (htot : (args r).numGlobalElements = GSTI →
      fitsGO bits ((∑ k in Finset.range P, (args k).numLocalElements : Nat) : Int) = true)
    (hall : fitsGO bits
      ((args r).indexBase + (Map.contigNumGlobal P args r : Int) - 1) = true) :
    Map.mkContigGO bits dbg P args r = some (Map.mkContig dbg P args r) := by
  have hnum : ∀ q, q < P →
      Map.contigNumGlobalGO bits P args q = Map.contigNumGlobal P args q :=
    fun q hq => contigNumGlobalGO_eq bits P args q hq hbits
      (fun hs => htot ((hsame q hq).mp hs))
  have hmix : ¬ (P > 1 ∧ ∃ q, q < P ∧
      ¬ ((args q).numGlobalElements = GSTI ↔ (args r).numGlobalElements = GSTI)) := by
    rintro ⟨-, q, hq, hne⟩
    exact hne (hsame q hq)
  have hmod := contigMyOffsetGO_modEq bits args r
  have h1 : Map.contigMyOffset args r =
      ∑ q in Finset.range r, ((args q).numLocalElements : Int) := contigMyOffset_eq args r
  have h2 : wrapGO bits ((args r).indexBase + Map.contigMyOffsetGO bits args r) =
      (args r).indexBase + Map.contigMyOffset args r := by
    rw [h1]
    exact wrapGO_eq_of_modEq bits _ _ (hmod.add_left _) hmin
  have h3 : wrapGO bits ((args r).indexBase + Map.contigMyOffsetGO bits args r +
      (args r).numLocalElements - 1) =
      (args r).indexBase + Map.contigMyOffset args r + (args r).numLocalElements - 1 := by
    rw [h1]
    exact wrapGO_eq_of_modEq bits _ _ (((hmod.add_left _).add_right _).sub_right 1) hmax
  have h4 : wrapGO bits ((args r).indexBase + (Map.contigNumGlobal P args r : Int) - 1) =
      (args r).indexBase + (Map.contigNumGlobal P args r : Int) - 1 :=
    wrapGO_of_fits bits _ hall
  have h5 : checkIsDist P (Map.contigNumGlobalGO bits P args) (fun q => (args q).numLocalElements) r
      = checkIsDist P (Map.contigNumGlobal P args) (fun q => (args q).numLocalElements) r := by
    rw [Bool.eq_iff_iff, checkIsDist_iff P _ _ r hr, checkIsDist_iff P _ _ r hr]
    constructor
    · rintro ⟨h, q, hq, hne⟩
      exact ⟨h, q, hq, by rw [← hnum q hq]; exact hne⟩
    · rintro ⟨h, q, hq, hne⟩
      exact ⟨h, q, hq, by rw [hnum q hq]; exact hne⟩
  unfold Map.mkContigGO Map.mkContig
  simp only []
  rw [if_neg hmix, hnum r hr, h2, h3, h4, h5]
  split_ifs <;> rfl

end Tpetra

/-! ## Anasazi::BasicEigenproblem: setProblem and the set flag -/

namespace Anasazi

variable {OP MV SOL : Type}

/-- What `setProblem` does, case by case: it returns false without changing
the object when the operator, the initial vector or NEV is missing; otherwise
it either throws with `_isSet` unchanged, or returns true with `_isSet` set, an
operator and a positive NEV, the initial vector and NEV being unchanged and
the calls of `Clone` having returned. -/
theorem setProblem_cases (C1 C2 : MV → Int → Option MV) (s : BasicEigenproblem OP MV SOL) :
    (((s._AOp.isNone ∧ s._Op.isNone) ∨ s._InitVec.isNone ∨ s._nev = 0) ∧
      s.setProblem C1 C2 = (s, .returned false)) ∨
    (¬ ((s._AOp.isNone ∧ s._Op.isNone) ∨ s._InitVec.isNone ∨ s._nev = 0) ∧
      (((s.setProblem C1 C2).2 = .threw ∧ (s.setProblem C1 C2).1._isSet = s._isSet ∧
          (s.setProblem C1 C2).1._nev = s._nev ∧
          (s.setProblem C1 C2).1._InitVec = s._InitVec ∧
          (s._Op.isSome → (s.setProblem C1 C2).1._Op = s._Op) ∧
          ¬ (0 < s._nev ∧ (∀ v, s._InitVec = some v →
            (C1 v s._nev).isSome ∧ (s._isSym = false → (C2 v s._nev).isSome)))) ∨
        ((s.setProblem C1 C2).2 = .returned true ∧ (s.setProblem C1 C2).1._isSet = true ∧
          (s.setProblem C1 C2).1._Op.isSome ∧ (s.setProblem C1 C2).1._InitVec = s._InitVec ∧
          (s.setProblem C1 C2).1._nev = s._nev ∧ 0 < s._nev ∧
          (∀ v, s._InitVec = some v →
            (C1 v s._nev).isSome ∧ (s._isSym = false → (C2 v s._nev).isSome))))) := by
  obtain ⟨AOp, MOp, Op, Prec, InitVec, Aux, Evecs, Espace, index, Evals, nev, isSym, isSet, sol⟩ := s
  rcases lt_trichotomy nev 0 with hn | hn | hn
  · have hn0 : ¬ nev = 0 := by omega
    have hn1 : ¬ 0 < nev := by omega
    cases AOp <;> cases Op <;> cases InitVec <;> cases isSym <;>
      simp [BasicEigenproblem.setProblem, newVector, hn, hn0, hn1] <;>
      split <;> simp_all
  · subst hn
    cases AOp <;> cases Op <;> cases InitVec <;>
      simp [BasicEigenproblem.setProblem]
  · have hn0 : ¬ nev = 0 := by omega
    have hn1 : ¬ nev < 0 := by omega
    cases AOp <;> cases Op <;> cases InitVec <;> cases isSym <;>
      simp [BasicEigenproblem.setProblem, newVector, hn, hn0, hn1] <;>
      split <;> simp_all <;> split <;> simp_all

/-- In every reachable state a set problem has an operator, an initial vector
and a positive NEV. -/
theorem reachable_inv [Inhabited SOL] (s : BasicEigenproblem OP MV SOL) (h : Reachable s) :
    s._isSet = true → s._Op.isSome ∧ s._InitVec.isSome ∧ 0 < s._nev := by
  induction h with
  | empty => intro h; cases h
  | standard Op InitVec => intro h; cases h
  | generalized Op M InitVec => intro h; cases h
  | copy s _ ih => exact ih
  | setOperator s Op _ _ => intro h; cases h
  | setA s A _ _ => intro h; cases h
  | setM s M _ _ => intro h; cases h
  | setPrec s Prec _ _ => intro h; cases h
  | setInitVec s InitVec _ _ => intro h; cases h
  | setAuxVecs s AuxVecs _ _ => intro h; cases h
  | setNEV s nev _ _ => intro h; cases h
  | setHermitian s isSym _ _ => intro h; cases h
  | setSolution s sol _ ih => exact ih
  | setProblem C1 C2 s _ ih =>
    rcases setProblem_cases C1 C2 s with
      ⟨-, h⟩ | ⟨hg, ⟨-, h1, h2, h3, h4, -⟩ | ⟨-, -, h2, h3, h4, h5, -⟩⟩
    · rw [h]
      exact ih
    · intro hset
      rw [h1] at hset
      obtain ⟨i1, i2, i3⟩ := ih hset
      rw [h4 i1, h3, h2]
      exact ⟨i1, i2, i3⟩
    · intro _
      rw [h3, h4]
      refine ⟨h2, ?_, h5⟩
      cases hv : s._InitVec with
      | none => exact absurd (Or.inr (Or.inl (by rw [hv]; rfl))) hg
      | some v => rfl

/-- Counterexample to C26: an object with an operator, an initial vector and
NEV = -1 is reachable (standard constructor, then `setNEV (-1)`); `setProblem`
passes its three tests and the allocation of the eigenvalue vector throws, so
the call does not return true, and `isProblemSet ()` stays false. -/
theorem setProblem_negative_nev :
    Reachable (nevExample (-1)) ∧
    ((nevExample (-1)).getOperator.isSome = true ∧ (nevExample (-1)).getInitVec.isSome = true ∧
      (nevExample (-1)).getNEV ≠ 0) ∧
    ((nevExample (-1)).setProblem cloneExample cloneExample).2 = .threw ∧
    ((nevExample (-1)).setProblem cloneExample cloneExample).1.isProblemSet = false :=
  ⟨Reachable.setNEV _ _ (Reachable.standard _ _), by decide, by decide, by decide⟩

/-- With NEV = 4 the same object is set by `setProblem`, which returns true. -/
theorem setProblem_positive_nev :
    ((nevExample 4).setProblem cloneExample cloneExample).2 = .returned true ∧
    ((nevExample 4).setProblem cloneExample cloneExample).1.isProblemSet = true ∧
    ((nevExample 4).setProblem cloneExample cloneExample).1._Evals = some 4 :=
  ⟨by decide, by decide, by decide⟩

/-- C26 (amended): `setProblem` returns false exactly when no operator is
present (A and Op both null), or no initial vector, or NEV = 0; it returns true
exactly when an operator (A or Op) and an initial vector are present, NEV is
positive and the calls of `MVT::Clone` return.  In a reachable state, after a
call that returns, `isProblemSet ()` is the returned value.  Every setter
(`setOperator`, `setA`, `setM`, `setPrec`, `setInitVec`, `setAuxVecs`, `setNEV`,
`setHermitian`) resets `isProblemSet ()` to false, and in every reachable
state `isProblemSet ()` implies that the operator and the initial vector are
non-null and NEV is not zero (it is positive). -/
theorem setProblem_spec [Inhabited SOL] (C1 C2 : MV → Int → Option MV)
    (s : BasicEigenproblem OP MV SOL) :
    ((s.setProblem C1 C2).2 = .returned false ↔
      ((s.getA.isNone ∧ s.getOperator.isNone) ∨ s.getInitVec.isNone ∨ s.getNEV = 0)) ∧
    ((s.setProblem C1 C2).2 = .returned true ↔
      ((s.getA.isSome ∨ s.getOperator.isSome) ∧ 0 < s.getNEV ∧
        ∃ v, s.getInitVec = some v ∧ (C1 v s.getNEV).isSome ∧
          (s._isSym = false → (C2 v s.getNEV).isSome))) ∧
    (Reachable s → ∀ b, (s.setProblem C1 C2).2 = .returned b →
      (s.setProblem C1 C2).1.isProblemSet = b) ∧
    ((∀ Op, (s.setOperator Op).isProblemSet = false) ∧
      (∀ A, (s.setA A).isProblemSet = false) ∧
      (∀ M, (s.setM M).isProblemSet = false) ∧
      (∀ Prec, (s.setPrec Prec).isProblemSet = false) ∧
      (∀ InitVec, (s.setInitVec InitVec).isProblemSet = false) ∧
      (∀ AuxVecs, (s.setAuxVecs AuxVecs).isProblemSet = false) ∧
      (∀ nev, (s.setNEV nev).isProblemSet = false) ∧
      (∀ isSym, (s.setHermitian isSym).isProblemSet = false)) ∧
    (Reachable s → s.isProblemSet = true →
      s.getOperator.isSome ∧ s.getInitVec.isSome ∧ s.getNEV ≠ 0 ∧ 0 < s.getNEV) := by
  simp only [BasicEigenproblem.getA, BasicEigenproblem.getOperator, BasicEigenproblem.getInitVec,
    BasicEigenproblem.getNEV, BasicEigenproblem.isProblemSet]
  refine ⟨?_, ?_, ?_, ⟨fun _ => rfl, fun _ => rfl, fun _ => rfl, fun _ => rfl, fun _ => rfl,
    fun _ => rfl, fun _ => rfl, fun _ => rfl⟩, ?_⟩
  · rcases setProblem_cases C1 C2 s with ⟨hg, h⟩ | ⟨hg, ⟨h, -⟩ | ⟨h, -⟩⟩
    · rw [h]
      exact ⟨fun _ => hg, fun _ => rfl⟩
    · rw [h]
      exact ⟨(fun hc => by cases hc), fun hc => absurd hc hg⟩
    · rw [h]
      exact ⟨(fun hc => by cases hc), fun hc => absurd hc hg⟩
  · rcases setProblem_cases C1 C2 s with ⟨hg, h⟩ | ⟨hg, ⟨h, -, -, -, -, hno⟩ | ⟨h, -, -, -, -, hpos, hcl⟩⟩
    · rw [h]
      refine ⟨(fun hc => by cases hc), ?_⟩
      rintro ⟨hop, hpos, v, hv, -⟩
      exfalso
      rcases hg with ⟨hA, hO⟩ | hI | hN
      · cases hA' : s._AOp <;> cases hO' : s._Op <;> simp_all
      · rw [hv] at hI
        cases hI
      · omega
    · rw [h]
      refine ⟨(fun hc => by cases hc), ?_⟩
      rintro ⟨-, hpos, v, hv, hc1, hc2⟩
      exfalso
      refine hno ⟨hpos, ?_⟩
      intro v' hv'
      rw [hv] at hv'
      cases hv'
      exact ⟨hc1, hc2⟩
    · rw [h]
      refine ⟨fun _ => ?_, fun _ => rfl⟩
      refine ⟨?_, hpos, ?_⟩
      · cases hA' : s._AOp <;> cases hO' : s._Op <;> simp_all
      · cases hv : s._InitVec with
        | none => exact absurd (Or.inr (Or.inl (by rw [hv]; rfl))) hg
        | some v => exact ⟨v, rfl, hcl v hv⟩
  · intro hr b hb
    have hinv := reachable_inv s hr
    rcases setProblem_cases C1 C2 s with ⟨hg, h⟩ | ⟨hg, ⟨h, -⟩ | ⟨h, hset, -⟩⟩
    · rw [h] at hb ⊢
      cases hb
      show s._isSet = false
      cases hs : s._isSet with
      | false => rfl
      | true =>
        exfalso
        obtain ⟨i1, i2, i3⟩ := hinv hs
        rcases hg with ⟨hA, hO⟩ | hI | hN
        · cases hO' : s._Op <;> simp_all
        · cases hI' : s._InitVec <;> simp_all
        · omega
    · rw [h] at hb
      cases hb
    · rw [h] at hb
      cases hb
      exact hset
  · intro hr hs
    obtain ⟨i1, i2, i3⟩ := reachable_inv s hr hs
    exact ⟨i1, i2, by omega, i3⟩

end Anasazi
